import Mathlib

/-! # ThreadPool: a shallow embedding of `threadpool.c`

The pool is a record shared by `n` worker threads running `do_work` and by
client threads calling `dispatch` and `destroy_threadpool`.  Pointers are
`Option` values (`none` is `NULL`), job nodes live in a heap indexed by
address, and the mutex is modelled by the identity of its owner.

Every thread is a small control-flow automaton whose control points are the
source lines between two `pthread_*` calls; a system step lets one thread
advance over one such block.  `pthread_cond_wait` releases the mutex, and a
blocked waiter may resume as soon as the mutex is free again (POSIX allows
spurious wake-ups, so signals are only counted).

The lists `enq`, `deq` and `ran` are history variables: they record the jobs
linked by `dispatch`, unlinked by `do_work`, and called by `do_work`.  They
are written by the steps and never read by them.

A move that would use the pool after it was freed, follow an invalid pointer or
unlock a mutex the thread does not own has no next state (`Res.fault`); a move
that has to wait (a held mutex, an unfinished worker in `pthread_join`) is
`Res.blocked`.  A call "run to its return" (`dispatch`, `destroy_threadpool`)
is the sequence of moves of the calling client alone, from the call to the
point where the client is idle again.

User routines are treated as black boxes that do not touch the pool.
The `int` fields are unbounded integers.

The last section of definitions embeds `get_mime_type` of `server.c`, a pure
function on C strings, modelled on lists of characters.
-/

namespace ThreadPool

/-- Address of a heap-allocated `work_t` node. -/
abbrev Addr := Nat

/-- Identifier of a thread: the index of a worker in `threads`, or the name of a client. -/
abbrev Tid := Nat

/-- A job as the caller sees it: the routine pointer and the argument pointer. -/
abbrev Job := Option Nat × Option Nat

/-- The node `work_t` of the job list; `none` stands for `NULL`. -/
structure work_t where
  routine : Option Nat
  arg : Option Nat
  next : Option Addr
  deriving DecidableEq, Repr

/-- The heap of job nodes: `none` at an address that is not allocated. -/
abbrev Heap := Addr → Option work_t

/-- The threads of the system. -/
inductive Thread where
  | worker (t : Tid)
  | client (c : Tid)
  deriving DecidableEq, Repr

/-- A condition variable, observed through the number of calls made on it. -/
structure cond_t where
  signals : Nat
  broadcasts : Nat
  deriving DecidableEq, Repr

/-- The record `threadpool` (its declaration is in `threadpool.h`; the fields are
those used by `threadpool.c`).  `qlock` holds the owner of the mutex. -/
structure threadpool where
  num_threads : Int
  qsize : Int
  threads : List Tid
  qhead : Option Addr
  qtail : Option Addr
  qlock : Option Thread
  q_not_empty : cond_t
  q_empty : cond_t
  shutdown : Int
  dont_accept : Int
  deriving DecidableEq, Repr

/-- The macro ACCEPT. -/
def ACCEPT : Int := 0

/-- The macro DONT_ACCEPT. -/
def DONT_ACCEPT : Int := 1

/-! ## create_threadpool -/

/-- What the system calls made by `create_threadpool` answer. -/
structure create_env where
  pool_alloc : Bool
  threads_alloc : Bool
  mutex_init : Int
  cond_init_q_empty : Int
  cond_init_q_not_empty : Int
  pthread_create : Nat → Int

/-- The system calls made by `create_threadpool`, in program order. -/
inductive sys_event where
  | print_illegal
  | calloc_pool (ok : Bool)
  | calloc_threads (ok : Bool)
  | mutex_init (rc : Int)
  | cond_init_q_empty (rc : Int)
  | cond_init_q_not_empty (rc : Int)
  | pthread_create (i : Nat) (rc : Int)
  | pthread_join (i : Nat)
  | mutex_destroy
  | cond_destroy_q_empty
  | cond_destroy_q_not_empty
  | free_threads
  | free_pool
  deriving DecidableEq, Repr

/-- The loop of lines 81-96: start worker `i`, `i+1`, ... until `remaining` workers
have been started or one `pthread_create` fails.  Returns the handle array, the
index of the failed start if any, and the calls made. -/
def start_workers (rc : Nat → Int) :
    Nat → Nat → List Tid → List Tid × Option Nat × List sys_event
  | 0, _, threads => (threads, none, [])
  | remaining + 1, i, threads =>
    if rc i ≠ 0 then
      (threads, some i, [sys_event.pthread_create i (rc i)])
    else
      let r := start_workers rc remaining (i + 1) (threads.set i i)
      (r.1, r.2.1, sys_event.pthread_create i 0 :: r.2.2)

/-- Outcome of `create_threadpool`: the returned pool (`none` is `NULL`), the
workers that were started and are still running `do_work` on the pool record,
and the system calls made. -/
structure create_result where
  ret : Option threadpool
  started : List Tid
  trace : List sys_event

/-- The workers of a trace that were started and not joined afterwards. -/
def live_workers : List sys_event → List Tid
  | [] => []
  | sys_event.pthread_create i rc :: rest =>
    if rc = 0 ∧ sys_event.pthread_join i ∉ rest then i :: live_workers rest
    else live_workers rest
  | _ :: rest => live_workers rest

/-- Has the trace released the pool record? -/
def pool_released (trace : List sys_event) : Bool :=
  decide (sys_event.free_pool ∈ trace)

/-- The function `create_threadpool` (lines 15-99); `MAXT_IN_POOL` is a constant of
`threadpool.h`. -/
def create_threadpool (MAXT_IN_POOL : Int) (env : create_env) (num_threads_in_pool : Int) :
    create_result :=
  if num_threads_in_pool > MAXT_IN_POOL ∨ num_threads_in_pool < 1 then
    ⟨none, [], [sys_event.print_illegal]⟩
  else if ¬ env.pool_alloc then
    ⟨none, [], [sys_event.calloc_pool false]⟩
  else
    let t0 : List sys_event := [sys_event.calloc_pool true]
    let p0 : threadpool :=
      { num_threads := 0, qsize := 0, threads := [], qhead := none, qtail := none,
        qlock := none, q_not_empty := ⟨0, 0⟩, q_empty := ⟨0, 0⟩, shutdown := 0,
        dont_accept := 0 }
    let p1 := { p0 with num_threads := num_threads_in_pool }
    if ¬ env.threads_alloc then
      ⟨none, [], t0 ++ [sys_event.calloc_threads false, sys_event.free_pool]⟩
    else
      let t1 := t0 ++ [sys_event.calloc_threads true]
      let p2 := { p1 with threads := List.replicate p1.num_threads.toNat 0 }
      let p3 := { p2 with qhead := none, qtail := none, qsize := 0 }
      let p4 := { p3 with shutdown := ACCEPT, dont_accept := ACCEPT }
      if env.mutex_init ≠ 0 then
        ⟨none, [], t1 ++ [sys_event.mutex_init env.mutex_init, sys_event.free_threads,
          sys_event.free_pool]⟩
      else
        let t2 := t1 ++ [sys_event.mutex_init 0]
        if env.cond_init_q_empty ≠ 0 then
          ⟨none, [], t2 ++ [sys_event.cond_init_q_empty env.cond_init_q_empty,
            sys_event.mutex_destroy, sys_event.free_threads, sys_event.free_pool]⟩
        else
          let t3 := t2 ++ [sys_event.cond_init_q_empty 0]
          if env.cond_init_q_not_empty ≠ 0 then
            ⟨none, [], t3 ++ [sys_event.cond_init_q_not_empty env.cond_init_q_not_empty,
              sys_event.mutex_destroy, sys_event.cond_destroy_q_empty,
              sys_event.free_threads, sys_event.free_pool]⟩
          else
            let t4 := t3 ++ [sys_event.cond_init_q_not_empty 0]
            let r := start_workers env.pthread_create p4.num_threads.toNat 0 p4.threads
            match r.2.1 with
            | some _ =>
              let t5 := t4 ++ r.2.2 ++ [sys_event.mutex_destroy,
                sys_event.cond_destroy_q_empty, sys_event.cond_destroy_q_not_empty,
                sys_event.free_threads, sys_event.free_pool]
              ⟨none, live_workers t5, t5⟩
            | none =>
              let t5 := t4 ++ r.2.2
              ⟨some { p4 with threads := r.1 }, live_workers t5, t5⟩

/-- The environment in which no system call fails. -/
def env_ok : create_env :=
  { pool_alloc := true, threads_alloc := true, mutex_init := 0, cond_init_q_empty := 0,
    cond_init_q_not_empty := 0, pthread_create := fun _ => 0 }

/-! ## The running system -/

/-- Control points of `do_work`; each is named after the block it is about to run. -/
inductive wpc where
  /-- line 178: `pthread_mutex_lock`. -/
  | lock
  /-- line 181: `if (shutdown)`, mutex held. -/
  | check
  /-- line 189: `while (!qsize)`, mutex held. -/
  | loop
  /-- line 193: entering `pthread_cond_wait` on `q_not_empty`, mutex held. -/
  | wait
  /-- line 193: blocked inside `pthread_cond_wait`, mutex released. -/
  | blocked
  /-- line 194: `if (shutdown)` after the wait, mutex held. -/
  | woken
  /-- lines 184-185 and 197-198: `pthread_mutex_unlock; return NULL`. -/
  | exit
  /-- lines 202-213: unlink the head job, mutex held. -/
  | dequeue
  /-- line 215: `pthread_mutex_unlock`, holding `temp`. -/
  | unlock (temp : Option Addr)
  /-- line 218: `temp->routine(temp->arg)`. -/
  | run (temp : Option Addr)
  /-- line 220: `free(temp)`. -/
  | free (temp : Option Addr)
  /-- the thread has returned. -/
  | done
  deriving DecidableEq, Repr

/-- Control points of `dispatch`. -/
inductive ppc where
  /-- line 105: `pthread_mutex_lock`. -/
  | lock1
  /-- lines 107-108: first test of `dont_accept`, mutex held. -/
  | check1
  /-- line 110: `pthread_mutex_unlock`. -/
  | unlock1
  /-- lines 116-120: test of the routine pointer. -/
  | routine
  /-- lines 124-141: test of the argument, allocation and initialisation of the node. -/
  | arg
  /-- line 144: `pthread_mutex_lock`. -/
  | lock2
  /-- lines 147-163: second test of `dont_accept` and the enqueue, mutex held. -/
  | crit2
  /-- line 165: `pthread_cond_signal(q_not_empty)`. -/
  | signal
  /-- line 167: `pthread_mutex_unlock`. -/
  | unlock2
  deriving DecidableEq, Repr

/-- Control points of `destroy_threadpool`. -/
inductive dpc where
  /-- line 229: `pthread_mutex_lock`. -/
  | lock
  /-- line 231: raise `dont_accept`, mutex held. -/
  | flag
  /-- line 233: `while (qsize)`, mutex held. -/
  | loop
  /-- line 234: entering `pthread_cond_wait` on `q_empty`, mutex held. -/
  | wait
  /-- line 234: blocked inside `pthread_cond_wait`, mutex released. -/
  | blocked
  /-- line 236: raise `shutdown`, mutex held. -/
  | shutdown
  /-- line 238: `pthread_cond_broadcast(q_not_empty)`. -/
  | broadcast
  /-- line 241: `pthread_mutex_unlock`. -/
  | unlock
  /-- lines 246-247: the join loop at index `i`. -/
  | join (i : Nat)
  /-- lines 250-254: destroy the mutex and the conditions, free the pool, return. -/
  | cleanup
  deriving DecidableEq, Repr

/-- What a client thread is doing.  A `destroy_threadpool` entered from `dispatch`
(line 119) remembers the routine and argument of the `dispatch` it returns into. -/
inductive cstate where
  | idle
  | dispatch (pc : ppc) (dispatch_to_here : Option Nat) (arg : Option Nat)
      (new_work : Option Addr)
  | destroy (pc : dpc) (caller : Option Job)
  deriving DecidableEq, Repr

/-- The state of the whole system. -/
structure Sys where
  pool : threadpool
  freed : Bool
  heap : Heap
  worker : Tid → wpc
  client : Tid → cstate
  enq : List Job
  deq : List Job
  ran : List Job

/-- Result of asking a thread to advance: the next state, or the thread cannot
advance now, or the behaviour is undefined (use of a freed pool, of an invalid
pointer, of a mutex the thread does not own). -/
inductive Res where
  | next (s : Sys)
  | blocked
  | fault

/-- The call `pthread_mutex_lock`: `none` while another owner holds the mutex. -/
def mutex_lock (tp : threadpool) (me : Thread) : Option threadpool :=
  if tp.qlock = none then some { tp with qlock := some me } else none

/-- The call `pthread_mutex_unlock`: `none` when the caller is not the owner. -/
def mutex_unlock (tp : threadpool) (me : Thread) : Option threadpool :=
  if tp.qlock = some me then some { tp with qlock := none } else none

/-- The call `pthread_cond_signal`. -/
def cond_signal (c : cond_t) : cond_t := { c with signals := c.signals + 1 }

/-- The call `pthread_cond_broadcast`. -/
def cond_broadcast (c : cond_t) : cond_t := { c with broadcasts := c.broadcasts + 1 }

/-- The routine and argument stored in the node a pointer refers to. -/
def job_at (heap : Heap) (p : Option Addr) : Option Job :=
  match p with
  | none => none
  | some a =>
    match heap a with
    | none => none
    | some w => some (w.routine, w.arg)

/-- Store `pc` as the control point of worker `t`. -/
def Sys.setWorker (s : Sys) (t : Tid) (pc : wpc) : Sys :=
  { s with worker := Function.update s.worker t pc }

/-- Store `cs` as the state of client `c`. -/
def Sys.setClient (s : Sys) (c : Tid) (cs : cstate) : Sys :=
  { s with client := Function.update s.client c cs }

/-- Lines 202-213 of `do_work`: decrement `qsize`, take `qhead` into `temp`, then
either reset the list (signalling `q_empty` when `dont_accept` is raised) or
advance `qhead`.  `none` when `qhead->next` reads an invalid pointer. -/
def do_work_dequeue (tp : threadpool) (heap : Heap) : Option (threadpool × Option Addr) :=
  let tp1 := { tp with qsize := tp.qsize - 1 }
  let temp := tp1.qhead
  if tp1.qsize = 0 then
    let tp2 := { tp1 with qhead := none, qtail := none }
    if tp2.dont_accept ≠ 0 then
      some ({ tp2 with q_empty := cond_signal tp2.q_empty }, temp)
    else
      some (tp2, temp)
  else
    match tp1.qhead with
    | none => none
    | some h =>
      match heap h with
      | none => none
      | some w => some ({ tp1 with qhead := w.next }, temp)

/-- Lines 153-163 of `dispatch`: link `new_work` at the tail and increment `qsize`.
`none` when `qtail->next` writes through an invalid pointer. -/
def dispatch_enqueue (tp : threadpool) (heap : Heap) (new_work : Option Addr) :
    Option (threadpool × Heap) :=
  if tp.qsize = 0 then
    some ({ tp with qhead := new_work, qtail := new_work, qsize := tp.qsize + 1 }, heap)
  else
    match tp.qtail with
    | none => none
    | some t =>
      match heap t with
      | none => none
      | some w =>
        let heap1 := Function.update heap t (some { w with next := new_work })
        some ({ tp with qtail := new_work, qsize := tp.qsize + 1 }, heap1)

/-- One step of worker `t` running `do_work` (lines 171-223). -/
def do_work_step (s : Sys) (t : Tid) : Res :=
  match s.worker t with
  | wpc.lock =>
    if s.freed then Res.fault else
    match mutex_lock s.pool (Thread.worker t) with
    | none => Res.blocked
    | some tp => Res.next ({ s with pool := tp }.setWorker t wpc.check)
  | wpc.check =>
    if s.freed then Res.fault else
    if s.pool.shutdown ≠ 0 then Res.next (s.setWorker t wpc.exit)
    else Res.next (s.setWorker t wpc.loop)
  | wpc.loop =>
    if s.freed then Res.fault else
    if s.pool.qsize = 0 then Res.next (s.setWorker t wpc.wait)
    else Res.next (s.setWorker t wpc.dequeue)
  | wpc.wait =>
    if s.freed then Res.fault else
    match mutex_unlock s.pool (Thread.worker t) with
    | none => Res.fault
    | some tp => Res.next ({ s with pool := tp }.setWorker t wpc.blocked)
  | wpc.blocked =>
    if s.freed then Res.fault else
    match mutex_lock s.pool (Thread.worker t) with
    | none => Res.blocked
    | some tp => Res.next ({ s with pool := tp }.setWorker t wpc.woken)
  | wpc.woken =>
    if s.freed then Res.fault else
    if s.pool.shutdown ≠ 0 then Res.next (s.setWorker t wpc.exit)
    else Res.next (s.setWorker t wpc.loop)
  | wpc.exit =>
    if s.freed then Res.fault else
    match mutex_unlock s.pool (Thread.worker t) with
    | none => Res.fault
    | some tp => Res.next ({ s with pool := tp }.setWorker t wpc.done)
  | wpc.dequeue =>
    if s.freed then Res.fault else
    match do_work_dequeue s.pool s.heap with
    | none => Res.fault
    | some (tp, temp) =>
      let s1 : Sys := { s with pool := tp, deq := s.deq ++ (job_at s.heap temp).toList }
      Res.next (s1.setWorker t (wpc.unlock temp))
  | wpc.unlock temp =>
    if s.freed then Res.fault else
    match mutex_unlock s.pool (Thread.worker t) with
    | none => Res.fault
    | some tp => Res.next ({ s with pool := tp }.setWorker t (wpc.run temp))
  | wpc.run temp =>
    match job_at s.heap temp with
    | some (some r, a) =>
      Res.next ({ s with ran := s.ran ++ [(some r, a)] }.setWorker t (wpc.free temp))
    | _ => Res.fault
  | wpc.free temp =>
    match temp with
    | none => Res.next (s.setWorker t wpc.lock)
    | some p =>
      match s.heap p with
      | none => Res.fault
      | some _ => Res.next ({ s with heap := Function.update s.heap p none }.setWorker t wpc.lock)
  | wpc.done => Res.blocked

/-- One step of client `c` inside `destroy_threadpool` (lines 226-255).  When the
call returns, the client resumes the `dispatch` that made it, or becomes idle. -/
def destroy_threadpool_step (s : Sys) (c : Tid) (pc : dpc) (caller : Option Job) : Res :=
  if s.freed then Res.fault else
  match pc with
  | dpc.lock =>
    match mutex_lock s.pool (Thread.client c) with
    | none => Res.blocked
    | some tp => Res.next ({ s with pool := tp }.setClient c (cstate.destroy dpc.flag caller))
  | dpc.flag =>
    Res.next ({ s with pool := { s.pool with dont_accept := DONT_ACCEPT } }.setClient c
      (cstate.destroy dpc.loop caller))
  | dpc.loop =>
    if s.pool.qsize ≠ 0 then Res.next (s.setClient c (cstate.destroy dpc.wait caller))
    else Res.next (s.setClient c (cstate.destroy dpc.shutdown caller))
  | dpc.wait =>
    match mutex_unlock s.pool (Thread.client c) with
    | none => Res.fault
    | some tp => Res.next ({ s with pool := tp }.setClient c (cstate.destroy dpc.blocked caller))
  | dpc.blocked =>
    match mutex_lock s.pool (Thread.client c) with
    | none => Res.blocked
    | some tp => Res.next ({ s with pool := tp }.setClient c (cstate.destroy dpc.loop caller))
  | dpc.shutdown =>
    Res.next ({ s with pool := { s.pool with shutdown := DONT_ACCEPT } }.setClient c
      (cstate.destroy dpc.broadcast caller))
  | dpc.broadcast =>
    let tp := { s.pool with q_not_empty := cond_broadcast s.pool.q_not_empty }
    Res.next ({ s with pool := tp }.setClient c (cstate.destroy dpc.unlock caller))
  | dpc.unlock =>
    match mutex_unlock s.pool (Thread.client c) with
    | none => Res.fault
    | some tp => Res.next ({ s with pool := tp }.setClient c (cstate.destroy (dpc.join 0) caller))
  | dpc.join i =>
    if (i : Int) < s.pool.num_threads then
      match s.pool.threads[i]? with
      | none => Res.fault
      | some t =>
        if s.worker t = wpc.done then
          Res.next (s.setClient c (cstate.destroy (dpc.join (i + 1)) caller))
        else Res.blocked
    else Res.next (s.setClient c (cstate.destroy dpc.cleanup caller))
  | dpc.cleanup =>
    match caller with
    | none => Res.next ({ s with freed := true }.setClient c cstate.idle)
    | some (r, a) =>
      Res.next ({ s with freed := true }.setClient c (cstate.dispatch ppc.arg r a none))

/-- One step of client `c` inside `dispatch` (lines 102-168).  `alloc` is what
`calloc` answers at line 131: `none` for a failed allocation, else an address,
which has to be one that is not allocated (any other answer is not a move). -/
def dispatch_step (s : Sys) (c : Tid) (pc : ppc) (dispatch_to_here arg : Option Nat)
    (new_work : Option Addr) (alloc : Option Addr) : Res :=
  match pc with
  | ppc.lock1 =>
    if s.freed then Res.fault else
    match mutex_lock s.pool (Thread.client c) with
    | none => Res.blocked
    | some tp =>
      Res.next ({ s with pool := tp }.setClient c
        (cstate.dispatch ppc.check1 dispatch_to_here arg new_work))
  | ppc.check1 =>
    if s.freed then Res.fault else
    if s.pool.dont_accept = DONT_ACCEPT then Res.next (s.setClient c cstate.idle)
    else Res.next (s.setClient c (cstate.dispatch ppc.unlock1 dispatch_to_here arg new_work))
  | ppc.unlock1 =>
    if s.freed then Res.fault else
    match mutex_unlock s.pool (Thread.client c) with
    | none => Res.fault
    | some tp =>
      Res.next ({ s with pool := tp }.setClient c
        (cstate.dispatch ppc.routine dispatch_to_here arg new_work))
  | ppc.routine =>
    match dispatch_to_here with
    | none => Res.next (s.setClient c (cstate.destroy dpc.lock (some (dispatch_to_here, arg))))
    | some _ => Res.next (s.setClient c (cstate.dispatch ppc.arg dispatch_to_here arg new_work))
  | ppc.arg =>
    match arg with
    | none => Res.next (s.setClient c cstate.idle)
    | some _ =>
      match alloc with
      | none => Res.next (s.setClient c cstate.idle)
      | some p =>
        match s.heap p with
        | some _ => Res.blocked
        | none =>
          let w : work_t := { routine := dispatch_to_here, arg := arg, next := none }
          Res.next ({ s with heap := Function.update s.heap p (some w) }.setClient c
            (cstate.dispatch ppc.lock2 dispatch_to_here arg (some p)))
  | ppc.lock2 =>
    if s.freed then Res.fault else
    match mutex_lock s.pool (Thread.client c) with
    | none => Res.blocked
    | some tp =>
      Res.next ({ s with pool := tp }.setClient c
        (cstate.dispatch ppc.crit2 dispatch_to_here arg new_work))
  | ppc.crit2 =>
    if s.freed then Res.fault else
    if s.pool.dont_accept = DONT_ACCEPT then
      match new_work with
      | none => Res.next (s.setClient c cstate.idle)
      | some p =>
        match s.heap p with
        | none => Res.fault
        | some _ =>
          Res.next ({ s with heap := Function.update s.heap p none }.setClient c cstate.idle)
    else
      match dispatch_enqueue s.pool s.heap new_work with
      | none => Res.fault
      | some (tp, heap) =>
        let s1 : Sys := { s with pool := tp, heap := heap, enq := s.enq ++ [(dispatch_to_here, arg)] }
        Res.next (s1.setClient c (cstate.dispatch ppc.signal dispatch_to_here arg new_work))
  | ppc.signal =>
    if s.freed then Res.fault else
    let tp := { s.pool with q_not_empty := cond_signal s.pool.q_not_empty }
    Res.next ({ s with pool := tp }.setClient c
      (cstate.dispatch ppc.unlock2 dispatch_to_here arg new_work))
  | ppc.unlock2 =>
    if s.freed then Res.fault else
    match mutex_unlock s.pool (Thread.client c) with
    | none => Res.fault
    | some tp => Res.next ({ s with pool := tp }.setClient c cstate.idle)

/-- The moves of the system: a worker advances, an idle client calls `dispatch` or
`destroy_threadpool`, or a client inside a call advances (`alloc` is the answer
of `calloc`, read only at line 131). -/
inductive Label where
  | worker (t : Tid)
  | call_dispatch (c : Tid) (dispatch_to_here arg : Option Nat)
  | call_destroy (c : Tid)
  | client (c : Tid) (alloc : Option Addr)
  deriving DecidableEq, Repr

/-- One move of the system. -/
def step (s : Sys) : Label → Res
  | Label.worker t => do_work_step s t
  | Label.call_dispatch c r a =>
    match s.client c with
    | cstate.idle => Res.next (s.setClient c (cstate.dispatch ppc.lock1 r a none))
    | _ => Res.blocked
  | Label.call_destroy c =>
    match s.client c with
    | cstate.idle => Res.next (s.setClient c (cstate.destroy dpc.lock none))
    | _ => Res.blocked
  | Label.client c alloc =>
    match s.client c with
    | cstate.idle => Res.blocked
    | cstate.dispatch pc r a nw => dispatch_step s c pc r a nw alloc
    | cstate.destroy pc caller => destroy_threadpool_step s c pc caller

/-- Run a schedule: the moves of a list, in order. -/
def run (s : Sys) : List Label → Res
  | [] => Res.next s
  | l :: ls =>
    match step s l with
    | Res.next s1 => run s1 ls
    | r => r

/-- The system right after a successful `create_threadpool`: the returned pool,
no job node allocated, the started workers at the top of `do_work`, every
client idle. -/
def boot (tp : threadpool) (started : List Tid) : Sys :=
  { pool := tp, freed := false, heap := fun _ => none,
    worker := fun t => if t ∈ started then wpc.lock else wpc.done,
    client := fun _ => cstate.idle, enq := [], deq := [], ran := [] }

/-- The states the system can be in after `create_threadpool MAXT_IN_POOL env n`
has returned a pool. -/
inductive Reachable (MAXT_IN_POOL : Int) (n : Int) : Sys → Prop where
  | init (env : create_env) (tp : threadpool)
      (h : (create_threadpool MAXT_IN_POOL env n).ret = some tp) :
      Reachable MAXT_IN_POOL n (boot tp (create_threadpool MAXT_IN_POOL env n).started)
  | step (s : Sys) (l : Label) (s1 : Sys) (h : Reachable MAXT_IN_POOL n s)
      (hs : step s l = Res.next s1) : Reachable MAXT_IN_POOL n s1

/-- A client's call run to completion with no other thread moving: client `c`
advances until it is idle again, for at most `fuel` steps. -/
def solo (c : Tid) (alloc : Option Addr) : Nat → Sys → Res
  | 0, _ => Res.blocked
  | fuel + 1, s =>
    match s.client c with
    | cstate.idle => Res.next s
    | _ =>
      match step s (Label.client c alloc) with
      | Res.next s1 => solo c alloc fuel s1
      | r => r

/-- The call `dispatch(from_me, dispatch_to_here, arg)` made by the idle client
`c` and run to its return. -/
def dispatch (s : Sys) (c : Tid) (dispatch_to_here arg : Option Nat) (alloc : Option Addr) :
    Res :=
  match step s (Label.call_dispatch c dispatch_to_here arg) with
  | Res.next s1 => solo c alloc (32 + s.pool.num_threads.toNat) s1
  | r => r

/-- The call `destroy_threadpool(destroyme)` made by the idle client `c` and run
to its return. -/
def destroy_threadpool (s : Sys) (c : Tid) : Res :=
  match step s (Label.call_destroy c) with
  | Res.next s1 => solo c none (32 + s.pool.num_threads.toNat) s1
  | r => r

/-- The addresses linked from `p`, following `next` for at most `fuel` nodes. -/
def walk (heap : Heap) : Nat → Option Addr → List Addr
  | 0, _ => []
  | _ + 1, none => []
  | fuel + 1, some a =>
    match heap a with
    | none => [a]
    | some w => a :: walk heap fuel w.next

/-- The addresses of the jobs linked in the queue of the pool, head first. -/
def queue (s : Sys) : List Addr := walk s.heap s.pool.qsize.toNat s.pool.qhead

/-- The jobs linked in the queue of the pool, head first. -/
def jobs (s : Sys) : List Job := (queue s).filterMap (fun a => job_at s.heap (some a))

/-! ## Invariants of the running system -/

/-- Does a worker at this control point hold the mutex? -/
def wlocked : wpc → Bool
  | wpc.check | wpc.loop | wpc.wait | wpc.woken | wpc.exit | wpc.dequeue | wpc.unlock _ => true
  | _ => false

/-- Does a client in this state hold the mutex inside a call? -/
def clocked : cstate → Bool
  | cstate.dispatch ppc.check1 _ _ _ | cstate.dispatch ppc.unlock1 _ _ _
  | cstate.dispatch ppc.crit2 _ _ _ | cstate.dispatch ppc.signal _ _ _
  | cstate.dispatch ppc.unlock2 _ _ _ => true
  | cstate.destroy dpc.flag _ | cstate.destroy dpc.loop _ | cstate.destroy dpc.wait _
  | cstate.destroy dpc.shutdown _ | cstate.destroy dpc.broadcast _
  | cstate.destroy dpc.unlock _ => true
  | _ => false

/-- What `destroy_threadpool` has established when it stands at a control point. -/
def dinv (s : Sys) : dpc → Prop
  | dpc.lock | dpc.flag => True
  | dpc.loop | dpc.wait | dpc.blocked => s.pool.dont_accept = 1
  | dpc.shutdown => s.pool.dont_accept = 1 ∧ s.pool.qsize = 0
  | dpc.broadcast | dpc.unlock => s.pool.shutdown ≠ 0
  | dpc.join i => s.pool.shutdown ≠ 0 ∧ ∀ t, t < i → s.worker t = wpc.done
  | dpc.cleanup => s.pool.shutdown ≠ 0 ∧ ∀ t, s.worker t = wpc.done

structure Inv1 (N : Nat) (s : Sys) : Prop where
  nthreads : s.pool.num_threads = N
  threads : s.pool.threads = List.range N
  absent : ∀ t, N ≤ t → s.worker t = wpc.done
  sh_imp : s.pool.shutdown ≠ 0 → s.pool.dont_accept = 1 ∧ s.pool.qsize = 0
  freed_imp : s.freed = true → s.pool.shutdown ≠ 0 ∧ ∀ t, s.worker t = wpc.done
  wlock : ∀ t, wlocked (s.worker t) = true → s.pool.qlock = some (Thread.worker t)
  clock : ∀ c, clocked (s.client c) = true → s.pool.qlock = some (Thread.client c)
  wdeq : ∀ t, s.worker t = wpc.dequeue → s.pool.qsize ≠ 0
  dstage : ∀ c pc caller, s.client c = cstate.destroy pc caller → dinv s pc

/-- `chain heap p q`: following `next` from `p` visits exactly the nodes `q`, all
allocated, and ends at `NULL`. -/
def chain (heap : Heap) : Option Addr → List Addr → Prop
  | p, [] => p = none
  | p, a :: q => p = some a ∧ ∃ w, heap a = some w ∧ chain heap w.next q

/-- The node a worker holds in `temp`. -/
def wtemp : wpc → Option Addr
  | wpc.unlock temp | wpc.run temp | wpc.free temp => temp
  | _ => none

/-- The job a worker has unlinked and not called yet. -/
def wjob (heap : Heap) : wpc → Multiset Job
  | wpc.unlock temp | wpc.run temp => ((job_at heap temp).toList : Multiset Job)
  | _ => 0

/-- The node a client has allocated in `new_work` and not linked yet. -/
def cnode : cstate → Option Addr
  | cstate.dispatch ppc.lock2 _ _ nw | cstate.dispatch ppc.crit2 _ _ nw => nw
  | _ => none

/-- The node a thread holds outside the queue. -/
def owned (s : Sys) : Thread → Option Addr
  | Thread.worker t => wtemp (s.worker t)
  | Thread.client c => cnode (s.client c)

/-- The jobs unlinked by the `N` workers and not called yet. -/
def inflight (N : Nat) (s : Sys) : Multiset Job :=
  ∑ t in Finset.range N, wjob s.heap (s.worker t)

/-- The invariant of the job list and of the nodes held outside it; `q` lists the
addresses linked in the queue. -/
structure Inv2 (s : Sys) (q : List Addr) : Prop where
  chain : chain s.heap s.pool.qhead q
  size : s.pool.qsize = q.length
  tail : s.pool.qtail = q.getLast?
  nodup : q.Nodup
  own_alloc : ∀ x p, owned s x = some p → ∃ w, s.heap p = some w
  own_notq : ∀ x p, owned s x = some p → p ∉ q
  own_inj : ∀ x y p, owned s x = some p → owned s y = some p → x = y
  node : ∀ c pc r a nw, s.client c = cstate.dispatch pc r a nw →
    pc = ppc.lock2 ∨ pc = ppc.crit2 →
    ∃ p, nw = some p ∧ s.heap p = some { routine := r, arg := a, next := none }
  enq_eq : s.enq = s.deq ++ q.filterMap (fun a => job_at s.heap (some a))

/-- The accounting of unlinked jobs: each one has been called or is pending in
exactly one worker. -/
def Acct (N : Nat) (s : Sys) : Prop :=
  (s.deq : Multiset Job) = (s.ran : Multiset Job) + inflight N s

/-- The pool record that a successful `create_threadpool` returns. -/
def fresh_pool (n : Int) : threadpool :=
  { num_threads := n, qsize := 0, threads := List.range n.toNat, qhead := none, qtail := none,
    qlock := none, q_not_empty := ⟨0, 0⟩, q_empty := ⟨0, 0⟩, shutdown := 0, dont_accept := 0 }

/-- Everything that holds in every state of the running system. -/
structure Inv (N : Nat) (s : Sys) : Prop where
  one : Inv1 N s
  two : ∃ q, Inv2 s q
  acct : Acct N s

/-! ## Runs, schedules and concrete states -/

/-- Has `destroy_threadpool` returned?  The pool record is freed by the last block
of `destroy_threadpool` (lines 250-254), which then returns, and nowhere else. -/
def destroy_returned (s : Sys) : Prop := s.freed = true

/-- Did the move succeed? -/
def Res.isNext : Res → Bool
  | Res.next _ => true
  | _ => false

/-- The state a schedule leads to (the start state if the schedule cannot be run). -/
def after (s : Sys) (ls : List Label) : Sys :=
  match run s ls with
  | Res.next s1 => s1
  | _ => s

/-- The state `s` with a new pool record, heap and list of accepted jobs, and
client `c` in state `cs`. -/
def Sys.at (s : Sys) (tp : threadpool) (heap : Heap) (enq : List Job) (c : Tid)
    (cs : cstate) : Sys :=
  { s with pool := tp, heap := heap, enq := enq, client := Function.update s.client c cs }

/-- The moves of one accepted call `dispatch(pool, r, a)` by client `c`, with
`calloc` answering address `p`. -/
def dispatch_moves (c : Tid) (r a : Nat) (p : Addr) : List Label :=
  Label.call_dispatch c (some r) (some a) :: List.replicate 4 (Label.client c none) ++
    Label.client c (some p) :: List.replicate 4 (Label.client c none)

/-- The moves of worker `t` taking one job from the queue and running it. -/
def job_moves (t : Tid) : List Label := List.replicate 7 (Label.worker t)

/-- The moves of worker `t` seeing `shutdown` and returning. -/
def exit_moves (t : Tid) : List Label := List.replicate 3 (Label.worker t)

/-- The state after `create_threadpool(n)` with no failing system call. -/
def booted (MAXT_IN_POOL n : Int) : Sys :=
  boot (fresh_pool n) (create_threadpool MAXT_IN_POOL env_ok n).started

/-- The schedule of `tester.c`: a pool of 10, 20 jobs dispatched by the main
thread, the jobs taken by the workers in turn, then `destroy_threadpool`. -/
def tester_schedule : List Label :=
  (List.range 20).flatMap (fun i => dispatch_moves 0 7 (i + 1) (100 + i)) ++
  (List.range 20).flatMap (fun i => job_moves (i % 10)) ++
  Label.call_destroy 0 :: List.replicate 6 (Label.client 0 none) ++
  (List.range 10).flatMap exit_moves ++ List.replicate 12 (Label.client 0 none)

/-- The state in which `main` of `tester.c` prints DONE. -/
def tester_done : Sys := after (booted 200 10) tester_schedule

/-- The state of `tester.c` when the 20 jobs are queued and 5 of them have been
taken and run. -/
def tester_midway : Sys := after (booted 200 10) (tester_schedule.take 235)

/-- A pool of one worker with one job queued, on which a second client has
called `destroy_threadpool`; the call has raised `dont_accept` and waits on
`q_empty` for the queue to drain. -/
def draining : Sys :=
  after (booted 200 1)
    (dispatch_moves 0 7 1 100 ++ Label.call_destroy 1 :: List.replicate 4 (Label.client 1 none))

/-- As `draining`, but the first client is inside a second `dispatch`, past its
first test of `dont_accept` and with its node allocated, when `destroy_threadpool`
raises the flag; the client then runs `dispatch` to its return. -/
def draining_late : Sys :=
  after (booted 200 1)
    (dispatch_moves 0 7 1 100 ++
      Label.call_dispatch 0 (some 7) (some 2) :: List.replicate 4 (Label.client 0 none) ++
      Label.client 0 (some 101) ::
      Label.call_destroy 1 :: List.replicate 4 (Label.client 1 none) ++
      List.replicate 2 (Label.client 0 none))

/-- The schedule of `dispatch(pool, NULL, arg)` on a fresh pool of one worker:
the client enters `destroy_threadpool`, the worker sees `shutdown` and returns,
the client joins it, frees the pool, returns into `dispatch` and allocates a node. -/
def null_routine_schedule : List Label :=
  Label.call_dispatch 0 none (some 1) :: List.replicate 10 (Label.client 0 none) ++
  exit_moves 0 ++ List.replicate 3 (Label.client 0 none) ++ [Label.client 0 (some 100)]

/-- No system call of `create_threadpool` fails in this environment. -/
def create_env.ok (env : create_env) : Prop :=
  env.pool_alloc = true ∧ env.threads_alloc = true ∧ env.mutex_init = 0 ∧
    env.cond_init_q_empty = 0 ∧ env.cond_init_q_not_empty = 0 ∧ ∀ i, env.pthread_create i = 0

/-- The environment in which the start of the second worker (index 1) fails with
EAGAIN and every other system call succeeds. -/
def env_second_start_fails : create_env :=
  { env_ok with pthread_create := fun i => if i = 1 then 11 else 0 }

/-- A pool of two workers with one job queued and no thread inside a call. -/
def one_queued : Sys := after (booted 200 2) (dispatch_moves 0 7 1 100)

/-- Does a worker at this control point hold a node in `temp`? -/
def wholds (pc : wpc) (temp : Option Addr) : Prop :=
  pc = wpc.unlock temp ∨ pc = wpc.run temp ∨ pc = wpc.free temp

/-- Is this the state of a client inside `dispatch` at one of the given control points? -/
def inside (cs : cstate) (pcs : List ppc) (r a : Option Nat) : Prop :=
  ∃ pc nw, cs = cstate.dispatch pc r a nw ∧ pc ∈ pcs

/-- Further facts that hold in every state of the running system: the flags are 0
or 1; a worker that owns the mutex stands inside a critical section; the `temp`
of a worker is not NULL; every job ever linked has a routine and an argument; a
client past the test of the argument has one, and a client past the test of the
routine without a routine has already freed the pool. -/
structure Inv3 (s : Sys) : Prop where
  da01 : s.pool.dont_accept = 0 ∨ s.pool.dont_accept = 1
  sh01 : s.pool.shutdown = 0 ∨ s.pool.shutdown = 1
  wown : ∀ t, s.pool.qlock = some (Thread.worker t) → wlocked (s.worker t) = true
  temp_some : ∀ t temp, wholds (s.worker t) temp → temp ≠ none
  enq_ok : ∀ j ∈ s.enq, j.1 ≠ none ∧ j.2 ≠ none
  null_r : ∀ c a, inside (s.client c) [ppc.arg, ppc.lock2, ppc.crit2] none a → s.freed = true
  arg_ok : ∀ c r, ¬ inside (s.client c) [ppc.lock2, ppc.crit2] r none

/-- A pool of two workers with two jobs queued, worker 0 holding the mutex and
about to unlink the head (line 202). -/
def taking : Sys :=
  after (booted 200 2)
    (dispatch_moves 0 7 1 100 ++ dispatch_moves 0 7 2 101 ++ List.replicate 3 (Label.worker 0))

/-- As `taking`, two moves later: worker 0 has unlinked the first job and released
the mutex, and is about to call the routine (line 218); the second job is queued. -/
def running : Sys :=
  after (booted 200 2)
    (dispatch_moves 0 7 1 100 ++ dispatch_moves 0 7 2 101 ++ List.replicate 5 (Label.worker 0))

/-! ## server.c: the MIME type of a file name -/

/-- The C operator `!` on an `int`. -/
def lnot (x : Int) : Int := if x = 0 then 1 else 0

/-- The call `strcmp(a, b)`: 0 for equal strings, else the sign of the first
difference. -/
def strcmp : List Char → List Char → Int
  | [], [] => 0
  | [], _ :: _ => -1
  | _ :: _, [] => 1
  | a :: as, b :: bs => if a = b then strcmp as bs else if a.toNat < b.toNat then -1 else 1

/-- The call `strrchr(name, c)`: the suffix of `name` that starts at the last
occurrence of `c`, or NULL. -/
def strrchr : List Char → Char → Option (List Char)
  | [], _ => none
  | x :: xs, c =>
    match strrchr xs c with
    | some r => some r
    | none => if x = c then some (x :: xs) else none

/-- Lines 804-829 of server.c: the table from the extension of `name` to a MIME type,
NULL for no match. -/
def get_mime_type (name : String) : Option String :=
  match strrchr name.toList '.' with
  | none => none
  | some ext =>
    if lnot (strcmp ext ".html".toList) ≠ 0 ∨ lnot (strcmp ext ".htm".toList) ≠ 0 ∨
        lnot (strcmp ext ".txt".toList) ≠ 0 then some "text/html"
    else if lnot (strcmp ext ".jpg".toList) ≠ 0 ∨ lnot (strcmp ext ".jpeg".toList) ≠ 0 then
      some "image/jpeg"
    else if lnot (strcmp ext ".gif".toList) ≠ 0 then some "image/gif"
    else if lnot (strcmp ext ".png".toList) ≠ 0 then some "image/png"
    else if lnot (strcmp ext ".css".toList) ≠ 0 then some "text/css"
    else if lnot (strcmp ext ".au".toList) ≠ 0 then some "audio/basic"
    else if lnot (strcmp ext ".wav".toList) ≠ 0 then some "audio/wav"
    else if lnot (strcmp ext ".avi".toList) ≠ 0 then some "video/x-msvideo"
    else if lnot (strcmp ext ".mpeg".toList) ≠ 0 ∨
        (if lnot (strcmp ext ".mpg".toList) = 0 then (1 : Int) else 0) ≠ 0 then
      some "video/mpeg"
    else if lnot (strcmp ext ".mp3".toList) ≠ 0 then some "audio/mpeg"
    else none

/-- The status code 403 of server.c (line 30). -/
def FORBIDDEN : Int := 403

/-- Lines 480-487 of `send_file_response`: the status code stored in `*code` when
`get_mime_type` answers NULL for the file name (the function then returns FAILURE);
`none` when the function goes on to send the file. -/
def send_file_response_code (file_name : String) : Option Int :=
  match get_mime_type file_name with
  | none => some FORBIDDEN
  | some _ => none

/-- The extensions of the table of `get_mime_type` that are tested before line 824. -/
def early_extensions : List (List Char) :=
  [".html".toList, ".htm".toList, ".txt".toList, ".jpg".toList, ".jpeg".toList, ".gif".toList,
    ".png".toList, ".css".toList, ".au".toList, ".wav".toList, ".avi".toList]

/-! ## Theorems -/

theorem dinv_congr (s s1 : Sys) (pc : dpc) (hd : s1.pool.dont_accept = s.pool.dont_accept)
    (hq : s1.pool.qsize = s.pool.qsize) (hsh : s1.pool.shutdown = s.pool.shutdown)
    (hw : s1.worker = s.worker) (h : dinv s pc) : dinv s1 pc := by
  cases pc <;> simp_all [dinv]

theorem Inv1.keep {N : Nat} {s : Sys} (h : Inv1 N s) (s1 : Sys)
    (hn : s1.pool.num_threads = s.pool.num_threads) (ht : s1.pool.threads = s.pool.threads)
    (hd : s1.pool.dont_accept = s.pool.dont_accept) (hq : s1.pool.qsize = s.pool.qsize)
    (hsh : s1.pool.shutdown = s.pool.shutdown) (hl : s1.pool.qlock = s.pool.qlock)
    (hf : s1.freed = s.freed) (hw : s1.worker = s.worker) (hc : s1.client = s.client) :
    Inv1 N s1 := by
  constructor
  · rw [hn]; exact h.nthreads
  · rw [ht]; exact h.threads
  · rw [hw]; exact h.absent
  · rw [hsh, hd, hq]; exact h.sh_imp
  · rw [hf, hsh, hw]; exact h.freed_imp
  · rw [hw, hl]; exact h.wlock
  · rw [hc, hl]; exact h.clock
  · rw [hw, hq]; exact h.wdeq
  · intro c pc caller hcs
    rw [hc] at hcs
    exact dinv_congr s s1 pc hd hq hsh hw (h.dstage c pc caller hcs)

theorem Inv1.moveWorker {N : Nat} {s : Sys} (h : Inv1 N s) (t : Tid) (pc : wpc)
    (hnd : s.worker t ≠ wpc.done)
    (hl : wlocked pc = true → s.pool.qlock = some (Thread.worker t))
    (hd : pc = wpc.dequeue → s.pool.qsize ≠ 0) : Inv1 N (s.setWorker t pc) := by
  have hf : s.freed = false := by
    by_contra hf
    exact hnd ((h.freed_imp (by simpa using hf)).2 t)
  constructor
  · exact h.nthreads
  · exact h.threads
  · intro u hu
    have hu1 := h.absent u hu
    have : u ≠ t := by rintro rfl; exact hnd hu1
    simpa [Sys.setWorker, this] using hu1
  · exact h.sh_imp
  · intro hfr
    simp [Sys.setWorker, hf] at hfr
  · intro u hu
    by_cases hut : u = t
    · subst hut
      simp [Sys.setWorker] at hu
      exact hl hu
    · simp [Sys.setWorker, hut] at hu
      exact h.wlock u hu
  · exact h.clock
  · intro u hu
    by_cases hut : u = t
    · subst hut
      simp [Sys.setWorker] at hu
      exact hd hu
    · simp [Sys.setWorker, hut] at hu
      exact h.wdeq u hu
  · intro c pc1 caller hcs
    have h1 := h.dstage c pc1 caller hcs
    cases pc1 with
    | join i =>
      refine ⟨h1.1, fun u hu => ?_⟩
      have hu1 := h1.2 u hu
      have : u ≠ t := by rintro rfl; exact hnd hu1
      simpa [Sys.setWorker, this] using hu1
    | cleanup => exact absurd (h1.2 t) hnd
    | _ => exact h1

theorem Inv1.moveClient {N : Nat} {s : Sys} (h : Inv1 N s) (c : Tid) (cs : cstate)
    (hl : clocked cs = true → s.pool.qlock = some (Thread.client c))
    (hd : ∀ pc caller, cs = cstate.destroy pc caller → dinv s pc) :
    Inv1 N (s.setClient c cs) := by
  constructor
  · exact h.nthreads
  · exact h.threads
  · exact h.absent
  · exact h.sh_imp
  · exact h.freed_imp
  · exact h.wlock
  · intro u hu
    by_cases hut : u = c
    · subst hut
      simp [Sys.setClient] at hu
      exact hl hu
    · simp [Sys.setClient, hut] at hu
      exact h.clock u hu
  · exact h.wdeq
  · intro u pc1 caller hcs
    have key : dinv s pc1 := by
      by_cases hut : u = c
      · subst hut
        simp [Sys.setClient] at hcs
        exact hd pc1 caller hcs
      · simp [Sys.setClient, hut] at hcs
        exact h.dstage u pc1 caller hcs
    exact dinv_congr s _ pc1 rfl rfl rfl rfl key

theorem mutex_lock_some {tp tp1 : threadpool} {me : Thread} (h : mutex_lock tp me = some tp1) :
    tp.qlock = none ∧ tp1 = { tp with qlock := some me } := by
  unfold mutex_lock at h
  split at h
  · exact ⟨by assumption, by simpa using h.symm⟩
  · cases h

theorem mutex_unlock_some {tp tp1 : threadpool} {me : Thread} (h : mutex_unlock tp me = some tp1) :
    tp.qlock = some me ∧ tp1 = { tp with qlock := none } := by
  unfold mutex_unlock at h
  split at h
  · exact ⟨by assumption, by simpa using h.symm⟩
  · cases h

theorem Inv1.lock {N : Nat} {s : Sys} (h : Inv1 N s) {tp : threadpool} {me : Thread}
    (hl : mutex_lock s.pool me = some tp) : Inv1 N { s with pool := tp } := by
  obtain ⟨hfree, rfl⟩ := mutex_lock_some hl
  constructor
  · exact h.nthreads
  · exact h.threads
  · exact h.absent
  · exact h.sh_imp
  · exact h.freed_imp
  · intro u hu
    have := h.wlock u hu
    rw [hfree] at this; cases this
  · intro u hu
    have := h.clock u hu
    rw [hfree] at this; cases this
  · exact h.wdeq
  · intro c pc caller hcs
    exact dinv_congr s _ pc rfl rfl rfl rfl (h.dstage c pc caller hcs)

theorem Inv1.unlock {N : Nat} {s : Sys} (h : Inv1 N s) {tp : threadpool} {me : Thread}
    (hl : mutex_unlock s.pool me = some tp)
    (hme : match me with
      | Thread.worker t => wlocked (s.worker t) = false
      | Thread.client c => clocked (s.client c) = false) :
    Inv1 N { s with pool := tp } := by
  obtain ⟨hown, rfl⟩ := mutex_unlock_some hl
  constructor
  · exact h.nthreads
  · exact h.threads
  · exact h.absent
  · exact h.sh_imp
  · exact h.freed_imp
  · intro u hu
    have := h.wlock u hu
    rw [hown] at this
    injection this with this
    subst this
    simp [hu] at hme
  · intro u hu
    have := h.clock u hu
    rw [hown] at this
    injection this with this
    subst this
    simp [hu] at hme
  · exact h.wdeq
  · intro c pc caller hcs
    exact dinv_congr s _ pc rfl rfl rfl rfl (h.dstage c pc caller hcs)

theorem Inv1.flag {N : Nat} {s : Sys} (h : Inv1 N s) :
    Inv1 N { s with pool := { s.pool with dont_accept := DONT_ACCEPT } } := by
  constructor
  · exact h.nthreads
  · exact h.threads
  · exact h.absent
  · intro hsh
    exact ⟨rfl, (h.sh_imp hsh).2⟩
  · exact h.freed_imp
  · exact h.wlock
  · exact h.clock
  · exact h.wdeq
  · intro c pc caller hcs
    have := h.dstage c pc caller hcs
    cases pc <;> simp_all [dinv, DONT_ACCEPT]

theorem Inv1.shutdown {N : Nat} {s : Sys} (h : Inv1 N s) (hd : s.pool.dont_accept = 1)
    (hq : s.pool.qsize = 0) :
    Inv1 N { s with pool := { s.pool with shutdown := DONT_ACCEPT } } := by
  constructor
  · exact h.nthreads
  · exact h.threads
  · exact h.absent
  · intro _
    exact ⟨hd, hq⟩
  · intro hf
    exact ⟨by simp [DONT_ACCEPT], (h.freed_imp hf).2⟩
  · exact h.wlock
  · exact h.clock
  · exact h.wdeq
  · intro c pc caller hcs
    have := h.dstage c pc caller hcs
    cases pc <;> simp_all [dinv, DONT_ACCEPT]

theorem Inv1.freed {N : Nat} {s : Sys} (h : Inv1 N s) (hsh : s.pool.shutdown ≠ 0)
    (hw : ∀ t, s.worker t = wpc.done) : Inv1 N { s with freed := true } := by
  constructor
  · exact h.nthreads
  · exact h.threads
  · exact h.absent
  · exact h.sh_imp
  · intro _
    exact ⟨hsh, hw⟩
  · exact h.wlock
  · exact h.clock
  · exact h.wdeq
  · intro c pc caller hcs
    exact dinv_congr s _ pc rfl rfl rfl rfl (h.dstage c pc caller hcs)

/-- A change of `qsize` made under the mutex, while `shutdown` is clear. -/
theorem Inv1.resize {N : Nat} {s : Sys} (h : Inv1 N s) (s1 : Sys)
    (hn : s1.pool.num_threads = s.pool.num_threads) (ht : s1.pool.threads = s.pool.threads)
    (hd : s1.pool.dont_accept = s.pool.dont_accept)
    (hsh : s1.pool.shutdown = s.pool.shutdown) (hl : s1.pool.qlock = s.pool.qlock)
    (hf : s1.freed = s.freed) (hw : s1.worker = s.worker) (hc : s1.client = s.client)
    (hsh0 : s.pool.shutdown = 0) (hnw : ∀ t, s.worker t ≠ wpc.dequeue)
    (hnc : ∀ c caller, s.client c ≠ cstate.destroy dpc.shutdown caller) : Inv1 N s1 := by
  constructor
  · rw [hn]; exact h.nthreads
  · rw [ht]; exact h.threads
  · rw [hw]; exact h.absent
  · rw [hsh]; intro hx; exact absurd hsh0 hx
  · rw [hf, hsh, hw]; exact h.freed_imp
  · rw [hw, hl]; exact h.wlock
  · rw [hc, hl]; exact h.clock
  · rw [hw]; intro t ht; exact absurd ht (hnw t)
  · intro c pc caller hcs
    rw [hc] at hcs
    have := h.dstage c pc caller hcs
    cases pc with
    | shutdown => exact absurd hcs (hnc c caller)
    | join i => exact ⟨by rw [hsh]; exact this.1, by rw [hw]; exact this.2⟩
    | cleanup => exact ⟨by rw [hsh]; exact this.1, by rw [hw]; exact this.2⟩
    | _ => simp_all [dinv]

theorem do_work_dequeue_frame {tp tp1 : threadpool} {heap : Heap} {temp : Option Addr}
    (h : do_work_dequeue tp heap = some (tp1, temp)) :
    tp1.num_threads = tp.num_threads ∧ tp1.threads = tp.threads ∧
    tp1.dont_accept = tp.dont_accept ∧ tp1.shutdown = tp.shutdown ∧ tp1.qlock = tp.qlock ∧
    tp1.q_not_empty = tp.q_not_empty ∧ tp1.qsize = tp.qsize - 1 ∧ temp = tp.qhead := by
  unfold do_work_dequeue at h
  simp only at h
  split at h
  · split at h <;> (simp only [Option.some.injEq, Prod.mk.injEq] at h; obtain ⟨rfl, rfl⟩ := h; simp)
  · split at h
    · cases h
    · split at h
      · cases h
      · simp only [Option.some.injEq, Prod.mk.injEq] at h
        obtain ⟨rfl, rfl⟩ := h
        simp

theorem dispatch_enqueue_frame {tp tp1 : threadpool} {heap heap1 : Heap} {nw : Option Addr}
    (h : dispatch_enqueue tp heap nw = some (tp1, heap1)) :
    tp1.num_threads = tp.num_threads ∧ tp1.threads = tp.threads ∧
    tp1.dont_accept = tp.dont_accept ∧ tp1.shutdown = tp.shutdown ∧ tp1.qlock = tp.qlock ∧
    tp1.q_not_empty = tp.q_not_empty ∧ tp1.q_empty = tp.q_empty ∧
    tp1.qsize = tp.qsize + 1 ∧ tp1.qtail = nw := by
  unfold dispatch_enqueue at h
  split at h
  · simp only [Option.some.injEq, Prod.mk.injEq] at h
    obtain ⟨rfl, rfl⟩ := h
    simp
  · split at h
    · cases h
    · split at h
      · cases h
      · simp only [Option.some.injEq, Prod.mk.injEq] at h
        obtain ⟨rfl, rfl⟩ := h
        simp

theorem Inv1.excl_worker {N : Nat} {s : Sys} (h : Inv1 N s) {me : Thread}
    (hq : s.pool.qlock = some me) (u : Tid) (hu : wlocked (s.worker u) = true) :
    me = Thread.worker u := by
  have := h.wlock u hu
  rw [hq] at this
  exact Option.some.inj this

theorem Inv1.excl_client {N : Nat} {s : Sys} (h : Inv1 N s) {me : Thread}
    (hq : s.pool.qlock = some me) (u : Tid) (hu : clocked (s.client u) = true) :
    me = Thread.client u := by
  have := h.clock u hu
  rw [hq] at this
  exact Option.some.inj this

theorem Inv1.worker_ok {N : Nat} {s s1 : Sys} {t : Tid} (h : Inv1 N s)
    (hs : do_work_step s t = Res.next s1) : Inv1 N s1 := by
  unfold ThreadPool.do_work_step at hs
  cases hpc : s.worker t <;> simp only [hpc] at hs
  case lock =>
    split at hs
    · cases hs
    · split at hs
      · cases hs
      · rename_i tp hl
        cases hs
        have h1 := h.lock hl
        exact h1.moveWorker t _ (by simp [hpc]) (fun _ => by simp [(mutex_lock_some hl).2])
          (by simp)
  case check =>
    have hq := h.wlock t (by simp [hpc, wlocked])
    split at hs
    · cases hs
    · split at hs <;> cases hs <;> exact h.moveWorker t _ (by simp [hpc]) (fun _ => hq) (by simp)
  case loop =>
    have hq := h.wlock t (by simp [hpc, wlocked])
    split at hs
    · cases hs
    · split at hs <;> cases hs
      · exact h.moveWorker t _ (by simp [hpc]) (fun _ => hq) (by simp)
      · exact h.moveWorker t _ (by simp [hpc]) (fun _ => hq) (fun _ => by assumption)
  case wait =>
    split at hs
    · cases hs
    · split at hs
      · cases hs
      · rename_i tp hl
        cases hs
        have h1 := h.moveWorker t wpc.blocked (by simp [hpc]) (by simp [wlocked]) (by simp)
        exact h1.unlock (s := s.setWorker t wpc.blocked) hl (by simp [Sys.setWorker, wlocked])
  case blocked =>
    split at hs
    · cases hs
    · split at hs
      · cases hs
      · rename_i tp hl
        cases hs
        have h1 := h.lock hl
        exact h1.moveWorker t _ (by simp [hpc]) (fun _ => by simp [(mutex_lock_some hl).2])
          (by simp)
  case woken =>
    have hq := h.wlock t (by simp [hpc, wlocked])
    split at hs
    · cases hs
    · split at hs <;> cases hs <;> exact h.moveWorker t _ (by simp [hpc]) (fun _ => hq) (by simp)
  case exit =>
    split at hs
    · cases hs
    · split at hs
      · cases hs
      · rename_i tp hl
        cases hs
        have h1 := h.moveWorker t wpc.done (by simp [hpc]) (by simp [wlocked]) (by simp)
        exact h1.unlock (s := s.setWorker t wpc.done) hl (by simp [Sys.setWorker, wlocked])
  case dequeue =>
    have hq := h.wlock t (by simp [hpc, wlocked])
    split at hs
    · cases hs
    · split at hs
      · cases hs
      · rename_i tp temp hd
        cases hs
        obtain ⟨f1, f2, f3, f4, f5, -, -, -⟩ := do_work_dequeue_frame hd
        have h1 := h.moveWorker t (wpc.unlock temp) (by simp [hpc]) (fun _ => hq) (by simp)
        refine h1.resize _ f1 f2 f3 f4 f5 rfl rfl rfl ?_ ?_ ?_
        · by_contra hsh
          exact h.wdeq t hpc (h.sh_imp hsh).2
        · intro u hu
          by_cases hut : u = t
          · subst hut; simp [Sys.setWorker] at hu
          · simp [Sys.setWorker, hut] at hu
            have := h.excl_worker hq u (by simp [hu, wlocked])
            simp at this
            exact hut this.symm
        · intro c caller hc
          have := h.excl_client hq c (by simp [Sys.setWorker] at hc; simp [hc, clocked])
          simp at this
  case unlock temp =>
    split at hs
    · cases hs
    · split at hs
      · cases hs
      · rename_i tp hl
        cases hs
        have h1 := h.moveWorker t (wpc.run temp) (by simp [hpc]) (by simp [wlocked]) (by simp)
        exact h1.unlock (s := s.setWorker t (wpc.run temp)) hl (by simp [Sys.setWorker, wlocked])
  case run temp =>
    split at hs
    · cases hs
      have h1 := h.moveWorker t (wpc.free temp) (by simp [hpc]) (by simp [wlocked]) (by simp)
      exact h1.keep _ rfl rfl rfl rfl rfl rfl rfl rfl rfl
    · cases hs
  case free temp =>
    split at hs
    · cases hs
      exact h.moveWorker t _ (by simp [hpc]) (by simp [wlocked]) (by simp)
    · split at hs
      · cases hs
      · cases hs
        have h1 := h.moveWorker t wpc.lock (by simp [hpc]) (by simp [wlocked]) (by simp)
        exact h1.keep _ rfl rfl rfl rfl rfl rfl rfl rfl rfl
  case done => cases hs

theorem Inv1.destroy_ok {N : Nat} {s s1 : Sys} {c : Tid} {pc : dpc}
    {caller : Option Job} (h : Inv1 N s) (hpc : s.client c = cstate.destroy pc caller)
    (hs : destroy_threadpool_step s c pc caller = Res.next s1) : Inv1 N s1 := by
  have hst := h.dstage c pc caller hpc
  unfold ThreadPool.destroy_threadpool_step at hs
  split at hs
  · cases hs
  cases pc <;> simp only at hs
  case lock =>
    split at hs
    · cases hs
    · rename_i tp hl
      cases hs
      exact (h.lock hl).moveClient c _ (fun _ => by simp [(mutex_lock_some hl).2])
        (fun pc1 caller1 he => by cases he; trivial)
  case flag =>
    cases hs
    have hq := h.clock c (by simp [hpc, clocked])
    exact h.flag.moveClient c _ (fun _ => hq) (fun pc1 caller1 he => by cases he; rfl)
  case loop =>
    have hq := h.clock c (by simp [hpc, clocked])
    split at hs <;> cases hs
    · exact h.moveClient c _ (fun _ => hq) (fun pc1 caller1 he => by cases he; exact hst)
    · rename_i hz
      exact h.moveClient c _ (fun _ => hq)
        (fun pc1 caller1 he => by cases he; exact ⟨hst, by simpa using hz⟩)
  case wait =>
    split at hs
    · cases hs
    · rename_i tp hl
      cases hs
      have h1 := h.moveClient c (cstate.destroy dpc.blocked caller) (by simp [clocked])
        (fun pc1 caller1 he => by cases he; exact hst)
      exact h1.unlock (s := s.setClient c (cstate.destroy dpc.blocked caller)) hl
        (by simp [Sys.setClient, clocked])
  case blocked =>
    split at hs
    · cases hs
    · rename_i tp hl
      cases hs
      have h1 := h.lock hl
      obtain ⟨-, rfl⟩ := mutex_lock_some hl
      exact h1.moveClient c _ (fun _ => rfl) (fun pc1 caller1 he => by cases he; exact hst)
  case shutdown =>
    cases hs
    have hq := h.clock c (by simp [hpc, clocked])
    exact (h.shutdown hst.1 hst.2).moveClient c _ (fun _ => hq)
      (fun pc1 caller1 he => by cases he; simp [dinv, DONT_ACCEPT])
  case broadcast =>
    cases hs
    have hq := h.clock c (by simp [hpc, clocked])
    have h1 := h.moveClient c (cstate.destroy dpc.unlock caller) (fun _ => hq)
      (fun pc1 caller1 he => by cases he; exact hst)
    exact h1.keep _ rfl rfl rfl rfl rfl rfl rfl rfl rfl
  case unlock =>
    split at hs
    · cases hs
    · rename_i tp hl
      cases hs
      have h1 := h.moveClient c (cstate.destroy (dpc.join 0) caller) (by simp [clocked])
        (fun pc1 caller1 he => by cases he; exact ⟨hst, fun t ht => absurd ht (Nat.not_lt_zero t)⟩)
      exact h1.unlock (s := s.setClient c (cstate.destroy (dpc.join 0) caller)) hl
        (by simp [Sys.setClient, clocked])
  case join i =>
    split at hs
    · rename_i hi
      split at hs
      · cases hs
      · rename_i t ht
        split at hs
        · rename_i hdone
          cases hs
          rw [h.threads, List.getElem?_range (by rw [h.nthreads] at hi; exact_mod_cast hi)] at ht
          cases ht
          refine h.moveClient c _ (by simp [clocked]) (fun pc1 caller1 he => ?_)
          cases he
          refine ⟨hst.1, fun u hu => ?_⟩
          rcases Nat.lt_succ_iff_lt_or_eq.mp hu with hlt | rfl
          · exact hst.2 u hlt
          · exact hdone
        · cases hs
    · rename_i hi
      cases hs
      refine h.moveClient c _ (by simp [clocked]) (fun pc1 caller1 he => ?_)
      cases he
      refine ⟨hst.1, fun u => ?_⟩
      by_cases hu : u < i
      · exact hst.2 u hu
      · apply h.absent
        rw [h.nthreads] at hi
        have : (N : Int) ≤ i := not_lt.mp hi
        have h2 : N ≤ i := by exact_mod_cast this
        exact Nat.le_trans h2 (Nat.le_of_not_lt hu)
  case cleanup =>
    split at hs <;> cases hs
    · exact (h.freed hst.1 hst.2).moveClient c _ (by simp [clocked])
        (fun pc1 caller1 he => by cases he)
    · exact (h.freed hst.1 hst.2).moveClient c _ (by simp [clocked])
        (fun pc1 caller1 he => by cases he)

theorem Inv1.dispatch_ok {N : Nat} {s s1 : Sys} {c : Tid} {pc : ppc} {r a : Option Nat}
    {nw alloc : Option Addr} (h : Inv1 N s) (hpc : s.client c = cstate.dispatch pc r a nw)
    (hs : dispatch_step s c pc r a nw alloc = Res.next s1) : Inv1 N s1 := by
  unfold ThreadPool.dispatch_step at hs
  cases pc <;> simp only at hs
  case lock1 =>
    split at hs
    · cases hs
    · split at hs
      · cases hs
      · rename_i tp hl
        cases hs
        exact (h.lock hl).moveClient c _ (fun _ => by simp [(mutex_lock_some hl).2])
          (fun pc1 caller1 he => by cases he)
  case check1 =>
    have hq := h.clock c (by simp [hpc, clocked])
    split at hs
    · cases hs
    · split at hs <;> cases hs
      · exact h.moveClient c _ (by simp [clocked]) (fun pc1 caller1 he => by cases he)
      · exact h.moveClient c _ (fun _ => hq) (fun pc1 caller1 he => by cases he)
  case unlock1 =>
    split at hs
    · cases hs
    · split at hs
      · cases hs
      · rename_i tp hl
        cases hs
        have h1 := h.moveClient c (cstate.dispatch ppc.routine r a nw) (by simp [clocked])
          (fun pc1 caller1 he => by cases he)
        exact h1.unlock (s := s.setClient c (cstate.dispatch ppc.routine r a nw)) hl
          (by simp [Sys.setClient, clocked])
  case routine =>
    split at hs <;> cases hs
    · exact h.moveClient c _ (by simp [clocked]) (fun pc1 caller1 he => by cases he; trivial)
    · exact h.moveClient c _ (by simp [clocked]) (fun pc1 caller1 he => by cases he)
  case arg =>
    cases a with
    | none =>
      cases hs
      exact h.moveClient c _ (by simp [clocked]) (fun pc1 caller1 he => by cases he)
    | some av =>
      cases alloc with
      | none =>
        cases hs
        exact h.moveClient c _ (by simp [clocked]) (fun pc1 caller1 he => by cases he)
      | some p =>
        simp only at hs
        split at hs
        · cases hs
        · cases hs
          have h1 := h.moveClient c (cstate.dispatch ppc.lock2 r (some av) (some p))
            (by simp [clocked]) (fun pc1 caller1 he => by cases he)
          exact h1.keep _ rfl rfl rfl rfl rfl rfl rfl rfl rfl
  case lock2 =>
    split at hs
    · cases hs
    · split at hs
      · cases hs
      · rename_i tp hl
        cases hs
        exact (h.lock hl).moveClient c _ (fun _ => by simp [(mutex_lock_some hl).2])
          (fun pc1 caller1 he => by cases he)
  case crit2 =>
    have hq := h.clock c (by simp [hpc, clocked])
    split at hs
    · cases hs
    · split at hs
      · split at hs
        · cases hs
          exact h.moveClient c _ (by simp [clocked]) (fun pc1 caller1 he => by cases he)
        · split at hs
          · cases hs
          · cases hs
            have h1 := h.moveClient c cstate.idle (by simp [clocked])
              (fun pc1 caller1 he => by cases he)
            exact h1.keep _ rfl rfl rfl rfl rfl rfl rfl rfl rfl
      · rename_i hda
        split at hs
        · cases hs
        · rename_i tp heap he
          cases hs
          obtain ⟨f1, f2, f3, f4, f5, -, -, -, -⟩ := dispatch_enqueue_frame he
          have h1 := h.moveClient c (cstate.dispatch ppc.signal r a nw) (fun _ => hq)
            (fun pc1 caller1 he => by cases he)
          refine h1.resize _ f1 f2 f3 f4 f5 rfl rfl rfl ?_ ?_ ?_
          · by_contra hsh
            exact hda (h.sh_imp hsh).1
          · intro u hu
            have := h.excl_worker hq u (by simp [Sys.setClient] at hu; simp [hu, wlocked])
            simp at this
          · intro u caller1 hu
            by_cases huc : u = c
            · subst huc; simp [Sys.setClient] at hu
            · simp [Sys.setClient, huc] at hu
              have := h.excl_client hq u (by simp [hu, clocked])
              simp at this
              exact huc this.symm
  case signal =>
    have hq := h.clock c (by simp [hpc, clocked])
    split at hs
    · cases hs
    · cases hs
      have h1 := h.moveClient c (cstate.dispatch ppc.unlock2 r a nw) (fun _ => hq)
        (fun pc1 caller1 he => by cases he)
      exact h1.keep _ rfl rfl rfl rfl rfl rfl rfl rfl rfl
  case unlock2 =>
    split at hs
    · cases hs
    · split at hs
      · cases hs
      · rename_i tp hl
        cases hs
        have h1 := h.moveClient c cstate.idle (by simp [clocked])
          (fun pc1 caller1 he => by cases he)
        exact h1.unlock (s := s.setClient c cstate.idle) hl (by simp [Sys.setClient, clocked])

theorem Inv1.step_ok {N : Nat} {s s1 : Sys} {l : Label} (h : Inv1 N s)
    (hs : step s l = Res.next s1) : Inv1 N s1 := by
  cases l with
  | worker t => exact h.worker_ok hs
  | call_dispatch c r a =>
    simp only [ThreadPool.step] at hs
    split at hs
    · cases hs
      exact h.moveClient c _ (by simp [clocked]) (fun pc1 caller1 he => by cases he)
    · cases hs
  | call_destroy c =>
    simp only [ThreadPool.step] at hs
    split at hs
    · cases hs
      exact h.moveClient c _ (by simp [clocked]) (fun pc1 caller1 he => by cases he; trivial)
    · cases hs
  | client c alloc =>
    simp only [ThreadPool.step] at hs
    split at hs
    · cases hs
    · rename_i hpc
      exact h.dispatch_ok hpc hs
    · rename_i hpc
      exact h.destroy_ok hpc hs

theorem chain_alloc {heap : Heap} {q : List Addr} {hd : Option Addr} (h : chain heap hd q) :
    ∀ a ∈ q, ∃ w, heap a = some w := by
  induction q generalizing hd with
  | nil => intro a ha; cases ha
  | cons b q ih =>
    obtain ⟨-, w, hw, hc⟩ := h
    intro a ha
    rcases List.mem_cons.mp ha with rfl | ha
    · exact ⟨w, hw⟩
    · exact ih hc a ha

theorem chain_update {heap : Heap} {q : List Addr} {hd : Option Addr} (p : Addr)
    (v : Option work_t) (hp : p ∉ q) (h : chain heap hd q) :
    chain (Function.update heap p v) hd q := by
  induction q generalizing hd with
  | nil => exact h
  | cons b q ih =>
    obtain ⟨hb, w, hw, hc⟩ := h
    have hbp : b ≠ p := fun e => hp (by simp [e])
    refine ⟨hb, w, ?_, ih (fun e => hp (List.mem_cons_of_mem _ e)) hc⟩
    simpa [Function.update_noteq hbp] using hw

theorem job_at_update {heap : Heap} (p : Addr) (v : Option work_t) (temp : Option Addr)
    (h : temp ≠ some p) : job_at (Function.update heap p v) temp = job_at heap temp := by
  cases temp with
  | none => rfl
  | some a =>
    have : a ≠ p := fun e => h (by rw [e])
    simp [job_at, Function.update_noteq this]

theorem jobs_update {heap : Heap} (p : Addr) (v : Option work_t) (q : List Addr) (hp : p ∉ q) :
    q.filterMap (fun a => job_at (Function.update heap p v) (some a)) =
      q.filterMap (fun a => job_at heap (some a)) := by
  induction q with
  | nil => rfl
  | cons b q ih =>
    have hbp : some b ≠ some p := fun e => hp (by simp [Option.some.inj e])
    simp only [List.filterMap_cons, job_at_update p v (some b) hbp,
      ih (fun e => hp (List.mem_cons_of_mem _ e))]

theorem wjob_update {heap : Heap} (p : Addr) (v : Option work_t) (pc : wpc)
    (h : wtemp pc ≠ some p) : wjob (Function.update heap p v) pc = wjob heap pc := by
  cases pc <;> simp_all [wjob, wtemp, job_at_update]

theorem sum_update_add (f g : Nat → Multiset Job) (N t : Nat) (ht : t < N)
    (h : ∀ u, u ≠ t → g u = f u) :
    (∑ u in Finset.range N, g u) + f t = (∑ u in Finset.range N, f u) + g t := by
  have hm : t ∈ Finset.range N := Finset.mem_range.mpr ht
  rw [← Finset.add_sum_erase _ g hm, ← Finset.add_sum_erase _ f hm]
  have : ∑ u in (Finset.range N).erase t, g u = ∑ u in (Finset.range N).erase t, f u :=
    Finset.sum_congr rfl (fun u hu => h u (Finset.ne_of_mem_erase hu))
  rw [this]
  abel

theorem inflight_congr (N : Nat) (s s1 : Sys)
    (h : ∀ t, wjob s1.heap (s1.worker t) = wjob s.heap (s.worker t)) :
    inflight N s1 = inflight N s :=
  Finset.sum_congr rfl (fun t _ => h t)

theorem Inv2.frame {s : Sys} {q : List Addr} (h : Inv2 s q) (s1 : Sys)
    (hheap : s1.heap = s.heap) (hqh : s1.pool.qhead = s.pool.qhead)
    (hqt : s1.pool.qtail = s.pool.qtail) (hqs : s1.pool.qsize = s.pool.qsize)
    (hw : s1.worker = s.worker) (hc : s1.client = s.client) (henq : s1.enq = s.enq)
    (hdeq : s1.deq = s.deq) : Inv2 s1 q := by
  have hown : owned s1 = owned s := by
    funext x; cases x <;> simp [owned, hw, hc]
  constructor
  · rw [hheap, hqh]; exact h.chain
  · rw [hqs]; exact h.size
  · rw [hqt]; exact h.tail
  · exact h.nodup
  · rw [hown, hheap]; exact h.own_alloc
  · rw [hown]; exact h.own_notq
  · rw [hown]; exact h.own_inj
  · rw [hc, hheap]; exact h.node
  · rw [henq, hdeq, hheap]; exact h.enq_eq

/-- A worker moves to a control point where it holds the same node or none, with
the same pending job. -/
theorem Inv2.shiftWorker {s : Sys} {q : List Addr} (h : Inv2 s q) (t : Tid)
    (pc : wpc) (h1 : wtemp pc = wtemp (s.worker t) ∨ wtemp pc = none) :
    Inv2 (s.setWorker t pc) q := by
  have hown : ∀ x p, owned (s.setWorker t pc) x = some p → owned s x = some p := by
    intro x p hx
    cases x with
    | client c => exact hx
    | worker u =>
      by_cases hut : u = t
      · subst hut
        simp only [owned, Sys.setWorker, Function.update_same] at hx
        rcases h1 with h1 | h1
        · simpa [owned, h1] using hx
        · rw [h1] at hx; cases hx
      · simpa [owned, Sys.setWorker, Function.update_noteq hut] using hx
  constructor
  · exact h.chain
  · exact h.size
  · exact h.tail
  · exact h.nodup
  · intro x p hx; exact h.own_alloc x p (hown x p hx)
  · intro x p hx; exact h.own_notq x p (hown x p hx)
  · intro x y p hx hy; exact h.own_inj x y p (hown x p hx) (hown y p hy)
  · exact h.node
  · exact h.enq_eq

/-- A client moves to a state where it holds the same node or none. -/
theorem Inv2.shiftClient {s : Sys} {q : List Addr} (h : Inv2 s q) (c : Tid)
    (cs : cstate) (h1 : cnode cs = cnode (s.client c) ∨ cnode cs = none)
    (h2 : ∀ pc r a nw, cs = cstate.dispatch pc r a nw → pc = ppc.lock2 ∨ pc = ppc.crit2 →
      ∃ p, nw = some p ∧ s.heap p = some { routine := r, arg := a, next := none }) :
    Inv2 (s.setClient c cs) q := by
  have hown : ∀ x p, owned (s.setClient c cs) x = some p → owned s x = some p := by
    intro x p hx
    cases x with
    | worker u => exact hx
    | client u =>
      by_cases hut : u = c
      · subst hut
        simp only [owned, Sys.setClient, Function.update_same] at hx
        rcases h1 with h1 | h1
        · simpa [owned, h1] using hx
        · rw [h1] at hx; cases hx
      · simpa [owned, Sys.setClient, Function.update_noteq hut] using hx
  constructor
  · exact h.chain
  · exact h.size
  · exact h.tail
  · exact h.nodup
  · intro x p hx; exact h.own_alloc x p (hown x p hx)
  · intro x p hx; exact h.own_notq x p (hown x p hx)
  · intro x y p hx hy; exact h.own_inj x y p (hown x p hx) (hown y p hy)
  · intro u pc r a nw hu hpc
    by_cases hut : u = c
    · subst hut
      simp only [Sys.setClient, Function.update_same] at hu
      exact h2 pc r a nw hu hpc
    · simp only [Sys.setClient, Function.update_noteq hut] at hu
      exact h.node u pc r a nw hu hpc
  · exact h.enq_eq

/-- A write to an address that is neither linked in the queue nor held by a thread. -/
theorem Inv2.heap_update {s : Sys} {q : List Addr} (h : Inv2 s q) (p : Addr)
    (v : Option work_t) (hq : p ∉ q) (hown : ∀ x, owned s x ≠ some p) :
    Inv2 { s with heap := Function.update s.heap p v } q := by
  have hne : ∀ x p1, owned s x = some p1 → p1 ≠ p := by
    intro x p1 hx e
    exact hown x (e ▸ hx)
  constructor
  · exact chain_update p v hq h.chain
  · exact h.size
  · exact h.tail
  · exact h.nodup
  · intro x p1 hx
    obtain ⟨w, hw⟩ := h.own_alloc x p1 hx
    exact ⟨w, by simpa [Function.update_noteq (hne x p1 hx)] using hw⟩
  · exact h.own_notq
  · exact h.own_inj
  · intro c pc r a nw hc hpc
    obtain ⟨p1, hp1, hw⟩ := h.node c pc r a nw hc hpc
    refine ⟨p1, hp1, ?_⟩
    have hc1 : s.client c = cstate.dispatch pc r a nw := hc
    have : owned s (Thread.client c) = some p1 := by
      rcases hpc with rfl | rfl <;> simp [owned, hc1, cnode, hp1]
    simpa [Function.update_noteq (hne _ p1 this)] using hw
  · simp only [jobs_update p v q hq]; exact h.enq_eq

theorem Acct.congr {N : Nat} {s : Sys} (h : Acct N s) (s1 : Sys) (hdeq : s1.deq = s.deq)
    (hran : s1.ran = s.ran)
    (hj : ∀ t, wjob s1.heap (s1.worker t) = wjob s.heap (s.worker t)) : Acct N s1 := by
  unfold Acct
  rw [hdeq, hran, inflight_congr N s s1 hj]
  exact h

/-- One worker changes its pending job, and the lists change to match. -/
theorem Acct.move {N : Nat} {s : Sys} (h : Acct N s) (s1 : Sys) (t : Tid) (ht : t < N)
    (hj : ∀ u, u ≠ t → wjob s1.heap (s1.worker u) = wjob s.heap (s.worker u))
    (hbal : (s1.deq : Multiset Job) + (wjob s.heap (s.worker t) + (s.ran : Multiset Job)) =
      (s.deq : Multiset Job) + (wjob s1.heap (s1.worker t) + (s1.ran : Multiset Job))) :
    Acct N s1 := by
  unfold Acct at h ⊢
  have hsum := sum_update_add (fun u => wjob s.heap (s.worker u))
    (fun u => wjob s1.heap (s1.worker u)) N t ht hj
  simp only at hsum
  apply add_right_cancel (b := wjob s.heap (s.worker t) + (s.ran : Multiset Job))
  rw [hbal, h]
  unfold inflight
  calc (s.ran : Multiset Job) + ∑ u in Finset.range N, wjob s.heap (s.worker u)
        + (wjob s1.heap (s1.worker t) + (s1.ran : Multiset Job))
      = (∑ u in Finset.range N, wjob s.heap (s.worker u) + wjob s1.heap (s1.worker t))
        + ((s.ran : Multiset Job) + (s1.ran : Multiset Job)) := by abel
    _ = (∑ u in Finset.range N, wjob s1.heap (s1.worker u) + wjob s.heap (s.worker t))
        + ((s.ran : Multiset Job) + (s1.ran : Multiset Job)) := by rw [hsum]
    _ = _ := by abel

/-- A client takes hold of a node that nobody holds and that is not linked. -/
theorem Inv2.acquire {s : Sys} {q : List Addr} (h : Inv2 s q) (c : Tid) (pc : ppc)
    (r a : Option Nat) (p : Addr) (hpc : pc = ppc.lock2 ∨ pc = ppc.crit2)
    (hp : s.heap p = some { routine := r, arg := a, next := none }) (hq : p ∉ q)
    (hown : ∀ x, owned s x ≠ some p) :
    Inv2 (s.setClient c (cstate.dispatch pc r a (some p))) q := by
  have hc : owned (s.setClient c (cstate.dispatch pc r a (some p))) (Thread.client c)
      = some p := by
    rcases hpc with rfl | rfl <;> simp [owned, Sys.setClient, cnode]
  have hoth : ∀ x, x ≠ Thread.client c →
      owned (s.setClient c (cstate.dispatch pc r a (some p))) x = owned s x := by
    intro x hx
    cases x with
    | worker u => rfl
    | client u =>
      have : u ≠ c := fun e => hx (by rw [e])
      simp [owned, Sys.setClient, Function.update_noteq this]
  have hcases : ∀ x p1, owned (s.setClient c (cstate.dispatch pc r a (some p))) x = some p1 →
      (x = Thread.client c ∧ p1 = p) ∨ (x ≠ Thread.client c ∧ owned s x = some p1) := by
    intro x p1 hx
    by_cases hxc : x = Thread.client c
    · subst hxc
      rw [hc] at hx
      exact Or.inl ⟨rfl, (Option.some.inj hx).symm⟩
    · exact Or.inr ⟨hxc, by rw [← hoth x hxc]; exact hx⟩
  constructor
  · exact h.chain
  · exact h.size
  · exact h.tail
  · exact h.nodup
  · intro x p1 hx
    rcases hcases x p1 hx with ⟨-, rfl⟩ | ⟨-, hx1⟩
    · exact ⟨_, hp⟩
    · exact h.own_alloc x p1 hx1
  · intro x p1 hx
    rcases hcases x p1 hx with ⟨-, rfl⟩ | ⟨-, hx1⟩
    · exact hq
    · exact h.own_notq x p1 hx1
  · intro x y p1 hx hy
    rcases hcases x p1 hx with ⟨rfl, rfl⟩ | ⟨hxc, hx1⟩
    · rcases hcases y p1 hy with ⟨rfl, -⟩ | ⟨-, hy1⟩
      · rfl
      · exact absurd hy1 (hown y)
    · rcases hcases y p1 hy with ⟨-, rfl⟩ | ⟨-, hy1⟩
      · exact absurd hx1 (hown x)
      · exact h.own_inj x y p1 hx1 hy1
  · intro u pc1 r1 a1 nw hu hpc1
    by_cases hut : u = c
    · subst hut
      simp only [Sys.setClient, Function.update_same] at hu
      cases hu
      exact ⟨p, rfl, hp⟩
    · simp only [Sys.setClient, Function.update_noteq hut] at hu
      exact h.node u pc1 r1 a1 nw hu hpc1
  · exact h.enq_eq

theorem do_work_dequeue_cases {tp tp1 : threadpool} {heap : Heap} {temp : Option Addr}
    (h : do_work_dequeue tp heap = some (tp1, temp)) :
    temp = tp.qhead ∧ tp1.qsize = tp.qsize - 1 ∧
    ((tp.qsize - 1 = 0 ∧ tp1.qhead = none ∧ tp1.qtail = none) ∨
     (tp.qsize - 1 ≠ 0 ∧ tp1.qtail = tp.qtail ∧
       ∃ a w, tp.qhead = some a ∧ heap a = some w ∧ tp1.qhead = w.next)) := by
  unfold do_work_dequeue at h
  simp only at h
  split at h
  · rename_i hz
    split at h <;> simp only [Option.some.injEq, Prod.mk.injEq] at h <;>
      obtain ⟨rfl, rfl⟩ := h <;> exact ⟨rfl, rfl, Or.inl ⟨hz, rfl, rfl⟩⟩
  · rename_i hz
    split at h
    · cases h
    · rename_i a ha
      split at h
      · cases h
      · rename_i w hw
        simp only [Option.some.injEq, Prod.mk.injEq] at h
        obtain ⟨rfl, rfl⟩ := h
        exact ⟨rfl, rfl, Or.inr ⟨hz, rfl, a, w, ha, hw, rfl⟩⟩

/-- The dequeue of `do_work`: the head node leaves the list and is held by the worker. -/
theorem Inv2.dequeue {s : Sys} {qq : List Addr} (h : Inv2 s qq) (t : Tid)
    (hne : s.pool.qsize ≠ 0) {tp : threadpool}
    {temp : Option Addr} (hd : do_work_dequeue s.pool s.heap = some (tp, temp)) (s1 : Sys)
    (hpool : s1.pool = tp) (hheap : s1.heap = s.heap)
    (hwk : s1.worker = Function.update s.worker t (wpc.unlock temp))
    (hcl : s1.client = s.client) (henq : s1.enq = s.enq)
    (hdeq : s1.deq = s.deq ++ (job_at s.heap temp).toList) :
    ∃ a q w, qq = a :: q ∧ temp = some a ∧ s.heap a = some w ∧ Inv2 s1 q := by
  obtain ⟨htemp, hsz, hcase⟩ := do_work_dequeue_cases hd
  cases qq with
  | nil => exact absurd (by simpa using h.size) hne
  | cons a q =>
    obtain ⟨hhd, w, hw, hch⟩ := h.chain
    have hta : temp = some a := htemp.trans hhd
    refine ⟨a, q, w, rfl, hta, hw, ?_⟩
    have hlen : s.pool.qsize - 1 = q.length := by
      have := h.size
      simp only [List.length_cons, Nat.cast_add, Nat.cast_one] at this
      omega
    have hnd := List.nodup_cons.mp h.nodup
    have hc : owned s1 (Thread.worker t) = some a := by
      simp [owned, hwk, wtemp, hta]
    have hcases : ∀ x p1, owned s1 x = some p1 →
        (x = Thread.worker t ∧ p1 = a) ∨ (x ≠ Thread.worker t ∧ owned s x = some p1) := by
      intro x p1 hx
      by_cases hxc : x = Thread.worker t
      · subst hxc
        rw [hc] at hx
        exact Or.inl ⟨rfl, (Option.some.inj hx).symm⟩
      · refine Or.inr ⟨hxc, ?_⟩
        cases x with
        | client u => simpa [owned, hcl] using hx
        | worker u =>
          have : u ≠ t := fun e => hxc (by rw [e])
          simpa [owned, hwk, Function.update_noteq this] using hx
    constructor
    · rw [hheap, hpool]
      rcases hcase with ⟨hz, hqh, -⟩ | ⟨hz, -, a1, w1, ha1, hw1, hqh⟩
      · have : q = [] := List.length_eq_zero.mp (by rw [hz] at hlen; exact_mod_cast hlen.symm)
        subst this
        exact hqh
      · rw [hhd] at ha1
        cases ha1
        rw [hw] at hw1
        cases hw1
        rw [hqh]
        exact hch
    · rw [hpool, hsz, hlen]
    · rw [hpool]
      rcases hcase with ⟨hz, -, hqt⟩ | ⟨hz, hqt, -⟩
      · have : q = [] := List.length_eq_zero.mp (by rw [hz] at hlen; exact_mod_cast hlen.symm)
        subst this
        exact hqt
      · rw [hqt, h.tail]
        cases q with
        | nil => simp at hlen; exact absurd hlen hz
        | cons b q1 => simp [List.getLast?_cons_cons]
    · exact hnd.2
    · intro x p1 hx
      rw [hheap]
      rcases hcases x p1 hx with ⟨-, rfl⟩ | ⟨-, hx1⟩
      · exact ⟨w, hw⟩
      · exact h.own_alloc x p1 hx1
    · intro x p1 hx
      rcases hcases x p1 hx with ⟨-, rfl⟩ | ⟨-, hx1⟩
      · exact hnd.1
      · exact fun hm => h.own_notq x p1 hx1 (List.mem_cons_of_mem _ hm)
    · intro x y p1 hx hy
      rcases hcases x p1 hx with ⟨rfl, rfl⟩ | ⟨hxc, hx1⟩
      · rcases hcases y p1 hy with ⟨rfl, -⟩ | ⟨-, hy1⟩
        · rfl
        · exact absurd (List.mem_cons_self _ _) (h.own_notq y _ hy1)
      · rcases hcases y p1 hy with ⟨-, rfl⟩ | ⟨-, hy1⟩
        · exact absurd (List.mem_cons_self _ _) (h.own_notq x _ hx1)
        · exact h.own_inj x y p1 hx1 hy1
    · rw [hcl, hheap]; exact h.node
    · rw [henq, hdeq, hheap, h.enq_eq, hta]
      simp [job_at, hw]

theorem job_at_relink {heap : Heap} {t : Addr} {w : work_t} (hw : heap t = some w)
    (n : Option Addr) (x : Option Addr) :
    job_at (Function.update heap t (some { w with next := n })) x = job_at heap x := by
  cases x with
  | none => rfl
  | some a =>
    by_cases hat : a = t
    · subst hat; simp [job_at, hw]
    · simp [job_at, Function.update_noteq hat]

theorem wjob_relink {heap : Heap} {t : Addr} {w : work_t} (hw : heap t = some w)
    (n : Option Addr) (pc : wpc) :
    wjob (Function.update heap t (some { w with next := n })) pc = wjob heap pc := by
  cases pc <;> simp [wjob, job_at_relink hw]

theorem chain_snoc {heap : Heap} {q : List Addr} {hd : Option Addr} {t p : Addr}
    {w wp : work_t} (h : chain heap hd q) (hnd : q.Nodup) (ht : q.getLast? = some t)
    (hw : heap t = some w) (hp : p ∉ q) (hwp : heap p = some wp) (hn : wp.next = none) :
    chain (Function.update heap t (some { w with next := some p })) hd (q ++ [p]) := by
  induction q generalizing hd with
  | nil => cases ht
  | cons b q ih =>
    obtain ⟨hb, wb, hwb, hc⟩ := h
    have hpb : p ≠ b := fun e => hp (by simp [e])
    have hpq : p ∉ q := fun e => hp (List.mem_cons_of_mem _ e)
    cases q with
    | nil =>
      simp only [List.getLast?_singleton, Option.some.injEq] at ht
      subst ht
      rw [hw] at hwb
      cases hwb
      refine ⟨hb, { w with next := some p }, by simp, ?_⟩
      refine ⟨rfl, wp, ?_, hn⟩
      simpa [Function.update_noteq hpb] using hwp
    | cons b1 q1 =>
      rw [List.getLast?_cons_cons] at ht
      have hbt : b ≠ t := by
        intro e
        have hmem : t ∈ b1 :: q1 := List.mem_of_getLast?_eq_some ht
        exact (List.nodup_cons.mp hnd).1 (e ▸ hmem)
      refine ⟨hb, wb, by simpa [Function.update_noteq hbt] using hwb, ?_⟩
      exact ih hc (List.nodup_cons.mp hnd).2 ht hpq

theorem dispatch_enqueue_cases {tp tp1 : threadpool} {heap heap1 : Heap} {nw : Option Addr}
    (h : dispatch_enqueue tp heap nw = some (tp1, heap1)) :
    tp1.qsize = tp.qsize + 1 ∧ tp1.qtail = nw ∧
    ((tp.qsize = 0 ∧ tp1.qhead = nw ∧ heap1 = heap) ∨
     (tp.qsize ≠ 0 ∧ tp1.qhead = tp.qhead ∧ ∃ t w, tp.qtail = some t ∧ heap t = some w ∧
       heap1 = Function.update heap t (some { w with next := nw }))) := by
  unfold dispatch_enqueue at h
  split at h
  · rename_i hz
    simp only [Option.some.injEq, Prod.mk.injEq] at h
    obtain ⟨rfl, rfl⟩ := h
    exact ⟨rfl, rfl, Or.inl ⟨hz, rfl, rfl⟩⟩
  · rename_i hz
    split at h
    · cases h
    · rename_i t ht
      split at h
      · cases h
      · rename_i w hw
        simp only [Option.some.injEq, Prod.mk.injEq] at h
        obtain ⟨rfl, rfl⟩ := h
        exact ⟨rfl, rfl, Or.inr ⟨hz, rfl, t, w, ht, hw, rfl⟩⟩

/-- The enqueue of `dispatch`: the node held by the client is linked last. -/
theorem Inv2.enqueue {s : Sys} {q : List Addr} (h : Inv2 s q) (c : Tid) {r a : Option Nat}
    {nw : Option Addr} (hpc : s.client c = cstate.dispatch ppc.crit2 r a nw)
    {tp : threadpool} {heap1 : Heap} (he : dispatch_enqueue s.pool s.heap nw = some (tp, heap1))
    (s1 : Sys) (hpool : s1.pool = tp) (hheap : s1.heap = heap1) (hwk : s1.worker = s.worker)
    (hcl : s1.client = Function.update s.client c (cstate.dispatch ppc.signal r a nw))
    (henq : s1.enq = s.enq ++ [(r, a)]) (hdeq : s1.deq = s.deq) :
    ∃ p, nw = some p ∧ Inv2 s1 (q ++ [p]) ∧
      (∀ pc, wjob s1.heap pc = wjob s.heap pc) ∧
      s1.heap p = some { routine := r, arg := a, next := none } := by
  obtain ⟨p, rfl, hp⟩ := h.node c _ r a nw hpc (Or.inr rfl)
  have hownc : owned s (Thread.client c) = some p := by simp [owned, hpc, cnode]
  have hpq : p ∉ q := h.own_notq _ p hownc
  obtain ⟨hsz, htl, hcase⟩ := dispatch_enqueue_cases he
  have hown : ∀ x p1, owned s1 x = some p1 →
      x ≠ Thread.client c ∧ owned s x = some p1 := by
    intro x p1 hx
    cases x with
    | worker u => exact ⟨by simp, by simpa [owned, hwk] using hx⟩
    | client u =>
      by_cases huc : u = c
      · subst huc
        simp [owned, hcl, cnode] at hx
      · exact ⟨by simpa using huc, by simpa [owned, hcl, Function.update_noteq huc] using hx⟩
  have hne : ∀ x p1, owned s1 x = some p1 → p1 ≠ p ∧ p1 ∉ q := by
    intro x p1 hx
    obtain ⟨hxc, hx1⟩ := hown x p1 hx
    refine ⟨?_, h.own_notq x p1 hx1⟩
    rintro rfl
    exact hxc (h.own_inj x _ p1 hx1 hownc)
  -- the heap after the enqueue agrees with the old one outside the old tail
  have hheap1 : ∀ p1, p1 ∉ q → heap1 p1 = s.heap p1 := by
    intro p1 hp1
    rcases hcase with ⟨-, -, rfl⟩ | ⟨-, -, t, w, ht, hw, rfl⟩
    · rfl
    · have hmem : t ∈ q := List.mem_of_getLast?_eq_some (by rw [← h.tail]; exact ht)
      have : p1 ≠ t := fun e => hp1 (e ▸ hmem)
      simp [Function.update_noteq this]
  have hjob : ∀ x, job_at heap1 x = job_at s.heap x := by
    intro x
    rcases hcase with ⟨-, -, rfl⟩ | ⟨-, -, t, w, ht, hw, rfl⟩
    · rfl
    · exact job_at_relink hw _ x
  refine ⟨p, rfl, ?_, ?_, by rw [hheap, hheap1 p hpq]; exact hp⟩
  constructor
  · rw [hheap, hpool]
    rcases hcase with ⟨hz, hqh, rfl⟩ | ⟨hz, hqh, t, w, ht, hw, rfl⟩
    · have : q = [] := List.length_eq_zero.mp (by
        have := h.size; rw [hz] at this; exact_mod_cast this.symm)
      subst this
      rw [hqh]
      exact ⟨rfl, _, hp, rfl⟩
    · rw [hqh]
      exact chain_snoc h.chain h.nodup (by rw [← h.tail]; exact ht) hw hpq hp rfl
  · rw [hpool, hsz, h.size]; simp
  · rw [hpool, htl]; simp
  · exact List.nodup_append.mpr ⟨h.nodup, List.nodup_singleton p, by
      intro x hx1 hx2
      rw [List.mem_singleton] at hx2
      subst hx2
      exact hpq hx1⟩
  · intro x p1 hx
    obtain ⟨-, hx1⟩ := hown x p1 hx
    obtain ⟨w1, hw1⟩ := h.own_alloc x p1 hx1
    exact ⟨w1, by rw [hheap, hheap1 p1 (hne x p1 hx).2]; exact hw1⟩
  · intro x p1 hx hm
    rcases List.mem_append.mp hm with hm | hm
    · exact (hne x p1 hx).2 hm
    · exact (hne x p1 hx).1 (List.mem_singleton.mp hm)
  · intro x y p1 hx hy
    exact h.own_inj x y p1 (hown x p1 hx).2 (hown y p1 hy).2
  · intro u pc r1 a1 nw1 hu hpc1
    by_cases huc : u = c
    · subst huc
      rw [hcl] at hu
      simp only [Function.update_same] at hu
      cases hu
      rcases hpc1 with hpc1 | hpc1 <;> cases hpc1
    · rw [hcl, Function.update_noteq huc] at hu
      obtain ⟨p1, hp1, hw1⟩ := h.node u pc r1 a1 nw1 hu hpc1
      refine ⟨p1, hp1, ?_⟩
      have : owned s1 (Thread.client u) = some p1 := by
        rcases hpc1 with rfl | rfl <;> simp [owned, hcl, Function.update_noteq huc, hu, cnode, hp1]
      rw [hheap, hheap1 p1 (hne _ p1 this).2]
      exact hw1
  · rw [henq, hdeq, h.enq_eq, hheap, List.filterMap_append]
    simp only [hjob, List.append_assoc]
    simp [job_at, hp]
  · intro pc
    rw [hheap]
    cases pc <;> simp [wjob, hjob]

/-- A move of worker `t` that leaves the list, the heap and the lists of jobs as
they are, and after which `t` holds the same node or none. -/
theorem silent_worker {N : Nat} {s : Sys} {q : List Addr} (h2 : Inv2 s q) (h3 : Acct N s)
    (t : Tid) (pc : wpc) (s1 : Sys) (hheap : s1.heap = s.heap)
    (hqh : s1.pool.qhead = s.pool.qhead) (hqt : s1.pool.qtail = s.pool.qtail)
    (hqs : s1.pool.qsize = s.pool.qsize) (hw : s1.worker = Function.update s.worker t pc)
    (hc : s1.client = s.client) (henq : s1.enq = s.enq) (hdeq : s1.deq = s.deq)
    (hran : s1.ran = s.ran) (h1 : wtemp pc = wtemp (s.worker t) ∨ wtemp pc = none)
    (hj : ∀ heap, wjob heap pc = wjob heap (s.worker t)) :
    (∃ q1, Inv2 s1 q1) ∧ Acct N s1 := by
  refine ⟨⟨q, (h2.shiftWorker t pc h1).frame s1 hheap hqh hqt hqs hw hc henq hdeq⟩,
    h3.congr s1 hdeq hran (fun u => ?_)⟩
  rw [hheap, hw]
  by_cases hut : u = t
  · subst hut; simp [hj]
  · simp [Function.update_noteq hut]

/-- A move of client `c` that leaves the list, the heap and the lists of jobs as
they are, and after which `c` holds the same node or none. -/
theorem silent_client {N : Nat} {s : Sys} {q : List Addr} (h2 : Inv2 s q) (h3 : Acct N s)
    (c : Tid) (cs : cstate) (s1 : Sys) (hheap : s1.heap = s.heap)
    (hqh : s1.pool.qhead = s.pool.qhead) (hqt : s1.pool.qtail = s.pool.qtail)
    (hqs : s1.pool.qsize = s.pool.qsize) (hw : s1.worker = s.worker)
    (hc : s1.client = Function.update s.client c cs) (henq : s1.enq = s.enq)
    (hdeq : s1.deq = s.deq) (hran : s1.ran = s.ran)
    (h1 : cnode cs = cnode (s.client c) ∨ cnode cs = none)
    (hn : ∀ pc r a nw, cs = cstate.dispatch pc r a nw → pc = ppc.lock2 ∨ pc = ppc.crit2 →
      ∃ p, nw = some p ∧ s.heap p = some { routine := r, arg := a, next := none }) :
    (∃ q1, Inv2 s1 q1) ∧ Acct N s1 := by
  refine ⟨⟨q, (h2.shiftClient c cs h1 hn).frame s1 hheap hqh hqt hqs hw hc henq hdeq⟩,
    h3.congr s1 hdeq hran (fun u => ?_)⟩
  rw [hheap, hw]

/-- Dropping a node that only the moving thread held. -/
theorem Inv2.release {N : Nat} {s : Sys} {q : List Addr} (h2 : Inv2 s q) (h3 : Acct N s)
    (me : Thread) (p : Addr) (hme : owned s me = some p) (s1 : Sys)
    (hheap : s1.heap = Function.update s.heap p none) (hpool : s1.pool = s.pool)
    (hown : ∀ x, owned s1 x = if x = me then none else owned s x)
    (hn : ∀ c pc r a nw, s1.client c = cstate.dispatch pc r a nw →
      pc = ppc.lock2 ∨ pc = ppc.crit2 → s.client c = cstate.dispatch pc r a nw)
    (hj : ∀ u, wtemp (s.worker u) ≠ some p → wjob s.heap (s1.worker u) = wjob s.heap (s.worker u))
    (hjme : ∀ u, me = Thread.worker u →
      wjob (Function.update s.heap p none) (s1.worker u) = wjob s.heap (s.worker u))
    (henq : s1.enq = s.enq) (hdeq : s1.deq = s.deq) (hran : s1.ran = s.ran) :
    (∃ q1, Inv2 s1 q1) ∧ Acct N s1 := by
  have hpq : p ∉ q := h2.own_notq me p hme
  have hsub : ∀ x p1, owned s1 x = some p1 → x ≠ me ∧ owned s x = some p1 := by
    intro x p1 hx
    rw [hown] at hx
    split at hx
    · cases hx
    · exact ⟨by assumption, hx⟩
  have hne : ∀ x p1, owned s1 x = some p1 → p1 ≠ p := by
    intro x p1 hx
    obtain ⟨hxm, hx1⟩ := hsub x p1 hx
    rintro rfl
    exact hxm (h2.own_inj x me p1 hx1 hme)
  constructor
  · refine ⟨q, ?_⟩
    constructor
    · rw [hheap, hpool]; exact chain_update p none hpq h2.chain
    · rw [hpool]; exact h2.size
    · rw [hpool]; exact h2.tail
    · exact h2.nodup
    · intro x p1 hx
      obtain ⟨w, hw⟩ := h2.own_alloc x p1 (hsub x p1 hx).2
      exact ⟨w, by rw [hheap, Function.update_noteq (hne x p1 hx)]; exact hw⟩
    · intro x p1 hx; exact h2.own_notq x p1 (hsub x p1 hx).2
    · intro x y p1 hx hy; exact h2.own_inj x y p1 (hsub x p1 hx).2 (hsub y p1 hy).2
    · intro c pc r a nw hc hpc
      have hc0 := hn c pc r a nw hc hpc
      obtain ⟨p1, hp1, hw⟩ := h2.node c pc r a nw hc0 hpc
      refine ⟨p1, hp1, ?_⟩
      have : owned s1 (Thread.client c) = some p1 := by
        rcases hpc with rfl | rfl <;> simp [owned, hc, cnode, hp1]
      rw [hheap, Function.update_noteq (hne _ p1 this)]
      exact hw
    · rw [henq, hdeq, hheap, jobs_update p none q hpq]; exact h2.enq_eq
  · refine h3.congr s1 hdeq hran (fun u => ?_)
    rw [hheap]
    by_cases hu : me = Thread.worker u
    · exact hjme u hu
    · have hup : wtemp (s.worker u) ≠ some p := by
        intro e
        exact hu (h2.own_inj me (Thread.worker u) p hme e)
      rw [← hj u hup]
      apply wjob_update
      intro e
      have : owned s1 (Thread.worker u) = some p := e
      exact hne _ p this rfl

theorem Inv1.worker_lt {N : Nat} {s : Sys} (h : Inv1 N s) (t : Tid)
    (hnd : s.worker t ≠ wpc.done) : t < N := by
  by_contra hlt
  exact hnd (h.absent t (Nat.le_of_not_lt hlt))

theorem inv23_do_work_step {N : Nat} {s s1 : Sys} {q : List Addr} {t : Tid} (h1 : Inv1 N s)
    (h2 : Inv2 s q) (h3 : Acct N s) (hs : do_work_step s t = Res.next s1) :
    (∃ q1, Inv2 s1 q1) ∧ Acct N s1 := by
  unfold do_work_step at hs
  cases hpc : s.worker t <;> simp only [hpc] at hs
  case lock =>
    split at hs
    · cases hs
    · split at hs
      · cases hs
      · rename_i tp hl
        cases hs
        obtain ⟨-, rfl⟩ := mutex_lock_some hl
        exact silent_worker h2 h3 t wpc.check _ rfl rfl rfl rfl rfl rfl rfl rfl rfl
          (Or.inr rfl) (by simp [hpc, wjob])
  case check =>
    split at hs
    · cases hs
    · split at hs <;> cases hs
      · exact silent_worker h2 h3 t wpc.exit _ rfl rfl rfl rfl rfl rfl rfl rfl rfl
          (Or.inr rfl) (by simp [hpc, wjob])
      · exact silent_worker h2 h3 t wpc.loop _ rfl rfl rfl rfl rfl rfl rfl rfl rfl
          (Or.inr rfl) (by simp [hpc, wjob])
  case loop =>
    split at hs
    · cases hs
    · split at hs <;> cases hs
      · exact silent_worker h2 h3 t wpc.wait _ rfl rfl rfl rfl rfl rfl rfl rfl rfl
          (Or.inr rfl) (by simp [hpc, wjob])
      · exact silent_worker h2 h3 t wpc.dequeue _ rfl rfl rfl rfl rfl rfl rfl rfl rfl
          (Or.inr rfl) (by simp [hpc, wjob])
  case wait =>
    split at hs
    · cases hs
    · split at hs
      · cases hs
      · rename_i tp hl
        cases hs
        obtain ⟨-, rfl⟩ := mutex_unlock_some hl
        exact silent_worker h2 h3 t wpc.blocked _ rfl rfl rfl rfl rfl rfl rfl rfl rfl
          (Or.inr rfl) (by simp [hpc, wjob])
  case blocked =>
    split at hs
    · cases hs
    · split at hs
      · cases hs
      · rename_i tp hl
        cases hs
        obtain ⟨-, rfl⟩ := mutex_lock_some hl
        exact silent_worker h2 h3 t wpc.woken _ rfl rfl rfl rfl rfl rfl rfl rfl rfl
          (Or.inr rfl) (by simp [hpc, wjob])
  case woken =>
    split at hs
    · cases hs
    · split at hs <;> cases hs
      · exact silent_worker h2 h3 t wpc.exit _ rfl rfl rfl rfl rfl rfl rfl rfl rfl
          (Or.inr rfl) (by simp [hpc, wjob])
      · exact silent_worker h2 h3 t wpc.loop _ rfl rfl rfl rfl rfl rfl rfl rfl rfl
          (Or.inr rfl) (by simp [hpc, wjob])
  case exit =>
    split at hs
    · cases hs
    · split at hs
      · cases hs
      · rename_i tp hl
        cases hs
        obtain ⟨-, rfl⟩ := mutex_unlock_some hl
        exact silent_worker h2 h3 t wpc.done _ rfl rfl rfl rfl rfl rfl rfl rfl rfl
          (Or.inr rfl) (by simp [hpc, wjob])
  case dequeue =>
    split at hs
    · cases hs
    · split at hs
      · cases hs
      · rename_i tp temp hd
        cases hs
        obtain ⟨a, q1, w, -, -, -, hinv⟩ := h2.dequeue t (h1.wdeq t hpc) hd
          ({ s with pool := tp, deq := s.deq ++ (job_at s.heap temp).toList }.setWorker t
            (wpc.unlock temp)) rfl rfl rfl rfl rfl rfl
        refine ⟨⟨q1, hinv⟩, ?_⟩
        refine h3.move _ t (h1.worker_lt t (by simp [hpc])) (fun u hu => ?_) ?_
        · simp [Sys.setWorker, Function.update_noteq hu]
        · simp only [Sys.setWorker, Function.update_same, hpc, wjob]
          rw [← Multiset.coe_add]
          abel
  case unlock temp =>
    split at hs
    · cases hs
    · split at hs
      · cases hs
      · rename_i tp hl
        cases hs
        obtain ⟨-, rfl⟩ := mutex_unlock_some hl
        exact silent_worker h2 h3 t (wpc.run temp) _ rfl rfl rfl rfl rfl rfl rfl rfl rfl
          (Or.inl (by simp [hpc, wtemp])) (by simp [hpc, wjob])
  case run temp =>
    split at hs
    · rename_i r a hj
      cases hs
      refine ⟨⟨q, (h2.shiftWorker t (wpc.free temp) (Or.inl (by simp [hpc, wtemp]))).frame _ rfl
        rfl rfl rfl rfl rfl rfl rfl⟩, ?_⟩
      refine h3.move _ t (h1.worker_lt t (by simp [hpc])) (fun u hu => ?_) ?_
      · simp [Sys.setWorker, Function.update_noteq hu]
      · simp only [Sys.setWorker, Function.update_same, hpc, wjob, hj, Option.toList_some]
        rw [← Multiset.coe_add]
        abel
    · cases hs
  case free temp =>
    split at hs
    · cases hs
      exact silent_worker h2 h3 t wpc.lock _ rfl rfl rfl rfl rfl rfl rfl rfl rfl
        (Or.inr rfl) (by simp [hpc, wjob])
    · rename_i p
      split at hs
      · cases hs
      · cases hs
        exact h2.release h3 (Thread.worker t) p (by simp [owned, hpc, wtemp])
          ({ s with heap := Function.update s.heap p none }.setWorker t wpc.lock) rfl rfl
          (fun x => by
            cases x with
            | client u => simp [owned, Sys.setWorker]
            | worker u =>
              by_cases hut : u = t
              · subst hut; simp [owned, Sys.setWorker, wtemp]
              · simp [owned, Sys.setWorker, Function.update_noteq hut, hut])
          (fun c pc r a nw hc _ => hc)
          (fun u hu => by
            have hut : u ≠ t := by
              rintro rfl
              exact hu (by simp [hpc, wtemp])
            simp [Sys.setWorker, Function.update_noteq hut])
          (fun u hu => by
            cases hu
            simp [Sys.setWorker, hpc, wjob])
          rfl rfl rfl
  case done => cases hs

/-- The allocation of `dispatch`: a fresh node is initialised and held by the client. -/
theorem Inv2.alloc {N : Nat} {s : Sys} {q : List Addr} (h2 : Inv2 s q) (h3 : Acct N s)
    (c : Tid) (r a : Option Nat) (p : Addr) (hp : s.heap p = none) (s1 : Sys)
    (hheap : s1.heap = Function.update s.heap p (some { routine := r, arg := a, next := none }))
    (hpool : s1.pool = s.pool) (hwk : s1.worker = s.worker)
    (hcl : s1.client = Function.update s.client c (cstate.dispatch ppc.lock2 r a (some p)))
    (henq : s1.enq = s.enq) (hdeq : s1.deq = s.deq) (hran : s1.ran = s.ran) :
    (∃ q1, Inv2 s1 q1) ∧ Acct N s1 := by
  have hq : p ∉ q := by
    intro hm
    obtain ⟨w, hw⟩ := chain_alloc h2.chain p hm
    rw [hp] at hw; cases hw
  have hown : ∀ x, owned s x ≠ some p := by
    intro x hx
    obtain ⟨w, hw⟩ := h2.own_alloc x p hx
    rw [hp] at hw; cases hw
  constructor
  · refine ⟨q, ?_⟩
    have ha := h2.heap_update p (some { routine := r, arg := a, next := none }) hq hown
    have hb := ha.acquire c ppc.lock2 r a p (Or.inl rfl) (by simp) hq hown
    exact hb.frame s1 hheap (by rw [hpool]; rfl) (by rw [hpool]; rfl) (by rw [hpool]; rfl) hwk hcl
      henq hdeq
  · refine h3.congr s1 hdeq hran (fun u => ?_)
    rw [hheap, hwk]
    exact wjob_update p _ _ (hown (Thread.worker u))

theorem inv23_dispatch_step {N : Nat} {s s1 : Sys} {q : List Addr} {c : Tid} {pc : ppc}
    {r a : Option Nat} {nw alloc : Option Addr} (h2 : Inv2 s q)
    (h3 : Acct N s) (hpc : s.client c = cstate.dispatch pc r a nw)
    (hs : dispatch_step s c pc r a nw alloc = Res.next s1) :
    (∃ q1, Inv2 s1 q1) ∧ Acct N s1 := by
  unfold dispatch_step at hs
  cases pc <;> simp only at hs
  case lock1 =>
    split at hs
    · cases hs
    · split at hs
      · cases hs
      · rename_i tp hl
        cases hs
        obtain ⟨-, rfl⟩ := mutex_lock_some hl
        exact silent_client h2 h3 c _ _ rfl rfl rfl rfl rfl rfl rfl rfl rfl (Or.inr rfl)
          (fun pc1 r1 a1 nw1 he hp => by cases he; rcases hp with hp | hp <;> cases hp)
  case check1 =>
    split at hs
    · cases hs
    · split at hs <;> cases hs
      · exact silent_client h2 h3 c _ _ rfl rfl rfl rfl rfl rfl rfl rfl rfl (Or.inr rfl)
          (fun pc1 r1 a1 nw1 he hp => by cases he)
      · exact silent_client h2 h3 c _ _ rfl rfl rfl rfl rfl rfl rfl rfl rfl (Or.inr rfl)
          (fun pc1 r1 a1 nw1 he hp => by cases he; rcases hp with hp | hp <;> cases hp)
  case unlock1 =>
    split at hs
    · cases hs
    · split at hs
      · cases hs
      · rename_i tp hl
        cases hs
        obtain ⟨-, rfl⟩ := mutex_unlock_some hl
        exact silent_client h2 h3 c _ _ rfl rfl rfl rfl rfl rfl rfl rfl rfl (Or.inr rfl)
          (fun pc1 r1 a1 nw1 he hp => by cases he; rcases hp with hp | hp <;> cases hp)
  case routine =>
    split at hs <;> cases hs
    · exact silent_client h2 h3 c _ _ rfl rfl rfl rfl rfl rfl rfl rfl rfl (Or.inr rfl)
        (fun pc1 r1 a1 nw1 he hp => by cases he)
    · exact silent_client h2 h3 c _ _ rfl rfl rfl rfl rfl rfl rfl rfl rfl (Or.inr rfl)
        (fun pc1 r1 a1 nw1 he hp => by cases he; rcases hp with hp | hp <;> cases hp)
  case arg =>
    cases a with
    | none =>
      cases hs
      exact silent_client h2 h3 c _ _ rfl rfl rfl rfl rfl rfl rfl rfl rfl (Or.inr rfl)
        (fun pc1 r1 a1 nw1 he hp => by cases he)
    | some av =>
      cases alloc with
      | none =>
        cases hs
        exact silent_client h2 h3 c _ _ rfl rfl rfl rfl rfl rfl rfl rfl rfl (Or.inr rfl)
          (fun pc1 r1 a1 nw1 he hp => by cases he)
      | some p =>
        simp only at hs
        split at hs
        · cases hs
        · rename_i hp
          cases hs
          exact h2.alloc h3 c r (some av) p hp _ rfl rfl rfl rfl rfl rfl rfl
  case lock2 =>
    split at hs
    · cases hs
    · split at hs
      · cases hs
      · rename_i tp hl
        cases hs
        obtain ⟨-, rfl⟩ := mutex_lock_some hl
        exact silent_client h2 h3 c _ _ rfl rfl rfl rfl rfl rfl rfl rfl rfl
          (Or.inl (by simp [hpc, cnode]))
          (fun pc1 r1 a1 nw1 he hp => by
            cases he
            exact h2.node c _ _ _ _ hpc (Or.inl rfl))
  case crit2 =>
    split at hs
    · cases hs
    · split at hs
      · split at hs
        · cases hs
          exact silent_client h2 h3 c _ _ rfl rfl rfl rfl rfl rfl rfl rfl rfl (Or.inr rfl)
            (fun pc1 r1 a1 nw1 he hp => by cases he)
        · rename_i p
          split at hs
          · cases hs
          · cases hs
            exact h2.release h3 (Thread.client c) p (by simp [owned, hpc, cnode]) _ rfl rfl
              (fun x => by
                cases x with
                | worker u => simp [owned, Sys.setClient]
                | client u =>
                  by_cases hut : u = c
                  · subst hut; simp [owned, Sys.setClient, cnode]
                  · simp [owned, Sys.setClient, Function.update_noteq hut, hut])
              (fun u pc1 r1 a1 nw1 hu _ => by
                by_cases hut : u = c
                · subst hut; simp [Sys.setClient] at hu
                · simpa [Sys.setClient, Function.update_noteq hut] using hu)
              (fun u _ => rfl)
              (fun u hu => by cases hu)
              rfl rfl rfl
      · split at hs
        · cases hs
        · rename_i tp heap1 he
          cases hs
          obtain ⟨p, -, hinv, hj, -⟩ := h2.enqueue c hpc he
            ({ s with pool := tp, heap := heap1, enq := s.enq ++ [(r, a)] }.setClient c
              (cstate.dispatch ppc.signal r a nw)) rfl rfl rfl rfl rfl rfl
          exact ⟨⟨_, hinv⟩, h3.congr _ rfl rfl (fun u => hj _)⟩
  case signal =>
    split at hs
    · cases hs
    · cases hs
      exact silent_client h2 h3 c _ _ rfl rfl rfl rfl rfl rfl rfl rfl rfl (Or.inr rfl)
        (fun pc1 r1 a1 nw1 he hp => by cases he; rcases hp with hp | hp <;> cases hp)
  case unlock2 =>
    split at hs
    · cases hs
    · split at hs
      · cases hs
      · rename_i tp hl
        cases hs
        obtain ⟨-, rfl⟩ := mutex_unlock_some hl
        exact silent_client h2 h3 c _ _ rfl rfl rfl rfl rfl rfl rfl rfl rfl (Or.inr rfl)
          (fun pc1 r1 a1 nw1 he hp => by cases he)

theorem inv23_destroy_threadpool_step {N : Nat} {s s1 : Sys} {q : List Addr} {c : Tid}
    {pc : dpc} {caller : Option Job} (h2 : Inv2 s q) (h3 : Acct N s)
    (hs : destroy_threadpool_step s c pc caller = Res.next s1) :
    (∃ q1, Inv2 s1 q1) ∧ Acct N s1 := by
  unfold destroy_threadpool_step at hs
  split at hs
  · cases hs
  cases pc <;> simp only at hs
  case lock =>
    split at hs
    · cases hs
    · rename_i tp hl
      cases hs
      obtain ⟨-, rfl⟩ := mutex_lock_some hl
      exact silent_client h2 h3 c _ _ rfl rfl rfl rfl rfl rfl rfl rfl rfl (Or.inr rfl)
        (fun pc1 r1 a1 nw1 he hp => by cases he)
  case flag =>
    cases hs
    exact silent_client h2 h3 c _ _ rfl rfl rfl rfl rfl rfl rfl rfl rfl (Or.inr rfl)
      (fun pc1 r1 a1 nw1 he hp => by cases he)
  case loop =>
    split at hs <;> cases hs <;>
    exact silent_client h2 h3 c _ _ rfl rfl rfl rfl rfl rfl rfl rfl rfl (Or.inr rfl)
      (fun pc1 r1 a1 nw1 he hp => by cases he)
  case wait =>
    split at hs
    · cases hs
    · rename_i tp hl
      cases hs
      obtain ⟨-, rfl⟩ := mutex_unlock_some hl
      exact silent_client h2 h3 c _ _ rfl rfl rfl rfl rfl rfl rfl rfl rfl (Or.inr rfl)
        (fun pc1 r1 a1 nw1 he hp => by cases he)
  case blocked =>
    split at hs
    · cases hs
    · rename_i tp hl
      cases hs
      obtain ⟨-, rfl⟩ := mutex_lock_some hl
      exact silent_client h2 h3 c _ _ rfl rfl rfl rfl rfl rfl rfl rfl rfl (Or.inr rfl)
        (fun pc1 r1 a1 nw1 he hp => by cases he)
  case shutdown =>
    cases hs
    exact silent_client h2 h3 c _ _ rfl rfl rfl rfl rfl rfl rfl rfl rfl (Or.inr rfl)
      (fun pc1 r1 a1 nw1 he hp => by cases he)
  case broadcast =>
    cases hs
    exact silent_client h2 h3 c _ _ rfl rfl rfl rfl rfl rfl rfl rfl rfl (Or.inr rfl)
      (fun pc1 r1 a1 nw1 he hp => by cases he)
  case unlock =>
    split at hs
    · cases hs
    · rename_i tp hl
      cases hs
      obtain ⟨-, rfl⟩ := mutex_unlock_some hl
      exact silent_client h2 h3 c _ _ rfl rfl rfl rfl rfl rfl rfl rfl rfl (Or.inr rfl)
        (fun pc1 r1 a1 nw1 he hp => by cases he)
  case join i =>
    split at hs
    · split at hs
      · cases hs
      · split at hs
        · cases hs
          exact silent_client h2 h3 c _ _ rfl rfl rfl rfl rfl rfl rfl rfl rfl (Or.inr rfl)
            (fun pc1 r1 a1 nw1 he hp => by cases he)
        · cases hs
    · cases hs
      exact silent_client h2 h3 c _ _ rfl rfl rfl rfl rfl rfl rfl rfl rfl (Or.inr rfl)
        (fun pc1 r1 a1 nw1 he hp => by cases he)
  case cleanup =>
    split at hs <;> cases hs
    · exact silent_client h2 h3 c _ _ rfl rfl rfl rfl rfl rfl rfl rfl rfl (Or.inr rfl)
        (fun pc1 r1 a1 nw1 he hp => by cases he)
    · exact silent_client h2 h3 c _ _ rfl rfl rfl rfl rfl rfl rfl rfl rfl (Or.inr rfl)
        (fun pc1 r1 a1 nw1 he hp => by cases he; rcases hp with hp | hp <;> cases hp)

theorem inv23_step {N : Nat} {s s1 : Sys} {q : List Addr} {l : Label} (h1 : Inv1 N s)
    (h2 : Inv2 s q) (h3 : Acct N s) (hs : step s l = Res.next s1) :
    (∃ q1, Inv2 s1 q1) ∧ Acct N s1 := by
  cases l with
  | worker t => exact inv23_do_work_step h1 h2 h3 hs
  | call_dispatch c r a =>
    simp only [step] at hs
    split at hs
    · cases hs
      exact silent_client h2 h3 c _ _ rfl rfl rfl rfl rfl rfl rfl rfl rfl (Or.inr rfl)
        (fun pc1 r1 a1 nw1 he hp => by cases he; rcases hp with hp | hp <;> cases hp)
    · cases hs
  | call_destroy c =>
    simp only [step] at hs
    split at hs
    · cases hs
      exact silent_client h2 h3 c _ _ rfl rfl rfl rfl rfl rfl rfl rfl rfl (Or.inr rfl)
        (fun pc1 r1 a1 nw1 he hp => by cases he)
    · cases hs
  | client c alloc =>
    simp only [step] at hs
    split at hs
    · cases hs
    · rename_i hpc
      exact inv23_dispatch_step h2 h3 hpc hs
    · exact inv23_destroy_threadpool_step h2 h3 hs

theorem start_workers_ok (rc : Nat → Int) (remaining i : Nat) (threads : List Tid)
    (hth : threads = List.range i ++ List.replicate remaining 0)
    (h : (start_workers rc remaining i threads).2.1 = none) :
    (start_workers rc remaining i threads).1 = List.range (i + remaining) ∧
    (start_workers rc remaining i threads).2.2 =
      (List.range' i remaining).map (fun j => sys_event.pthread_create j 0) := by
  induction remaining generalizing i threads with
  | zero => simp [start_workers, hth]
  | succ r ih =>
    unfold start_workers at h ⊢
    split
    · rename_i hrc
      simp [hrc] at h
    · rename_i hrc
      simp only [hrc, if_false] at h
      have hset : threads.set i i = List.range (i + 1) ++ List.replicate r 0 := by
        rw [hth, List.set_append_right _ _ (by simp)]
        simp [List.replicate_succ, List.range_succ]
      obtain ⟨h1, h2⟩ := ih (i + 1) (threads.set i i) hset h
      refine ⟨by simp only [h1]; congr 1; omega, ?_⟩
      simp only [h2, List.range'_succ, List.map_cons]

theorem live_workers_creates (i remaining : Nat) :
    live_workers ((List.range' i remaining).map (fun j => sys_event.pthread_create j 0)) =
      List.range' i remaining := by
  induction remaining generalizing i with
  | zero => rfl
  | succ r ih =>
    simp only [List.range'_succ, List.map_cons, live_workers, ih]
    simp

theorem create_threadpool_ok {MAXT_IN_POOL : Int} {env : create_env} {n : Int}
    {tp : threadpool} (h : (create_threadpool MAXT_IN_POOL env n).ret = some tp) :
    1 ≤ n ∧ n ≤ MAXT_IN_POOL ∧ tp = fresh_pool n ∧
      (create_threadpool MAXT_IN_POOL env n).started = List.range n.toNat ∧
      (create_threadpool MAXT_IN_POOL env n).trace =
        [sys_event.calloc_pool true, sys_event.calloc_threads true, sys_event.mutex_init 0,
          sys_event.cond_init_q_empty 0, sys_event.cond_init_q_not_empty 0] ++
        (List.range n.toNat).map (fun j => sys_event.pthread_create j 0) := by
  unfold create_threadpool at h ⊢
  split at h
  · cases h
  rename_i hn
  rw [if_neg hn]
  split at h
  · cases h
  rename_i h1
  rw [if_neg h1]
  simp only at h ⊢
  split at h
  · cases h
  rename_i h2
  rw [if_neg h2]
  split at h
  · cases h
  rename_i h3
  rw [if_neg h3]
  split at h
  · cases h
  rename_i h4
  rw [if_neg h4]
  split at h
  · cases h
  rename_i h5
  rw [if_neg h5]
  split at h
  · cases h
  rename_i hr
  obtain ⟨e1, e2⟩ := start_workers_ok env.pthread_create n.toNat 0 (List.replicate n.toNat 0)
    (by simp) hr
  simp only [hr]
  simp only [Option.some.injEq] at h
  push_neg at hn
  refine ⟨hn.2, hn.1, ?_, ?_, ?_⟩
  · rw [← h, e1]; simp [fresh_pool, ACCEPT]
  · rw [e2]
    simp only [List.singleton_append, List.cons_append, List.nil_append, live_workers,
      List.append_eq]
    rw [live_workers_creates, List.range_eq_range']
  · rw [e2, List.range_eq_range']
    simp

theorem boot_inv (n : Int) (hn : 1 ≤ n) :
    Inv n.toNat (boot (fresh_pool n) (List.range n.toNat)) := by
  refine ⟨?_, ⟨[], ?_⟩, ?_⟩
  · constructor
    · simp [boot, fresh_pool]; omega
    · rfl
    · intro t ht
      simp only [boot, List.mem_range, Nat.not_lt.mpr ht, if_false]
    · intro h; exact absurd rfl h
    · intro h; cases h
    · intro t ht
      simp only [boot] at ht
      split at ht <;> simp [wlocked] at ht
    · intro c hc
      simp [boot, clocked] at hc
    · intro t ht
      simp only [boot] at ht
      split at ht <;> cases ht
    · intro c pc caller hc
      simp [boot] at hc
  · constructor
    · rfl
    · rfl
    · rfl
    · exact List.nodup_nil
    · intro x p hx
      cases x with
      | worker t =>
        simp only [owned, boot] at hx
        split at hx <;> simp [wtemp] at hx
      | client c => simp [owned, boot, cnode] at hx
    · intro x p _; simp
    · intro x y p hx
      cases x with
      | worker t =>
        simp only [owned, boot] at hx
        split at hx <;> simp [wtemp] at hx
      | client c => simp [owned, boot, cnode] at hx
    · intro c pc r a nw hc
      simp [boot] at hc
    · rfl
  · have hz : inflight n.toNat (boot (fresh_pool n) (List.range n.toNat)) = 0 :=
      Finset.sum_eq_zero (fun t _ => by simp only [boot]; split <;> rfl)
    unfold Acct
    rw [hz]
    simp [boot]

theorem Inv.next {N : Nat} {s s1 : Sys} {l : Label} (h : Inv N s)
    (hs : step s l = Res.next s1) : Inv N s1 := by
  obtain ⟨q, h2⟩ := h.two
  have := inv23_step h.one h2 h.acct hs
  exact ⟨h.one.step_ok hs, this.1, this.2⟩

theorem Reachable.inv {MAXT_IN_POOL n : Int} {s : Sys} (h : Reachable MAXT_IN_POOL n s) :
    Inv n.toNat s := by
  induction h with
  | init env tp h =>
    obtain ⟨h1, -, rfl, hst, -⟩ := create_threadpool_ok h
    rw [hst]
    exact boot_inv n h1
  | step s l s1 _ hs ih => exact ih.next hs

theorem run_after (s : Sys) (ls : List Label) (h : (run s ls).isNext = true) :
    run s ls = Res.next (after s ls) := by
  unfold after
  cases hr : run s ls <;> simp_all [Res.isNext]

theorem reachable_run {MAXT_IN_POOL n : Int} {s : Sys} (h : Reachable MAXT_IN_POOL n s)
    (ls : List Label) {s1 : Sys} (hr : run s ls = Res.next s1) : Reachable MAXT_IN_POOL n s1 := by
  induction ls generalizing s with
  | nil =>
    simp only [run, Res.next.injEq] at hr
    exact hr ▸ h
  | cons l ls ih =>
    cases hs : step s l with
    | next s2 =>
      simp only [run, hs] at hr
      exact ih (Reachable.step s l s2 h hs) hr
    | blocked => simp [run, hs] at hr
    | fault => simp [run, hs] at hr

theorem walk_chain {heap : Heap} {q : List Addr} {hd : Option Addr} (h : chain heap hd q) :
    walk heap q.length hd = q := by
  induction q generalizing hd with
  | nil => rfl
  | cons a q ih =>
    obtain ⟨rfl, w, hw, hc⟩ := h
    simp [walk, hw, ih hc]

theorem Inv2.queue_eq {s : Sys} {q : List Addr} (h : Inv2 s q) : queue s = q := by
  unfold queue
  rw [h.size]
  simpa using walk_chain h.chain

theorem Inv2.jobs_eq {s : Sys} {q : List Addr} (h : Inv2 s q) :
    s.enq = s.deq ++ jobs s := by
  unfold jobs
  rw [h.queue_eq]
  exact h.enq_eq

/-- C2: in every state the system can reach, the jobs unlinked by the workers,
in the order of their unlinking, are an initial segment of the jobs linked by
`dispatch`, in the order of their linking, and the rest is the queue: the i-th
job dequeued is the i-th job accepted. -/
theorem dequeue_order_is_submission_order (MAXT_IN_POOL n : Int) (s : Sys)
    (h : Reachable MAXT_IN_POOL n s) :
    s.enq = s.deq ++ jobs s ∧ ∀ i, i < s.deq.length → s.deq[i]? = s.enq[i]? := by
  obtain ⟨q, h2⟩ := h.inv.two
  have he := h2.jobs_eq
  refine ⟨he, fun i hi => ?_⟩
  rw [he, List.getElem?_append_left hi]

theorem solo_step {c : Tid} {alloc : Option Addr} {s : Sys} (s1 : Sys) (f : Nat)
    (hc : s.client c ≠ cstate.idle) (hs : step s (Label.client c alloc) = Res.next s1) :
    solo c alloc (f + 1) s = solo c alloc f s1 := by
  simp only [solo, hs]

theorem solo_idle {c : Tid} {alloc : Option Addr} {s : Sys} (f : Nat)
    (hc : s.client c = cstate.idle) : solo c alloc (f + 1) s = Res.next s := by
  simp only [solo, hc]

/-- The run of an accepted `dispatch`, up to the enqueue. -/
theorem dispatch_accept_run (s : Sys) (c : Tid) (r a : Nat) (p : Addr)
    (hfreed : s.freed = false) (hda : s.pool.dont_accept ≠ DONT_ACCEPT)
    (hlock : s.pool.qlock = none) (hidle : s.client c = cstate.idle) (hp : s.heap p = none)
    (tp : threadpool) (heap1 : Heap)
    (he : dispatch_enqueue { s.pool with qlock := some (Thread.client c) }
      (Function.update s.heap p (some { routine := some r, arg := some a, next := none }))
      (some p) = some (tp, heap1)) :
    dispatch s c (some r) (some a) (some p) =
      Res.next (s.at { tp with q_not_empty := cond_signal tp.q_not_empty, qlock := none } heap1
        (s.enq ++ [(some r, some a)]) c cstate.idle) := by
  have hq : tp.qlock = some (Thread.client c) := (dispatch_enqueue_frame he).2.2.2.2.1
  simp only [dispatch, step, hidle]
  rw [show 32 + s.pool.num_threads.toNat = (s.pool.num_threads.toNat + 22) + 10 by omega]
  rw [solo_step (s.at { s.pool with qlock := some (Thread.client c) } s.heap s.enq c
    (cstate.dispatch ppc.check1 (some r) (some a) none)) _ (by simp [Sys.setClient])
    (by simp [step, Sys.setClient, Sys.at, dispatch_step, hfreed, mutex_lock, hlock])]
  rw [solo_step (s.at { s.pool with qlock := some (Thread.client c) } s.heap s.enq c
    (cstate.dispatch ppc.unlock1 (some r) (some a) none)) _ (by simp [Sys.at])
    (by simp [step, Sys.setClient, Sys.at, dispatch_step, hfreed, hda])]
  rw [solo_step (s.at s.pool s.heap s.enq c
    (cstate.dispatch ppc.routine (some r) (some a) none)) _ (by simp [Sys.at])
    (by simp [step, Sys.setClient, Sys.at, dispatch_step, hfreed, mutex_unlock, ← hlock])]
  rw [solo_step (s.at s.pool s.heap s.enq c
    (cstate.dispatch ppc.arg (some r) (some a) none)) _ (by simp [Sys.at])
    (by simp [step, Sys.setClient, Sys.at, dispatch_step])]
  rw [solo_step (s.at s.pool
    (Function.update s.heap p (some { routine := some r, arg := some a, next := none })) s.enq c
    (cstate.dispatch ppc.lock2 (some r) (some a) (some p))) _ (by simp [Sys.at])
    (by simp [step, Sys.setClient, Sys.at, dispatch_step, hp])]
  rw [solo_step (s.at { s.pool with qlock := some (Thread.client c) }
    (Function.update s.heap p (some { routine := some r, arg := some a, next := none })) s.enq c
    (cstate.dispatch ppc.crit2 (some r) (some a) (some p))) _ (by simp [Sys.at])
    (by simp [step, Sys.setClient, Sys.at, dispatch_step, hfreed, mutex_lock, hlock])]
  rw [solo_step (s.at tp heap1 (s.enq ++ [(some r, some a)]) c
    (cstate.dispatch ppc.signal (some r) (some a) (some p))) _ (by simp [Sys.at])
    (by simp [step, Sys.setClient, Sys.at, dispatch_step, hfreed, hda, he])]
  rw [solo_step (s.at { tp with q_not_empty := cond_signal tp.q_not_empty } heap1
    (s.enq ++ [(some r, some a)]) c
    (cstate.dispatch ppc.unlock2 (some r) (some a) (some p))) _ (by simp [Sys.at])
    (by simp [step, Sys.setClient, Sys.at, dispatch_step, hfreed])]
  rw [solo_step (s.at { tp with q_not_empty := cond_signal tp.q_not_empty, qlock := none } heap1
    (s.enq ++ [(some r, some a)]) c cstate.idle) _ (by simp [Sys.at])
    (by simp [step, Sys.setClient, Sys.at, dispatch_step, hfreed, mutex_unlock, hq])]
  rw [solo_idle _ (by simp [Sys.at])]

theorem solo_stuck {c : Tid} {alloc : Option Addr} {s : Sys} (f : Nat)
    (hc : s.client c ≠ cstate.idle)
    (hs : ∀ s1, step s (Label.client c alloc) ≠ Res.next s1) :
    ∀ s1, solo c alloc f s ≠ Res.next s1 := by
  intro s1 h
  cases f with
  | zero => simp [solo] at h
  | succ f =>
    simp only [solo] at h
    exact hs s1 h

/-- The run of `dispatch` on a pool whose `dont_accept` flag is raised. -/
theorem dispatch_reject_run (s : Sys) (c : Tid) (r a : Option Nat) (alloc : Option Addr)
    (hfreed : s.freed = false) (hda : s.pool.dont_accept = DONT_ACCEPT)
    (hlock : s.pool.qlock = none) (hidle : s.client c = cstate.idle) :
    dispatch s c r a alloc =
      Res.next (s.at { s.pool with qlock := some (Thread.client c) } s.heap s.enq c
        cstate.idle) := by
  simp only [dispatch, step, hidle]
  rw [show 32 + s.pool.num_threads.toNat = (s.pool.num_threads.toNat + 29) + 3 by omega]
  rw [solo_step (s.at { s.pool with qlock := some (Thread.client c) } s.heap s.enq c
    (cstate.dispatch ppc.check1 r a none)) _ (by simp [Sys.setClient])
    (by simp [step, Sys.setClient, Sys.at, dispatch_step, hfreed, mutex_lock, hlock])]
  rw [solo_step (s.at { s.pool with qlock := some (Thread.client c) } s.heap s.enq c
    cstate.idle) _ (by simp [Sys.at])
    (by simp [step, Sys.setClient, Sys.at, dispatch_step, hfreed, hda])]
  rw [solo_idle _ (by simp [Sys.at])]

/-- The run of `dispatch` with a routine and a null argument on an accepting pool. -/
theorem dispatch_null_arg_run (s : Sys) (c : Tid) (r : Nat) (alloc : Option Addr)
    (hfreed : s.freed = false) (hda : s.pool.dont_accept ≠ DONT_ACCEPT)
    (hlock : s.pool.qlock = none) (hidle : s.client c = cstate.idle) :
    dispatch s c (some r) none alloc = Res.next s := by
  simp only [dispatch, step, hidle]
  rw [show 32 + s.pool.num_threads.toNat = (s.pool.num_threads.toNat + 26) + 6 by omega]
  rw [solo_step (s.at { s.pool with qlock := some (Thread.client c) } s.heap s.enq c
    (cstate.dispatch ppc.check1 (some r) none none)) _ (by simp [Sys.setClient])
    (by simp [step, Sys.setClient, Sys.at, dispatch_step, hfreed, mutex_lock, hlock])]
  rw [solo_step (s.at { s.pool with qlock := some (Thread.client c) } s.heap s.enq c
    (cstate.dispatch ppc.unlock1 (some r) none none)) _ (by simp [Sys.at])
    (by simp [step, Sys.setClient, Sys.at, dispatch_step, hfreed, hda])]
  rw [solo_step (s.at s.pool s.heap s.enq c
    (cstate.dispatch ppc.routine (some r) none none)) _ (by simp [Sys.at])
    (by simp [step, Sys.setClient, Sys.at, dispatch_step, hfreed, mutex_unlock, ← hlock])]
  rw [solo_step (s.at s.pool s.heap s.enq c
    (cstate.dispatch ppc.arg (some r) none none)) _ (by simp [Sys.at])
    (by simp [step, Sys.setClient, Sys.at, dispatch_step])]
  rw [solo_step s _ (by simp [Sys.at])
    (by simp [step, Sys.setClient, Sys.at, dispatch_step, ← hidle])]
  rw [solo_idle _ hidle]

/-- The run of `dispatch` with a routine and an argument on an accepting pool when
`calloc` (line 131) answers NULL: the call returns at line 135 and the state is
the one of before. -/
theorem dispatch_calloc_fail_run (s : Sys) (c : Tid) (r a : Nat)
    (hfreed : s.freed = false) (hda : s.pool.dont_accept ≠ DONT_ACCEPT)
    (hlock : s.pool.qlock = none) (hidle : s.client c = cstate.idle) :
    dispatch s c (some r) (some a) none = Res.next s := by
  simp only [dispatch, step, hidle]
  rw [show 32 + s.pool.num_threads.toNat = (s.pool.num_threads.toNat + 26) + 6 by omega]
  rw [solo_step (s.at { s.pool with qlock := some (Thread.client c) } s.heap s.enq c
    (cstate.dispatch ppc.check1 (some r) (some a) none)) _ (by simp [Sys.setClient])
    (by simp [step, Sys.setClient, Sys.at, dispatch_step, hfreed, mutex_lock, hlock])]
  rw [solo_step (s.at { s.pool with qlock := some (Thread.client c) } s.heap s.enq c
    (cstate.dispatch ppc.unlock1 (some r) (some a) none)) _ (by simp [Sys.at])
    (by simp [step, Sys.setClient, Sys.at, dispatch_step, hfreed, hda])]
  rw [solo_step (s.at s.pool s.heap s.enq c
    (cstate.dispatch ppc.routine (some r) (some a) none)) _ (by simp [Sys.at])
    (by simp [step, Sys.setClient, Sys.at, dispatch_step, hfreed, mutex_unlock, ← hlock])]
  rw [solo_step (s.at s.pool s.heap s.enq c
    (cstate.dispatch ppc.arg (some r) (some a) none)) _ (by simp [Sys.at])
    (by simp [step, Sys.setClient, Sys.at, dispatch_step])]
  rw [solo_step s _ (by simp [Sys.at])
    (by simp [step, Sys.setClient, Sys.at, dispatch_step, ← hidle])]
  rw [solo_idle _ hidle]

theorem inv2_enqueue_some {s : Sys} {q : List Addr} (h : Inv2 s q) (nw : Option Addr) :
    ∃ tp heap1, dispatch_enqueue s.pool s.heap nw = some (tp, heap1) := by
  unfold dispatch_enqueue
  split
  · exact ⟨_, _, rfl⟩
  · rename_i hz
    cases q with
    | nil => exact absurd (by simpa using h.size) hz
    | cons b q1 =>
      have hne : b :: q1 ≠ [] := by simp
      have ht : s.pool.qtail = some ((b :: q1).getLast hne) := by
        rw [h.tail, List.getLast?_eq_getLast _ hne]
      obtain ⟨w, hw⟩ := chain_alloc h.chain _ (List.getLast_mem hne)
      simp only [ht, hw]
      exact ⟨_, _, rfl⟩

/-- An accepted `dispatch`, run to its return from a state that satisfies the
invariant of the list: the new node is linked last and one signal is sent. -/
theorem dispatch_accept {s : Sys} {q : List Addr} (h2 : Inv2 s q) (c : Tid) (r a : Nat)
    (p : Addr) (hfreed : s.freed = false) (hda : s.pool.dont_accept ≠ DONT_ACCEPT)
    (hlock : s.pool.qlock = none) (hidle : s.client c = cstate.idle) (hp : s.heap p = none) :
    ∃ s1, dispatch s c (some r) (some a) (some p) = Res.next s1 ∧ Inv2 s1 (q ++ [p]) ∧
      s1.heap p = some { routine := some r, arg := some a, next := none } ∧
      s1.pool.qsize = s.pool.qsize + 1 ∧ s1.pool.dont_accept = s.pool.dont_accept ∧
      s1.pool.shutdown = s.pool.shutdown ∧
      s1.pool.q_not_empty = cond_signal s.pool.q_not_empty ∧
      s1.pool.q_empty = s.pool.q_empty ∧ s1.pool.qlock = none ∧
      s1.client c = cstate.idle ∧ s1.enq = s.enq ++ [(some r, some a)] ∧ s1.deq = s.deq ∧
      s1.ran = s.ran ∧ s1.freed = s.freed ∧ s1.worker = s.worker := by
  have hq : p ∉ q := by
    intro hm
    obtain ⟨w, hw⟩ := chain_alloc h2.chain p hm
    rw [hp] at hw; cases hw
  have hown : ∀ x, owned s x ≠ some p := by
    intro x hx
    obtain ⟨w, hw⟩ := h2.own_alloc x p hx
    rw [hp] at hw; cases hw
  have ha := h2.heap_update p (some { routine := some r, arg := some a, next := none }) hq hown
  have hb := ha.acquire c ppc.crit2 (some r) (some a) p (Or.inr rfl) (by simp) hq hown
  have h6 : Inv2 (s.at { s.pool with qlock := some (Thread.client c) }
      (Function.update s.heap p (some { routine := some r, arg := some a, next := none }))
      s.enq c (cstate.dispatch ppc.crit2 (some r) (some a) (some p))) q :=
    hb.frame _ rfl rfl rfl rfl rfl rfl rfl rfl
  obtain ⟨tp, heap1, he⟩ := inv2_enqueue_some h6 (some p)
  obtain ⟨p1, hp1, h7, -, hnode⟩ := h6.enqueue c (by simp [Sys.at]) he
    (s.at tp heap1 (s.enq ++ [(some r, some a)]) c
      (cstate.dispatch ppc.signal (some r) (some a) (some p)))
    rfl rfl rfl (by simp [Sys.at]) rfl rfl
  cases hp1
  have h9 := (h7.shiftClient c cstate.idle (Or.inr rfl) (fun pc r1 a1 nw he1 => by cases he1))
  obtain ⟨f1, f2, f3, f4, f5, f6, f7, f8, f9⟩ := dispatch_enqueue_frame he
  refine ⟨_, dispatch_accept_run s c r a p hfreed hda hlock hidle hp tp heap1 he, ?_, hnode,
    f8, f3, f4, ?_, f7, rfl, by simp [Sys.at], rfl, rfl, rfl, rfl, rfl⟩
  · exact h9.frame _ rfl rfl rfl rfl rfl (by simp [Sys.at, Sys.setClient]) rfl rfl
  · show cond_signal tp.q_not_empty = _
    rw [f6]
    rfl

theorem solo_reachable {MAXT_IN_POOL n : Int} {c : Tid} {alloc : Option Addr} (f : Nat)
    {s s1 : Sys} (h : Reachable MAXT_IN_POOL n s) (hr : solo c alloc f s = Res.next s1) :
    Reachable MAXT_IN_POOL n s1 := by
  induction f generalizing s with
  | zero => simp [solo] at hr
  | succ f ih =>
    simp only [solo] at hr
    split at hr
    · cases hr; exact h
    · split at hr
      · rename_i s2 hs
        exact ih (Reachable.step s _ s2 h hs) hr
      · rename_i r hne
        exact absurd hr (by intro e; exact hne s1 e)

theorem dispatch_reachable {MAXT_IN_POOL n : Int} {c : Tid} {r a : Option Nat}
    {alloc : Option Addr} {s s1 : Sys} (h : Reachable MAXT_IN_POOL n s)
    (hr : dispatch s c r a alloc = Res.next s1) : Reachable MAXT_IN_POOL n s1 := by
  unfold dispatch at hr
  split at hr
  · rename_i s2 hs
    exact solo_reachable _ (Reachable.step s _ s2 h hs) hr
  · rename_i r hne
    exact absurd hr (by intro e; exact hne s1 e)

theorem Inv1.not_freed {N : Nat} {s : Sys} (h : Inv1 N s) (hsh : s.pool.shutdown = 0) :
    s.freed = false := by
  by_contra hf
  exact (h.freed_imp (by simpa using hf)).1 hsh

theorem mutex_lock_flags {tp tp1 : threadpool} {me : Thread} (h : mutex_lock tp me = some tp1) :
    tp1.dont_accept = tp.dont_accept ∧ tp1.qsize = tp.qsize := by
  obtain ⟨-, rfl⟩ := mutex_lock_some h
  exact ⟨rfl, rfl⟩

theorem mutex_unlock_flags {tp tp1 : threadpool} {me : Thread}
    (h : mutex_unlock tp me = some tp1) :
    tp1.dont_accept = tp.dont_accept ∧ tp1.qsize = tp.qsize := by
  obtain ⟨-, rfl⟩ := mutex_unlock_some h
  exact ⟨rfl, rfl⟩

/-- While `dont_accept` is raised, no move of any thread links a job: the flag
stays raised, the list of accepted jobs is unchanged and `qsize` does not grow. -/
theorem step_draining {s s1 : Sys} {l : Label} (hda : s.pool.dont_accept = DONT_ACCEPT)
    (hs : step s l = Res.next s1) :
    s1.pool.dont_accept = DONT_ACCEPT ∧ s1.enq = s.enq ∧ s1.pool.qsize ≤ s.pool.qsize := by
  cases l with
  | worker t =>
    simp only [step, do_work_step] at hs
    cases hpc : s.worker t <;> simp only [hpc] at hs
    case dequeue =>
      split at hs
      · cases hs
      · split at hs
        · cases hs
        · rename_i tp temp hd
          cases hs
          obtain ⟨-, -, f3, -, -, -, f7, -⟩ := do_work_dequeue_frame hd
          refine ⟨f3.trans hda, rfl, ?_⟩
          show tp.qsize ≤ s.pool.qsize
          omega
    all_goals
      repeat' split at hs
      all_goals first
        | (cases hs; done)
        | (cases hs; exact ⟨hda, rfl, le_refl _⟩)
        | (cases hs; rename_i tp hl; exact ⟨(mutex_lock_flags hl).1.trans hda, rfl, le_of_eq (mutex_lock_flags hl).2⟩)
        | (cases hs; rename_i tp hl; exact ⟨(mutex_unlock_flags hl).1.trans hda, rfl, le_of_eq (mutex_unlock_flags hl).2⟩)
  | call_dispatch c r a =>
    simp only [step] at hs
    split at hs <;> cases hs
    exact ⟨hda, rfl, le_refl _⟩
  | call_destroy c =>
    simp only [step] at hs
    split at hs <;> cases hs
    exact ⟨hda, rfl, le_refl _⟩
  | client c alloc =>
    simp only [step] at hs
    split at hs
    · cases hs
    · rename_i pc r a nw hpc
      unfold dispatch_step at hs
      cases pc <;> simp only [hda, if_true] at hs
      all_goals
        repeat' split at hs
        all_goals first
          | (cases hs; done)
          | (cases hs; exact ⟨hda, rfl, le_refl _⟩)
          | (cases hs; exact ⟨rfl, rfl, le_refl _⟩)
          | (cases hs; rename_i tp hl; exact ⟨(mutex_lock_flags hl).1.trans hda, rfl, le_of_eq (mutex_lock_flags hl).2⟩)
          | (cases hs; rename_i tp hl; exact ⟨(mutex_unlock_flags hl).1.trans hda, rfl, le_of_eq (mutex_unlock_flags hl).2⟩)
    · rename_i pc caller hpc
      unfold destroy_threadpool_step at hs
      split at hs
      · cases hs
      cases pc <;> simp only at hs
      all_goals
        repeat' split at hs
        all_goals first
          | (cases hs; done)
          | (cases hs; exact ⟨hda, rfl, le_refl _⟩)
          | (cases hs; exact ⟨rfl, rfl, le_refl _⟩)
          | (cases hs; rename_i tp hl; exact ⟨(mutex_lock_flags hl).1.trans hda, rfl, le_of_eq (mutex_lock_flags hl).2⟩)
          | (cases hs; rename_i tp hl; exact ⟨(mutex_unlock_flags hl).1.trans hda, rfl, le_of_eq (mutex_unlock_flags hl).2⟩)

theorem start_workers_all (rc : Nat → Int) (hrc : ∀ i, rc i = 0) (remaining i : Nat)
    (threads : List Tid) : (start_workers rc remaining i threads).2.1 = none := by
  induction remaining generalizing i threads with
  | zero => rfl
  | succ k ih =>
    unfold start_workers
    simp only [hrc i, ne_eq, not_true_eq_false, if_false]
    exact ih (i + 1) _

theorem create_threadpool_success (MAXT_IN_POOL : Int) (env : create_env) (n : Int)
    (hn : 1 ≤ n ∧ n ≤ MAXT_IN_POOL) (henv : env.ok) :
    (create_threadpool MAXT_IN_POOL env n).ret = some (fresh_pool n) := by
  obtain ⟨e1, e2, e3, e4, e5, e6⟩ := henv
  have hr := start_workers_all env.pthread_create e6 n.toNat 0 (List.replicate n.toNat 0)
  have key : ∃ tp, (create_threadpool MAXT_IN_POOL env n).ret = some tp := by
    unfold create_threadpool
    rw [if_neg (by omega)]
    simp only [e1, e2, e3, e4, e5, ne_eq, not_true_eq_false, if_false, Bool.not_eq_true]
    simp only [hr]
    exact ⟨_, rfl⟩
  obtain ⟨tp, htp⟩ := key
  rw [htp, (create_threadpool_ok htp).2.2.1]

theorem env_ok_ok : env_ok.ok := ⟨rfl, rfl, rfl, rfl, rfl, fun _ => rfl⟩

theorem booted_reachable (MAXT_IN_POOL n : Int) (hn : 1 ≤ n ∧ n ≤ MAXT_IN_POOL) :
    Reachable MAXT_IN_POOL n (booted MAXT_IN_POOL n) :=
  Reachable.init env_ok (fresh_pool n) (create_threadpool_success MAXT_IN_POOL env_ok n hn env_ok_ok)

theorem after_reachable {MAXT_IN_POOL n : Int} {s : Sys} (h : Reachable MAXT_IN_POOL n s)
    (ls : List Label) (hr : (run s ls).isNext = true) :
    Reachable MAXT_IN_POOL n (after s ls) :=
  reachable_run h ls (run_after s ls hr)

set_option maxRecDepth 100000 in
theorem tester_done_reachable : Reachable 200 10 tester_done :=
  after_reachable (booted_reachable 200 10 (by decide)) _ rfl

set_option maxRecDepth 100000 in
theorem tester_midway_reachable : Reachable 200 10 tester_midway :=
  after_reachable (booted_reachable 200 10 (by decide)) _ rfl

theorem draining_reachable : Reachable 200 1 draining :=
  after_reachable (booted_reachable 200 1 (by decide)) _ rfl

theorem draining_late_reachable : Reachable 200 1 draining_late :=
  after_reachable (booted_reachable 200 1 (by decide)) _ rfl

theorem one_queued_reachable : Reachable 200 2 one_queued :=
  after_reachable (booted_reachable 200 2 (by decide)) _ rfl

set_option maxRecDepth 100000 in
/-- Witness of C2: midway through the run of `tester.c`, 20 jobs have been
accepted and the 5 dequeued so far are the first 5 of them. -/
theorem dequeue_order_is_submission_order_witness :
    Reachable 200 10 tester_midway ∧ tester_midway.enq.length = 20 ∧
      tester_midway.deq.length = 5 ∧
      (tester_midway.enq = tester_midway.deq ++ jobs tester_midway ∧
        ∀ i, i < tester_midway.deq.length → tester_midway.deq[i]? = tester_midway.enq[i]?) :=
  ⟨tester_midway_reachable, rfl, rfl,
    dequeue_order_is_submission_order 200 10 tester_midway tester_midway_reachable⟩

/-- C3, amended: in every reachable state where the pool is Accepting (both flags
clear), the mutex is free and client `c` is outside any call, the call
`dispatch(pool, r, a)` with a non-null routine and a non-null argument, for which
`calloc` (line 131) returns the fresh node `p`, returns with: the queue of before
followed by `p`, which holds `(r, a)`; `qsize` greater by one; both flags
unchanged; one more signal on `q_not_empty`, no broadcast, `q_empty` untouched; the
mutex free.  When `calloc` answers NULL instead, the call returns at line 135 and
the whole state is the one of before: nothing is appended and nothing signalled. -/
theorem dispatch_appends_at_tail (MAXT_IN_POOL n : Int) (s : Sys)
    (h : Reachable MAXT_IN_POOL n s) (c : Tid) (r a : Nat) (p : Addr)
    (hacc : s.pool.dont_accept = ACCEPT ∧ s.pool.shutdown = ACCEPT)
    (hlock : s.pool.qlock = none) (hidle : s.client c = cstate.idle)
    (hp : s.heap p = none) :
    (∃ s1, dispatch s c (some r) (some a) (some p) = Res.next s1 ∧
      queue s1 = queue s ++ [p] ∧ job_at s1.heap (some p) = some (some r, some a) ∧
      jobs s1 = jobs s ++ [(some r, some a)] ∧
      s1.pool.qsize = s.pool.qsize + 1 ∧
      s1.pool.dont_accept = s.pool.dont_accept ∧ s1.pool.shutdown = s.pool.shutdown ∧
      s1.pool.q_not_empty.signals = s.pool.q_not_empty.signals + 1 ∧
      s1.pool.q_not_empty.broadcasts = s.pool.q_not_empty.broadcasts ∧
      s1.pool.q_empty = s.pool.q_empty ∧ s1.pool.qlock = none) ∧
    dispatch s c (some r) (some a) none = Res.next s := by
  obtain ⟨q, h2⟩ := h.inv.two
  have hfreed := h.inv.one.not_freed hacc.2
  have hda : s.pool.dont_accept ≠ DONT_ACCEPT := by rw [hacc.1]; decide
  obtain ⟨s1, hd, hinv, hnode, f1, f2, f3, f4, f5, f6, -, f8, f9, -, -, -⟩ :=
    dispatch_accept h2 c r a p hfreed hda hlock hidle hp
  refine ⟨⟨s1, hd, ?_, ?_, ?_, f1, f2, f3, ?_, ?_, f5, f6⟩,
    dispatch_calloc_fail_run s c r a hfreed hda hlock hidle⟩
  · rw [hinv.queue_eq, h2.queue_eq]
  · simp [job_at, hnode]
  · have e1 := hinv.jobs_eq
    rw [f8, f9, h2.jobs_eq, List.append_assoc] at e1
    exact (List.append_cancel_left e1).symm
  · rw [f4]; rfl
  · rw [f4]; rfl

/-- Witness of C3: a second job dispatched on a pool of two workers with one job
queued. -/
theorem dispatch_appends_at_tail_witness :
    Reachable 200 2 one_queued ∧
      (one_queued.pool.dont_accept = ACCEPT ∧ one_queued.pool.shutdown = ACCEPT) ∧
      one_queued.pool.qlock = none ∧ one_queued.client 0 = cstate.idle ∧
      one_queued.heap 101 = none ∧ queue one_queued = [100] ∧
      (∃ s1, dispatch one_queued 0 (some 7) (some 2) (some 101) = Res.next s1 ∧
        queue s1 = queue one_queued ++ [101] ∧
        job_at s1.heap (some 101) = some (some 7, some 2) ∧
        jobs s1 = jobs one_queued ++ [(some 7, some 2)] ∧
        s1.pool.qsize = one_queued.pool.qsize + 1 ∧
        s1.pool.dont_accept = one_queued.pool.dont_accept ∧
        s1.pool.shutdown = one_queued.pool.shutdown ∧
        s1.pool.q_not_empty.signals = one_queued.pool.q_not_empty.signals + 1 ∧
        s1.pool.q_not_empty.broadcasts = one_queued.pool.q_not_empty.broadcasts ∧
        s1.pool.q_empty = one_queued.pool.q_empty ∧ s1.pool.qlock = none) ∧
      dispatch one_queued 0 (some 7) (some 2) none = Res.next one_queued :=
  ⟨one_queued_reachable, ⟨rfl, rfl⟩, rfl, rfl, rfl, rfl,
    dispatch_appends_at_tail 200 2 one_queued one_queued_reachable 0 7 2 101 ⟨rfl, rfl⟩ rfl rfl
      rfl⟩

/-- C3 as stated fails on the code: on the reachable Accepting pool `one_queued`
(mutex free, client 0 outside any call, the job at 100 queued),
`dispatch(pool, 7, 2)` with a non-null routine and a non-null argument, for which
`calloc` at line 131 answers NULL, returns at line 135 and appends nothing: the
queue is still `[100]`, `qsize` is still 1 and `q_not_empty` has no new signal. -/
theorem dispatch_calloc_failure_appends_nothing :
    Reachable 200 2 one_queued ∧
      (one_queued.pool.dont_accept = ACCEPT ∧ one_queued.pool.shutdown = ACCEPT) ∧
      one_queued.pool.qlock = none ∧ one_queued.client 0 = cstate.idle ∧
      dispatch one_queued 0 (some 7) (some 2) none = Res.next one_queued ∧
      queue one_queued = [100] ∧ jobs one_queued = [(some 7, some 1)] ∧
      one_queued.pool.qsize = 1 ∧
      ¬ ∃ s1, dispatch one_queued 0 (some 7) (some 2) none = Res.next s1 ∧
        jobs s1 = jobs one_queued ++ [(some 7, some 2)] ∧
        s1.pool.qsize = one_queued.pool.qsize + 1 ∧
        s1.pool.q_not_empty.signals = one_queued.pool.q_not_empty.signals + 1 := by
  have hrun := dispatch_calloc_fail_run one_queued 0 7 2 rfl (by decide) rfl rfl
  refine ⟨one_queued_reachable, ⟨rfl, rfl⟩, rfl, rfl, hrun, rfl, rfl, rfl, ?_⟩
  rintro ⟨s1, hd, -, hsz, -⟩
  rw [hrun] at hd
  cases hd
  exact absurd hsz (by decide)

/-- C4: on a pool whose `dont_accept` flag is raised (Draining or Shutdown), a call
of `dispatch`, whatever its routine, its argument and the answer of `calloc`,
leaves the queue, the job nodes, `qsize` and the list of accepted jobs as they
were when it returns; it does return when the pool is not yet freed, the mutex is
free and the caller is outside any call; and under every interleaving no move of
any thread links a job: the flag stays raised, the accepted jobs are the same and
`qsize` does not grow. -/
theorem dispatch_rejected_while_draining (s : Sys) (c : Tid) (r a : Option Nat)
    (alloc : Option Addr) (hda : s.pool.dont_accept = DONT_ACCEPT) :
    (∀ s1, dispatch s c r a alloc = Res.next s1 →
      queue s1 = queue s ∧ jobs s1 = jobs s ∧ s1.pool.qsize = s.pool.qsize ∧
        s1.heap = s.heap ∧ s1.enq = s.enq) ∧
    (s.freed = false → s.pool.qlock = none → s.client c = cstate.idle →
      ∃ s1, dispatch s c r a alloc = Res.next s1) ∧
    (∀ l s1, step s l = Res.next s1 →
      s1.pool.dont_accept = DONT_ACCEPT ∧ s1.enq = s.enq ∧ s1.pool.qsize ≤ s.pool.qsize) := by
  refine ⟨fun s1 hd => ?_, fun hf hl hi => ⟨_, dispatch_reject_run s c r a alloc hf hda hl hi⟩,
    fun l s1 hs => step_draining hda hs⟩
  by_cases hi : s.client c = cstate.idle
  · by_cases hf : s.freed = false
    · by_cases hl : s.pool.qlock = none
      · rw [dispatch_reject_run s c r a alloc hf hda hl hi] at hd
        cases hd
        exact ⟨rfl, rfl, rfl, rfl, rfl⟩
      · exfalso
        simp only [dispatch, step, hi] at hd
        refine solo_stuck _ (by simp [Sys.setClient]) (fun s2 h2 => ?_) s1 hd
        simp [step, Sys.setClient, dispatch_step, hf, mutex_lock, hl] at h2
    · exfalso
      simp only [dispatch, step, hi] at hd
      refine solo_stuck _ (by simp [Sys.setClient]) (fun s2 h2 => ?_) s1 hd
      simp [step, Sys.setClient, dispatch_step, hf] at h2
  · exfalso
    simp only [dispatch, step] at hd
    cases hd

/-- Witness of C4: a `dispatch` on the pool that `destroy_threadpool` is draining. -/
theorem dispatch_rejected_while_draining_witness :
    draining.pool.dont_accept = DONT_ACCEPT ∧ queue draining = [100] ∧
      ((∀ s1, dispatch draining 0 (some 7) (some 2) (some 101) = Res.next s1 →
        queue s1 = queue draining ∧ jobs s1 = jobs draining ∧
          s1.pool.qsize = draining.pool.qsize ∧ s1.heap = draining.heap ∧
          s1.enq = draining.enq) ∧
      (draining.freed = false → draining.pool.qlock = none →
        draining.client 0 = cstate.idle →
        ∃ s1, dispatch draining 0 (some 7) (some 2) (some 101) = Res.next s1) ∧
      (∀ l s1, step draining l = Res.next s1 →
        s1.pool.dont_accept = DONT_ACCEPT ∧ s1.enq = draining.enq ∧
          s1.pool.qsize ≤ draining.pool.qsize)) :=
  ⟨rfl, rfl, dispatch_rejected_while_draining draining 0 (some 7) (some 2) (some 101) rfl⟩

/-- C5 fails on the code: `dispatch` returns with the mutex still held on both
rejection paths.  On the reachable state `draining` (first test, line 108) the
call returns with `qlock` owned by the caller, after which neither the worker nor
the waiting `destroy_threadpool` can move; on `draining_late` the call has just
returned from the second test (line 150), again owning `qlock`. -/
theorem dispatch_returns_holding_lock :
    Reachable 200 1 draining ∧ draining.pool.qlock = none ∧
      (∃ s1, dispatch draining 0 (some 7) (some 2) (some 101) = Res.next s1 ∧
        s1.client 0 = cstate.idle ∧ s1.pool.qlock = some (Thread.client 0) ∧
        step s1 (Label.worker 0) = Res.blocked ∧
        step s1 (Label.client 1 none) = Res.blocked) ∧
      Reachable 200 1 draining_late ∧ draining_late.client 0 = cstate.idle ∧
        draining_late.pool.qlock = some (Thread.client 0) :=
  ⟨draining_reachable, rfl,
    ⟨_, dispatch_reject_run draining 0 (some 7) (some 2) (some 101) rfl rfl rfl rfl, rfl, rfl,
      rfl, rfl⟩,
    draining_late_reachable, rfl, rfl⟩

/-- C6 fails on the code: after `dispatch(pool, NULL, arg)` with a non-null `arg`
has run `destroy_threadpool` to its return (the pool is freed, no job was
linked), `dispatch` goes on to line 131: it allocates a node and its next move,
`pthread_mutex_lock` of line 144, uses the freed pool. -/
theorem dispatch_null_routine_uses_freed_pool :
    ∃ s1, run (booted 200 1) null_routine_schedule = Res.next s1 ∧
      destroy_returned s1 ∧ s1.enq = [] ∧
      s1.client 0 = cstate.dispatch ppc.lock2 none (some 1) (some 100) ∧
      s1.heap 100 = some { routine := none, arg := some 1, next := none } ∧
      step s1 (Label.client 0 none) = Res.fault :=
  ⟨_, run_after _ _ rfl, rfl, rfl, rfl, rfl, rfl⟩

/-- C7, amended: in every reachable state where the pool is Accepting, the mutex
is free and client `c` is outside any call, `dispatch(pool, r, NULL)` with a
non-null routine returns and leaves the whole state as it was (queue, `qsize`, both
flags, mutex); a following `dispatch(pool, r, a)` with a non-null argument, for
which `calloc` (line 131) returns the fresh node `p`, links its job last in the
queue; and when `calloc` answers NULL instead, that following call returns at
line 135 with the state as it was, no job linked. -/
theorem dispatch_null_argument_rejected (MAXT_IN_POOL n : Int) (s : Sys)
    (h : Reachable MAXT_IN_POOL n s) (c : Tid) (r : Nat) (alloc : Option Addr)
    (hacc : s.pool.dont_accept = ACCEPT ∧ s.pool.shutdown = ACCEPT)
    (hlock : s.pool.qlock = none) (hidle : s.client c = cstate.idle) :
    ∃ s1, dispatch s c (some r) none alloc = Res.next s1 ∧ s1 = s ∧
      queue s1 = queue s ∧ s1.pool.qsize = s.pool.qsize ∧
      s1.pool.dont_accept = ACCEPT ∧ s1.pool.shutdown = ACCEPT ∧
      (∀ (a : Nat) (p : Addr), s1.heap p = none →
        ∃ s2, dispatch s1 c (some r) (some a) (some p) = Res.next s2 ∧
          queue s2 = queue s1 ++ [p] ∧ jobs s2 = jobs s1 ++ [(some r, some a)] ∧
          s2.pool.qsize = s1.pool.qsize + 1) ∧
      ∀ a : Nat, dispatch s1 c (some r) (some a) none = Res.next s1 := by
  obtain ⟨q, h2⟩ := h.inv.two
  have hfreed := h.inv.one.not_freed hacc.2
  have hda : s.pool.dont_accept ≠ DONT_ACCEPT := by rw [hacc.1]; decide
  refine ⟨s, dispatch_null_arg_run s c r alloc hfreed hda hlock hidle, rfl, rfl, rfl, hacc.1,
    hacc.2, fun a p hp => ?_, fun a => dispatch_calloc_fail_run s c r a hfreed hda hlock hidle⟩
  obtain ⟨s2, hd, hinv, -, f1, -, -, -, -, -, -, f8, f9, -, -, -⟩ :=
    dispatch_accept h2 c r a p hfreed hda hlock hidle hp
  refine ⟨s2, hd, by rw [hinv.queue_eq, h2.queue_eq], ?_, f1⟩
  have e1 := hinv.jobs_eq
  rw [f8, f9, h2.jobs_eq, List.append_assoc] at e1
  exact (List.append_cancel_left e1).symm

/-- Witness of C7: a null argument, then a valid one, on a pool of two workers
with one job queued. -/
theorem dispatch_null_argument_rejected_witness :
    Reachable 200 2 one_queued ∧
      (one_queued.pool.dont_accept = ACCEPT ∧ one_queued.pool.shutdown = ACCEPT) ∧
      one_queued.pool.qlock = none ∧ one_queued.client 0 = cstate.idle ∧
      ∃ s1, dispatch one_queued 0 (some 7) none (some 101) = Res.next s1 ∧ s1 = one_queued ∧
        queue s1 = queue one_queued ∧ s1.pool.qsize = one_queued.pool.qsize ∧
        s1.pool.dont_accept = ACCEPT ∧ s1.pool.shutdown = ACCEPT ∧
        (∀ (a : Nat) (p : Addr), s1.heap p = none →
          ∃ s2, dispatch s1 0 (some 7) (some a) (some p) = Res.next s2 ∧
            queue s2 = queue s1 ++ [p] ∧ jobs s2 = jobs s1 ++ [(some 7, some a)] ∧
            s2.pool.qsize = s1.pool.qsize + 1) ∧
        ∀ a : Nat, dispatch s1 0 (some 7) (some a) none = Res.next s1 :=
  ⟨one_queued_reachable, ⟨rfl, rfl⟩, rfl, rfl,
    dispatch_null_argument_rejected 200 2 one_queued one_queued_reachable 0 7 (some 101)
      ⟨rfl, rfl⟩ rfl rfl⟩

/-- C7 as stated fails on the code: on the reachable Accepting pool `one_queued`
the call `dispatch(pool, 7, NULL)` is rejected and leaves the state as it was, but
the following `dispatch(pool, 7, 2)` with the same routine and a non-null
argument, for which `calloc` at line 131 answers NULL, returns at line 135 and
enqueues nothing: the job (7, 2) is not in the queue and `qsize` is still 1. -/
theorem dispatch_retry_calloc_failure_enqueues_nothing :
    Reachable 200 2 one_queued ∧
      (one_queued.pool.dont_accept = ACCEPT ∧ one_queued.pool.shutdown = ACCEPT) ∧
      dispatch one_queued 0 (some 7) none none = Res.next one_queued ∧
      dispatch one_queued 0 (some 7) (some 2) none = Res.next one_queued ∧
      (some 7, some 2) ∉ jobs one_queued ∧ (some 7, some 2) ∉ one_queued.enq ∧
      ¬ ∃ s1 s2, dispatch one_queued 0 (some 7) none none = Res.next s1 ∧
        dispatch s1 0 (some 7) (some 2) none = Res.next s2 ∧
        (some 7, some 2) ∈ jobs s2 := by
  have hrun0 := dispatch_null_arg_run one_queued 0 7 none rfl (by decide) rfl rfl
  have hrun := dispatch_calloc_fail_run one_queued 0 7 2 rfl (by decide) rfl rfl
  have hnot : (some 7, some 2) ∉ jobs one_queued := by
    rw [show jobs one_queued = [(some 7, some 1)] from rfl]
    decide
  refine ⟨one_queued_reachable, ⟨rfl, rfl⟩, hrun0, hrun, hnot, ?_, ?_⟩
  · rw [show one_queued.enq = [(some 7, some 1)] from rfl]
    decide
  · rintro ⟨s1, s2, h1, h2, hm⟩
    rw [hrun0] at h1
    cases h1
    rw [hrun] at h2
    cases h2
    exact hnot hm

/-- C8: for every requested size below 1 or above `MAXT_IN_POOL`,
`create_threadpool` returns NULL, has started no worker, and the only thing it
has done is print the message: no allocation, no initialisation, no thread start. -/
theorem create_threadpool_rejects_bad_size (MAXT_IN_POOL : Int) (env : create_env) (n : Int)
    (h : n < 1 ∨ n > MAXT_IN_POOL) :
    (create_threadpool MAXT_IN_POOL env n).ret = none ∧
      (create_threadpool MAXT_IN_POOL env n).started = [] ∧
      (create_threadpool MAXT_IN_POOL env n).trace = [sys_event.print_illegal] := by
  have hc : n > MAXT_IN_POOL ∨ n < 1 := h.symm
  simp [create_threadpool, hc]

/-- Witness of C8: sizes 0 and `MAXT_IN_POOL + 1` for a limit of 200. -/
theorem create_threadpool_rejects_bad_size_witness :
    ((0 : Int) < 1 ∨ (0 : Int) > 200) ∧ ((201 : Int) < 1 ∨ (201 : Int) > 200) ∧
      ((create_threadpool 200 env_ok 0).ret = none ∧
        (create_threadpool 200 env_ok 0).started = [] ∧
        (create_threadpool 200 env_ok 0).trace = [sys_event.print_illegal]) ∧
      ((create_threadpool 200 env_ok 201).ret = none ∧
        (create_threadpool 200 env_ok 201).started = [] ∧
        (create_threadpool 200 env_ok 201).trace = [sys_event.print_illegal]) :=
  ⟨by decide, by decide,
    create_threadpool_rejects_bad_size 200 env_ok 0 (by decide),
    create_threadpool_rejects_bad_size 200 env_ok 201 (by decide)⟩

/-- C9: for every size `n` with `1 ≤ n ≤ MAXT_IN_POOL`, when no system call
fails, `create_threadpool` returns a pool with `num_threads = n`, an empty queue
(`qhead` and `qtail` NULL, `qsize` 0), both flags clear and the mutex free; it has
made exactly the `n` calls `pthread_create` for workers `0 .. n-1`, all started
and none joined, and in the system that starts from the returned pool each of
them stands at the top of `do_work` on that pool. -/
theorem create_threadpool_starts_n_workers (MAXT_IN_POOL : Int) (env : create_env) (n : Int)
    (hn : 1 ≤ n ∧ n ≤ MAXT_IN_POOL) (henv : env.ok) :
    ∃ tp, (create_threadpool MAXT_IN_POOL env n).ret = some tp ∧
      tp.num_threads = n ∧ tp.qhead = none ∧ tp.qtail = none ∧ tp.qsize = 0 ∧
      tp.dont_accept = ACCEPT ∧ tp.shutdown = ACCEPT ∧ tp.qlock = none ∧
      tp.threads = List.range n.toNat ∧
      (create_threadpool MAXT_IN_POOL env n).started = List.range n.toNat ∧
      ((create_threadpool MAXT_IN_POOL env n).started.length : Int) = n ∧
      (create_threadpool MAXT_IN_POOL env n).trace.filter
          (fun e => e matches sys_event.pthread_create _ _) =
        (List.range n.toNat).map (fun i => sys_event.pthread_create i 0) ∧
      ∀ t, (boot tp (create_threadpool MAXT_IN_POOL env n).started).worker t =
        if t < n.toNat then wpc.lock else wpc.done := by
  have hret := create_threadpool_success MAXT_IN_POOL env n hn henv
  obtain ⟨-, -, -, hst, htr⟩ := create_threadpool_ok hret
  refine ⟨fresh_pool n, hret, rfl, rfl, rfl, rfl, rfl, rfl, rfl, rfl, hst, ?_, ?_, ?_⟩
  · rw [hst, List.length_range]
    omega
  · rw [htr]
    simp [List.filter_map, Function.comp_def]
  · intro t
    simp [boot, hst]

/-- Witness of C9: a pool of 10 workers for a limit of 200. -/
theorem create_threadpool_starts_n_workers_witness :
    ((1 : Int) ≤ 10 ∧ (10 : Int) ≤ 200) ∧ env_ok.ok ∧
      ∃ tp, (create_threadpool 200 env_ok 10).ret = some tp ∧
        tp.num_threads = 10 ∧ tp.qhead = none ∧ tp.qtail = none ∧ tp.qsize = 0 ∧
        tp.dont_accept = ACCEPT ∧ tp.shutdown = ACCEPT ∧ tp.qlock = none ∧
        tp.threads = List.range (10 : Int).toNat ∧
        (create_threadpool 200 env_ok 10).started = List.range (10 : Int).toNat ∧
        ((create_threadpool 200 env_ok 10).started.length : Int) = 10 ∧
        (create_threadpool 200 env_ok 10).trace.filter
            (fun e => e matches sys_event.pthread_create _ _) =
          (List.range (10 : Int).toNat).map (fun i => sys_event.pthread_create i 0) ∧
        ∀ t, (boot tp (create_threadpool 200 env_ok 10).started).worker t =
          if t < (10 : Int).toNat then wpc.lock else wpc.done :=
  ⟨by decide, env_ok_ok,
    create_threadpool_starts_n_workers 200 env_ok 10 (by decide) env_ok_ok⟩

/-- C10 fails on the code: when the start of the second of two workers fails,
`create_threadpool` returns NULL after destroying the mutex and the conditions
and freeing the pool, without any join of worker 0, which it had started: the
worker is still running `do_work` on the freed pool, and its next move uses it. -/
theorem create_threadpool_leaves_started_worker :
    (create_threadpool 200 env_second_start_fails 2).ret = none ∧
      (create_threadpool 200 env_second_start_fails 2).started = [0] ∧
      (create_threadpool 200 env_second_start_fails 2).trace =
        [sys_event.calloc_pool true, sys_event.calloc_threads true, sys_event.mutex_init 0,
          sys_event.cond_init_q_empty 0, sys_event.cond_init_q_not_empty 0,
          sys_event.pthread_create 0 0, sys_event.pthread_create 1 11,
          sys_event.mutex_destroy, sys_event.cond_destroy_q_empty,
          sys_event.cond_destroy_q_not_empty, sys_event.free_threads, sys_event.free_pool] ∧
      pool_released (create_threadpool 200 env_second_start_fails 2).trace = true ∧
      (boot (fresh_pool 2) (create_threadpool 200 env_second_start_fails 2).started).worker 0
        = wpc.lock ∧
      do_work_step
        { boot (fresh_pool 2) (create_threadpool 200 env_second_start_fails 2).started with
          freed := true } 0 = Res.fault :=
  ⟨rfl, rfl, rfl, rfl, rfl, rfl⟩

theorem Inv3.keep3 {s : Sys} (h : Inv3 s) (s1 : Sys)
    (hd : s1.pool.dont_accept = s.pool.dont_accept)
    (hsh : s1.pool.shutdown = s.pool.shutdown) (hl : s1.pool.qlock = s.pool.qlock)
    (hf : s1.freed = s.freed) (hw : s1.worker = s.worker) (hc : s1.client = s.client)
    (he : s1.enq = s.enq) : Inv3 s1 := by
  constructor
  · rw [hd]; exact h.da01
  · rw [hsh]; exact h.sh01
  · rw [hl, hw]; exact h.wown
  · rw [hw]; exact h.temp_some
  · rw [he]; exact h.enq_ok
  · rw [hc, hf]; exact h.null_r
  · rw [hc]; exact h.arg_ok

theorem Inv3.moveWorker3 {s : Sys} (h : Inv3 s) (t : Tid) (pc : wpc)
    (hl : wlocked pc = true ∨ s.pool.qlock ≠ some (Thread.worker t))
    (ht : ∀ temp, wholds pc temp → temp ≠ none) : Inv3 (s.setWorker t pc) := by
  constructor
  · exact h.da01
  · exact h.sh01
  · intro u hu
    by_cases hut : u = t
    · subst hut
      rcases hl with hl | hl
      · simpa [Sys.setWorker] using hl
      · exact absurd hu hl
    · simpa [Sys.setWorker, Function.update_noteq hut] using h.wown u hu
  · intro u temp hu
    by_cases hut : u = t
    · subst hut
      simp only [Sys.setWorker, Function.update_same] at hu
      exact ht temp hu
    · simp only [Sys.setWorker, Function.update_noteq hut] at hu
      exact h.temp_some u temp hu
  · exact h.enq_ok
  · exact h.null_r
  · exact h.arg_ok

theorem Inv3.moveClient3 {s : Sys} (h : Inv3 s) (c : Tid) (cs : cstate)
    (h1 : ∀ a, inside cs [ppc.arg, ppc.lock2, ppc.crit2] none a → s.freed = true)
    (h2 : ∀ r, ¬ inside cs [ppc.lock2, ppc.crit2] r none) : Inv3 (s.setClient c cs) := by
  constructor
  · exact h.da01
  · exact h.sh01
  · exact h.wown
  · exact h.temp_some
  · exact h.enq_ok
  · intro u a hu
    by_cases hut : u = c
    · subst hut
      simp only [Sys.setClient, Function.update_same] at hu
      exact h1 a hu
    · simp only [Sys.setClient, Function.update_noteq hut] at hu
      exact h.null_r u a hu
  · intro u r hu
    by_cases hut : u = c
    · subst hut
      simp only [Sys.setClient, Function.update_same] at hu
      exact h2 r hu
    · simp only [Sys.setClient, Function.update_noteq hut] at hu
      exact h.arg_ok u r hu

theorem Inv3.setLock {s : Sys} (h : Inv3 s) (o : Option Thread)
    (ho : ∀ t, o = some (Thread.worker t) → wlocked (s.worker t) = true) :
    Inv3 { s with pool := { s.pool with qlock := o } } := by
  constructor
  · exact h.da01
  · exact h.sh01
  · exact ho
  · exact h.temp_some
  · exact h.enq_ok
  · exact h.null_r
  · exact h.arg_ok

theorem Inv3.flag3 {s : Sys} (h : Inv3 s) :
    Inv3 { s with pool := { s.pool with dont_accept := DONT_ACCEPT } } :=
  ⟨Or.inr rfl, h.sh01, h.wown, h.temp_some, h.enq_ok, h.null_r, h.arg_ok⟩

theorem Inv3.shutdown3 {s : Sys} (h : Inv3 s) :
    Inv3 { s with pool := { s.pool with shutdown := DONT_ACCEPT } } :=
  ⟨h.da01, Or.inr rfl, h.wown, h.temp_some, h.enq_ok, h.null_r, h.arg_ok⟩

theorem Inv3.freed3 {s : Sys} (h : Inv3 s) : Inv3 { s with freed := true } :=
  ⟨h.da01, h.sh01, h.wown, h.temp_some, h.enq_ok, fun _ _ _ => rfl, h.arg_ok⟩

theorem Inv3.link {s : Sys} (h : Inv3 s) (s1 : Sys) (r a : Option Nat)
    (hd : s1.pool.dont_accept = s.pool.dont_accept)
    (hsh : s1.pool.shutdown = s.pool.shutdown) (hl : s1.pool.qlock = s.pool.qlock)
    (hf : s1.freed = s.freed) (hw : s1.worker = s.worker) (hc : s1.client = s.client)
    (he : s1.enq = s.enq ++ [(r, a)]) (hr : r ≠ none) (ha : a ≠ none) : Inv3 s1 := by
  constructor
  · rw [hd]; exact h.da01
  · rw [hsh]; exact h.sh01
  · rw [hl, hw]; exact h.wown
  · rw [hw]; exact h.temp_some
  · rw [he]
    intro j hj
    rcases List.mem_append.mp hj with hj | hj
    · exact h.enq_ok j hj
    · rw [List.mem_singleton] at hj
      subst hj
      exact ⟨hr, ha⟩
  · rw [hc, hf]; exact h.null_r
  · rw [hc]; exact h.arg_ok

@[simp] theorem inside_dispatch (pc : ppc) (r a : Option Nat) (nw : Option Addr)
    (pcs : List ppc) (r1 a1 : Option Nat) :
    inside (cstate.dispatch pc r a nw) pcs r1 a1 ↔ pc ∈ pcs ∧ r = r1 ∧ a = a1 := by
  unfold inside
  constructor
  · rintro ⟨pc1, nw1, he, hm⟩
    cases he
    exact ⟨hm, rfl, rfl⟩
  · rintro ⟨hm, rfl, rfl⟩
    exact ⟨pc, nw, rfl, hm⟩

@[simp] theorem inside_idle (pcs : List ppc) (r a : Option Nat) :
    inside cstate.idle pcs r a ↔ False := by
  unfold inside
  constructor
  · rintro ⟨pc1, nw1, he, -⟩
    cases he
  · exact False.elim

@[simp] theorem inside_destroy (pc : dpc) (caller : Option Job) (pcs : List ppc)
    (r a : Option Nat) : inside (cstate.destroy pc caller) pcs r a ↔ False := by
  unfold inside
  constructor
  · rintro ⟨pc1, nw1, he, -⟩
    cases he
  · exact False.elim

theorem Inv3.worker3 {N : Nat} {s s1 : Sys} {q : List Addr} {t : Tid} (h1 : Inv1 N s)
    (h2 : Inv2 s q) (h : Inv3 s) (hs : do_work_step s t = Res.next s1) : Inv3 s1 := by
  have hnl : wlocked (s.worker t) = false → s.pool.qlock ≠ some (Thread.worker t) := by
    intro hw hq
    rw [h.wown t hq] at hw
    cases hw
  unfold do_work_step at hs
  cases hpc : s.worker t <;> simp only [hpc] at hs
  case lock =>
    split at hs
    · cases hs
    · split at hs
      · cases hs
      · rename_i tp hl
        cases hs
        obtain ⟨-, rfl⟩ := mutex_lock_some hl
        have ha := h.moveWorker3 t wpc.check (Or.inl rfl) (by simp [wholds])
        exact ha.setLock (some (Thread.worker t))
          (fun u hu => by cases hu; simp [Sys.setWorker, wlocked])
  case check =>
    split at hs
    · cases hs
    · split at hs <;> cases hs <;>
        exact h.moveWorker3 t _ (Or.inl rfl) (by simp [wholds])
  case loop =>
    split at hs
    · cases hs
    · split at hs <;> cases hs <;>
        exact h.moveWorker3 t _ (Or.inl rfl) (by simp [wholds])
  case wait =>
    split at hs
    · cases hs
    · split at hs
      · cases hs
      · rename_i tp hl
        cases hs
        obtain ⟨-, rfl⟩ := mutex_unlock_some hl
        exact (h.setLock none (by simp)).moveWorker3 t _ (Or.inr (by simp)) (by simp [wholds])
  case blocked =>
    split at hs
    · cases hs
    · split at hs
      · cases hs
      · rename_i tp hl
        cases hs
        obtain ⟨-, rfl⟩ := mutex_lock_some hl
        have ha := h.moveWorker3 t wpc.woken (Or.inl rfl) (by simp [wholds])
        exact ha.setLock (some (Thread.worker t))
          (fun u hu => by cases hu; simp [Sys.setWorker, wlocked])
  case woken =>
    split at hs
    · cases hs
    · split at hs <;> cases hs <;>
        exact h.moveWorker3 t _ (Or.inl rfl) (by simp [wholds])
  case exit =>
    split at hs
    · cases hs
    · split at hs
      · cases hs
      · rename_i tp hl
        cases hs
        obtain ⟨-, rfl⟩ := mutex_unlock_some hl
        exact (h.setLock none (by simp)).moveWorker3 t _ (Or.inr (by simp)) (by simp [wholds])
  case dequeue =>
    split at hs
    · cases hs
    · split at hs
      · cases hs
      · rename_i tp temp hd
        cases hs
        obtain ⟨-, -, f3, f4, f5, -, -, -⟩ := do_work_dequeue_frame hd
        obtain ⟨a, q1, w, -, hta, -, -⟩ := h2.dequeue t (h1.wdeq t hpc) hd
          ({ s with pool := tp, deq := s.deq ++ (job_at s.heap temp).toList }.setWorker t
            (wpc.unlock temp)) rfl rfl rfl rfl rfl rfl
        have ha := h.keep3 { s with pool := tp, deq := s.deq ++ (job_at s.heap temp).toList }
          f3 f4 f5 rfl rfl rfl rfl
        refine ha.moveWorker3 t _ (Or.inl rfl) (fun temp1 hw => ?_)
        simp only [wholds, wpc.unlock.injEq, reduceCtorEq, or_false] at hw
        rw [← hw, hta]
        simp
  case unlock temp =>
    split at hs
    · cases hs
    · split at hs
      · cases hs
      · rename_i tp hl
        cases hs
        obtain ⟨-, rfl⟩ := mutex_unlock_some hl
        refine (h.setLock none (by simp)).moveWorker3 t _ (Or.inr (by simp)) (fun temp1 hw => ?_)
        simp only [wholds, wpc.run.injEq, reduceCtorEq, or_false, false_or] at hw
        exact hw ▸ h.temp_some t temp (Or.inl hpc)
  case run temp =>
    split at hs
    · rename_i r a hj
      cases hs
      have ha := h.keep3 { s with ran := s.ran ++ [(some r, a)] } rfl rfl rfl rfl rfl rfl rfl
      refine ha.moveWorker3 t _ (Or.inr (hnl (by simp [hpc, wlocked]))) (fun temp1 hw => ?_)
      simp only [wholds, wpc.free.injEq, reduceCtorEq, false_or] at hw
      exact hw ▸ h.temp_some t temp (Or.inr (Or.inl hpc))
    · cases hs
  case free temp =>
    split at hs
    · cases hs
      exact h.moveWorker3 t _ (Or.inr (hnl (by simp [hpc, wlocked]))) (by simp [wholds])
    · rename_i p
      split at hs
      · cases hs
      · cases hs
        have ha := h.keep3 { s with heap := Function.update s.heap p none } rfl rfl rfl rfl rfl
          rfl rfl
        exact ha.moveWorker3 t _ (Or.inr (hnl (by simp [hpc, wlocked]))) (by simp [wholds])
  case done => cases hs

theorem Inv3.destroy3 {s s1 : Sys} {c : Tid} {pc : dpc} {caller : Option Job} (h : Inv3 s)
    (hs : destroy_threadpool_step s c pc caller = Res.next s1) : Inv3 s1 := by
  unfold destroy_threadpool_step at hs
  split at hs
  · cases hs
  cases pc <;> simp only at hs
  case lock =>
    split at hs
    · cases hs
    · rename_i tp hl
      cases hs
      obtain ⟨-, rfl⟩ := mutex_lock_some hl
      exact (h.setLock (some (Thread.client c)) (by simp)).moveClient3 c _ (by simp) (by simp)
  case flag =>
    cases hs
    exact h.flag3.moveClient3 c _ (by simp) (by simp)
  case loop =>
    split at hs <;> cases hs <;> exact h.moveClient3 c _ (by simp) (by simp)
  case wait =>
    split at hs
    · cases hs
    · rename_i tp hl
      cases hs
      obtain ⟨-, rfl⟩ := mutex_unlock_some hl
      exact (h.setLock none (by simp)).moveClient3 c _ (by simp) (by simp)
  case blocked =>
    split at hs
    · cases hs
    · rename_i tp hl
      cases hs
      obtain ⟨-, rfl⟩ := mutex_lock_some hl
      exact (h.setLock (some (Thread.client c)) (by simp)).moveClient3 c _ (by simp) (by simp)
  case shutdown =>
    cases hs
    exact h.shutdown3.moveClient3 c _ (by simp) (by simp)
  case broadcast =>
    cases hs
    have ha := h.keep3
      { s with pool := { s.pool with q_not_empty := cond_broadcast s.pool.q_not_empty } }
      rfl rfl rfl rfl rfl rfl rfl
    exact ha.moveClient3 c _ (by simp) (by simp)
  case unlock =>
    split at hs
    · cases hs
    · rename_i tp hl
      cases hs
      obtain ⟨-, rfl⟩ := mutex_unlock_some hl
      exact (h.setLock none (by simp)).moveClient3 c _ (by simp) (by simp)
  case join i =>
    split at hs
    · split at hs
      · cases hs
      · split at hs
        · cases hs
          exact h.moveClient3 c _ (by simp) (by simp)
        · cases hs
    · cases hs
      exact h.moveClient3 c _ (by simp) (by simp)
  case cleanup =>
    split at hs <;> cases hs
    · exact h.freed3.moveClient3 c _ (by simp) (by simp)
    · exact h.freed3.moveClient3 c _ (by simp) (by simp)

theorem Inv3.dispatch3 {s s1 : Sys} {c : Tid} {pc : ppc} {r a : Option Nat}
    {nw alloc : Option Addr} (h : Inv3 s) (hpc : s.client c = cstate.dispatch pc r a nw)
    (hs : dispatch_step s c pc r a nw alloc = Res.next s1) : Inv3 s1 := by
  unfold dispatch_step at hs
  cases pc <;> simp only at hs
  case lock1 =>
    split at hs
    · cases hs
    · split at hs
      · cases hs
      · rename_i tp hl
        cases hs
        obtain ⟨-, rfl⟩ := mutex_lock_some hl
        exact (h.setLock (some (Thread.client c)) (by simp)).moveClient3 c _ (by simp) (by simp)
  case check1 =>
    split at hs
    · cases hs
    · split at hs <;> cases hs <;> exact h.moveClient3 c _ (by simp) (by simp)
  case unlock1 =>
    split at hs
    · cases hs
    · split at hs
      · cases hs
      · rename_i tp hl
        cases hs
        obtain ⟨-, rfl⟩ := mutex_unlock_some hl
        exact (h.setLock none (by simp)).moveClient3 c _ (by simp) (by simp)
  case routine =>
    cases r with
    | none =>
      cases hs
      exact h.moveClient3 c _ (by simp) (by simp)
    | some rv =>
      cases hs
      exact h.moveClient3 c _ (by simp) (by simp)
  case arg =>
    cases a with
    | none =>
      cases hs
      exact h.moveClient3 c _ (by simp) (by simp)
    | some av =>
      cases alloc with
      | none =>
        cases hs
        exact h.moveClient3 c _ (by simp) (by simp)
      | some p =>
        simp only at hs
        split at hs
        · cases hs
        · cases hs
          have ha := h.keep3 { s with heap := Function.update s.heap p (some { routine := r, arg := some av, next := none }) } rfl rfl rfl rfl rfl rfl rfl
          refine ha.moveClient3 c _ (fun a1 hi => ?_) (by simp)
          simp only [inside_dispatch] at hi
          exact h.null_r c (some av) (by rw [hpc]; simp [hi.2.1])
  case lock2 =>
    split at hs
    · cases hs
    · split at hs
      · cases hs
      · rename_i tp hl
        cases hs
        obtain ⟨-, rfl⟩ := mutex_lock_some hl
        refine (h.setLock (some (Thread.client c)) (by simp)).moveClient3 c _
          (fun a1 hi => ?_) (fun r1 hi => ?_)
        · simp only [inside_dispatch] at hi
          exact h.null_r c a (by rw [hpc]; simp [hi.2.1])
        · simp only [inside_dispatch] at hi
          exact h.arg_ok c r (by rw [hpc]; simp [hi.2.2])
  case crit2 =>
    split at hs
    · cases hs
    · rename_i hf
      split at hs
      · split at hs
        · cases hs
          exact h.moveClient3 c _ (by simp) (by simp)
        · rename_i p
          split at hs
          · cases hs
          · cases hs
            have ha := h.keep3 { s with heap := Function.update s.heap p none }
              rfl rfl rfl rfl rfl rfl rfl
            exact ha.moveClient3 c _ (by simp) (by simp)
      · split at hs
        · cases hs
        · rename_i tp heap1 he
          cases hs
          obtain ⟨-, -, f3, f4, f5, -, -, -, -⟩ := dispatch_enqueue_frame he
          have hr : r ≠ none := by
            rintro rfl
            exact hf (h.null_r c a (by rw [hpc]; simp))
          have hav : a ≠ none := by
            rintro rfl
            exact h.arg_ok c r (by rw [hpc]; simp)
          have ha := h.link { s with pool := tp, heap := heap1, enq := s.enq ++ [(r, a)] } r a
            f3 f4 f5 rfl rfl rfl rfl hr hav
          exact ha.moveClient3 c _ (by simp) (by simp)
  case signal =>
    split at hs
    · cases hs
    · cases hs
      have ha := h.keep3
        { s with pool := { s.pool with q_not_empty := cond_signal s.pool.q_not_empty } }
        rfl rfl rfl rfl rfl rfl rfl
      exact ha.moveClient3 c _ (by simp) (by simp)
  case unlock2 =>
    split at hs
    · cases hs
    · split at hs
      · cases hs
      · rename_i tp hl
        cases hs
        obtain ⟨-, rfl⟩ := mutex_unlock_some hl
        exact (h.setLock none (by simp)).moveClient3 c _ (by simp) (by simp)

theorem Inv3.step3 {N : Nat} {s s1 : Sys} {q : List Addr} {l : Label} (h1 : Inv1 N s)
    (h2 : Inv2 s q) (h : Inv3 s) (hs : step s l = Res.next s1) : Inv3 s1 := by
  cases l with
  | worker t => exact h.worker3 h1 h2 hs
  | call_dispatch c r a =>
    simp only [step] at hs
    split at hs
    · cases hs
      exact h.moveClient3 c _ (by simp) (by simp)
    · cases hs
  | call_destroy c =>
    simp only [step] at hs
    split at hs
    · cases hs
      exact h.moveClient3 c _ (by simp) (by simp)
    · cases hs
  | client c alloc =>
    simp only [step] at hs
    split at hs
    · cases hs
    · rename_i hpc
      exact h.dispatch3 hpc hs
    · exact h.destroy3 hs

theorem boot_inv3 (tp : threadpool) (started : List Tid) (hd : tp.dont_accept = 0)
    (hsh : tp.shutdown = 0) (hl : tp.qlock = none) : Inv3 (boot tp started) := by
  constructor
  · exact Or.inl hd
  · exact Or.inl hsh
  · intro t ht
    simp [boot, hl] at ht
  · intro t temp ht
    simp only [boot, wholds] at ht
    split at ht <;> simp at ht
  · intro j hj
    simp [boot] at hj
  · intro c a hi
    simp [boot] at hi
  · intro c r hi
    simp [boot] at hi

theorem reachable_inv3 {MAXT_IN_POOL n : Int} {s : Sys} (h : Reachable MAXT_IN_POOL n s) :
    Inv3 s := by
  induction h with
  | init env tp h =>
    obtain ⟨-, -, rfl, -, -⟩ := create_threadpool_ok h
    exact boot_inv3 _ _ rfl rfl rfl
  | step s l s1 hr hs ih =>
    obtain ⟨q, h2⟩ := hr.inv.two
    exact ih.step3 hr.inv.one h2 hs

theorem mutex_lock_shutdown {tp tp1 : threadpool} {me : Thread}
    (h : mutex_lock tp me = some tp1) :
    tp1.dont_accept = tp.dont_accept ∧ tp1.shutdown = tp.shutdown := by
  obtain ⟨-, rfl⟩ := mutex_lock_some h
  exact ⟨rfl, rfl⟩

theorem mutex_unlock_shutdown {tp tp1 : threadpool} {me : Thread}
    (h : mutex_unlock tp me = some tp1) :
    tp1.dont_accept = tp.dont_accept ∧ tp1.shutdown = tp.shutdown := by
  obtain ⟨-, rfl⟩ := mutex_unlock_some h
  exact ⟨rfl, rfl⟩

/-- The only moves that write a lifecycle flag are line 231 and line 236 of
`destroy_threadpool`; each stores 1 in its flag and leaves the other one. -/
theorem step_flags {s s1 : Sys} {l : Label} (hs : step s l = Res.next s1) :
    (s1.pool.dont_accept = s.pool.dont_accept ∧ s1.pool.shutdown = s.pool.shutdown) ∨
    ((∃ c caller, s.client c = cstate.destroy dpc.flag caller) ∧
      s1.pool.dont_accept = 1 ∧ s1.pool.shutdown = s.pool.shutdown) ∨
    ((∃ c caller, s.client c = cstate.destroy dpc.shutdown caller) ∧
      s1.pool.dont_accept = s.pool.dont_accept ∧ s1.pool.shutdown = 1) := by
  cases l with
  | worker t =>
    simp only [step, do_work_step] at hs
    cases hpc : s.worker t <;> simp only [hpc] at hs
    case dequeue =>
      split at hs
      · cases hs
      · split at hs
        · cases hs
        · rename_i tp temp hd
          cases hs
          obtain ⟨-, -, f3, f4, -, -, -, -⟩ := do_work_dequeue_frame hd
          exact Or.inl ⟨f3, f4⟩
    all_goals
      repeat' split at hs
      all_goals first
        | (cases hs; done)
        | (cases hs; exact Or.inl ⟨rfl, rfl⟩)
        | (cases hs; rename_i tp hl; exact Or.inl (mutex_lock_shutdown hl))
        | (cases hs; rename_i tp hl; exact Or.inl (mutex_unlock_shutdown hl))
  | call_dispatch c r a =>
    simp only [step] at hs
    split at hs <;> cases hs
    exact Or.inl ⟨rfl, rfl⟩
  | call_destroy c =>
    simp only [step] at hs
    split at hs <;> cases hs
    exact Or.inl ⟨rfl, rfl⟩
  | client c alloc =>
    simp only [step] at hs
    split at hs
    · cases hs
    · rename_i pc r a nw hpc
      unfold dispatch_step at hs
      cases pc <;> simp only at hs
      case crit2 =>
        split at hs
        · cases hs
        · split at hs
          · repeat' split at hs
            all_goals first
              | (cases hs; done)
              | (cases hs; exact Or.inl ⟨rfl, rfl⟩)
          · split at hs
            · cases hs
            · rename_i tp heap1 he
              cases hs
              obtain ⟨-, -, f3, f4, -, -, -, -, -⟩ := dispatch_enqueue_frame he
              exact Or.inl ⟨f3, f4⟩
      all_goals
        repeat' split at hs
        all_goals first
          | (cases hs; done)
          | (cases hs; exact Or.inl ⟨rfl, rfl⟩)
          | (cases hs; rename_i tp hl; exact Or.inl (mutex_lock_shutdown hl))
          | (cases hs; rename_i tp hl; exact Or.inl (mutex_unlock_shutdown hl))
    · rename_i pc caller hpc
      unfold destroy_threadpool_step at hs
      split at hs
      · cases hs
      cases pc <;> simp only at hs
      case flag =>
        cases hs
        exact Or.inr (Or.inl ⟨⟨c, caller, hpc⟩, rfl, rfl⟩)
      case shutdown =>
        cases hs
        exact Or.inr (Or.inr ⟨⟨c, caller, hpc⟩, rfl, rfl⟩)
      all_goals
        repeat' split at hs
        all_goals first
          | (cases hs; done)
          | (cases hs; exact Or.inl ⟨rfl, rfl⟩)
          | (cases hs; rename_i tp hl; exact Or.inl (mutex_lock_shutdown hl))
          | (cases hs; rename_i tp hl; exact Or.inl (mutex_unlock_shutdown hl))

theorem chain_unique {heap : Heap} {q q1 : List Addr} {hd : Option Addr}
    (h : chain heap hd q) (h1 : chain heap hd q1) : q1 = q := by
  induction q generalizing hd q1 with
  | nil =>
    cases q1 with
    | nil => rfl
    | cons b q1 =>
      have e : hd = none := h
      obtain ⟨e1, -⟩ := h1
      rw [e] at e1
      cases e1
  | cons a q ih =>
    obtain ⟨e, w, hw, hc⟩ := h
    cases q1 with
    | nil =>
      have e1 : hd = none := h1
      rw [e] at e1
      cases e1
    | cons b q1 =>
      obtain ⟨e1, w1, hw1, hc1⟩ := h1
      rw [e] at e1
      cases e1
      rw [hw] at hw1
      cases hw1
      rw [ih hc hc1]

theorem wjob_le_inflight {N : Nat} (s : Sys) (t : Tid) (ht : t < N) :
    wjob s.heap (s.worker t) ≤ inflight N s := by
  unfold inflight
  exact Finset.single_le_sum (f := fun t => wjob s.heap (s.worker t)) (fun _ _ => zero_le _)
    (Finset.mem_range.mpr ht)

theorem step_enq {s s1 : Sys} {l : Label} (hs : step s l = Res.next s1) :
    ∃ x, s1.enq = s.enq ++ x := by
  cases l with
  | worker t =>
    simp only [step, do_work_step] at hs
    cases hpc : s.worker t <;> simp only [hpc] at hs
    all_goals
      repeat' split at hs
      all_goals first
        | (cases hs; done)
        | (cases hs; exact ⟨[], (List.append_nil _).symm⟩)
  | call_dispatch c r a =>
    simp only [step] at hs
    split at hs <;> cases hs
    exact ⟨[], (List.append_nil _).symm⟩
  | call_destroy c =>
    simp only [step] at hs
    split at hs <;> cases hs
    exact ⟨[], (List.append_nil _).symm⟩
  | client c alloc =>
    simp only [step] at hs
    split at hs
    · cases hs
    · rename_i pc r a nw hpc
      unfold dispatch_step at hs
      cases pc <;> simp only at hs
      all_goals
        repeat' split at hs
        all_goals first
          | (cases hs; done)
          | (cases hs; exact ⟨[], (List.append_nil _).symm⟩)
          | (cases hs; exact ⟨_, rfl⟩)
    · rename_i pc caller hpc
      unfold destroy_threadpool_step at hs
      split at hs
      · cases hs
      cases pc <;> simp only at hs
      all_goals
        repeat' split at hs
        all_goals first
          | (cases hs; done)
          | (cases hs; exact ⟨[], (List.append_nil _).symm⟩)

theorem run_enq {s s1 : Sys} (ls : List Label) (hr : run s ls = Res.next s1) :
    ∃ x, s1.enq = s.enq ++ x := by
  induction ls generalizing s with
  | nil =>
    simp only [run, Res.next.injEq] at hr
    subst hr
    exact ⟨[], (List.append_nil _).symm⟩
  | cons l ls ih =>
    cases hs : step s l with
    | next s2 =>
      simp only [run, hs] at hr
      obtain ⟨x, hx⟩ := step_enq hs
      obtain ⟨y, hy⟩ := ih hr
      exact ⟨x ++ y, by rw [hy, hx, List.append_assoc]⟩
    | blocked => simp [run, hs] at hr
    | fault => simp [run, hs] at hr

theorem run_flags {s s1 : Sys} (ls : List Label) (hr : run s ls = Res.next s1) :
    (s.pool.dont_accept = s1.pool.dont_accept ∨ s1.pool.dont_accept = 1) ∧
    (s.pool.shutdown = s1.pool.shutdown ∨ s1.pool.shutdown = 1) := by
  induction ls generalizing s with
  | nil =>
    simp only [run, Res.next.injEq] at hr
    subst hr
    exact ⟨Or.inl rfl, Or.inl rfl⟩
  | cons l ls ih =>
    cases hs : step s l with
    | next s2 =>
      simp only [run, hs] at hr
      obtain ⟨i1, i2⟩ := ih hr
      have hf := step_flags hs
      constructor
      · rcases i1 with e | e
        · rcases hf with ⟨e1, -⟩ | ⟨-, e1, -⟩ | ⟨-, e1, -⟩
          · exact Or.inl (e1.symm.trans e)
          · exact Or.inr (e ▸ e1)
          · exact Or.inl (e1.symm.trans e)
        · exact Or.inr e
      · rcases i2 with e | e
        · rcases hf with ⟨-, e1⟩ | ⟨-, -, e1⟩ | ⟨-, -, e1⟩
          · exact Or.inl (e1.symm.trans e)
          · exact Or.inl (e1.symm.trans e)
          · exact Or.inr (e ▸ e1)
        · exact Or.inr e
    | blocked => simp [run, hs] at hr
    | fault => simp [run, hs] at hr

theorem inv2_dequeue_some {s : Sys} {a : Addr} {q : List Addr} (h : Inv2 s (a :: q)) :
    ∃ tp, do_work_dequeue s.pool s.heap = some (tp, some a) := by
  obtain ⟨hhd, w, hw, -⟩ := h.chain
  unfold do_work_dequeue
  simp only [hhd, hw]
  split
  · split
    · exact ⟨_, rfl⟩
    · exact ⟨_, rfl⟩
  · exact ⟨_, rfl⟩

theorem do_work_dequeue_q_empty {tp tp1 : threadpool} {heap : Heap} {temp : Option Addr}
    (h : do_work_dequeue tp heap = some (tp1, temp)) :
    tp1.q_empty =
      if tp.qsize - 1 = 0 ∧ tp.dont_accept ≠ 0 then cond_signal tp.q_empty else tp.q_empty := by
  unfold do_work_dequeue at h
  simp only at h
  split at h
  · rename_i hz
    split at h
    · rename_i hda
      simp only [Option.some.injEq, Prod.mk.injEq] at h
      obtain ⟨rfl, -⟩ := h
      simp [hz, hda]
    · rename_i hda
      simp only [Option.some.injEq, Prod.mk.injEq] at h
      obtain ⟨rfl, -⟩ := h
      simp [hz, hda]
  · rename_i hz
    split at h
    · cases h
    · split at h
      · cases h
      · simp only [Option.some.injEq, Prod.mk.injEq] at h
        obtain ⟨rfl, -⟩ := h
        simp [hz]

theorem Inv2.take {s : Sys} {a : Addr} {q : List Addr} (h : Inv2 s (a :: q)) (t : Tid) :
    ∃ tp, do_work_dequeue s.pool s.heap = some (tp, some a) ∧
      Inv2 ({ s with pool := tp, deq := s.deq ++ (job_at s.heap (some a)).toList }.setWorker t
        (wpc.unlock (some a))) q := by
  obtain ⟨tp, hd⟩ := inv2_dequeue_some h
  have hne : s.pool.qsize ≠ 0 := by
    rw [h.size]
    simp only [List.length_cons]
    omega
  obtain ⟨a1, q1, w, e, -, -, hinv⟩ := h.dequeue t hne hd
    ({ s with pool := tp, deq := s.deq ++ (job_at s.heap (some a)).toList }.setWorker t
      (wpc.unlock (some a))) rfl rfl rfl rfl rfl rfl
  cases e
  exact ⟨tp, hd, hinv⟩

theorem Inv1.live {N : Nat} {s : Sys} (h : Inv1 N s) (t : Tid) (hnd : s.worker t ≠ wpc.done) :
    s.freed = false := by
  by_contra hf
  exact hnd ((h.freed_imp (by simpa using hf)).2 t)

/-- C11: in every reachable state, `shutdown` raised implies that `qsize` is 0, no
job is linked and every accepted job has been dequeued; the move that raises
`shutdown` (line 236) is made in such a state; from a state with pending jobs,
every run that ends with `shutdown` raised has dequeued all of them; and once
`destroy_threadpool` has returned, every worker has returned. -/
theorem shutdown_only_when_queue_empty (MAXT_IN_POOL n : Int) (s : Sys)
    (h : Reachable MAXT_IN_POOL n s) :
    (s.pool.shutdown ≠ 0 →
      s.pool.qsize = 0 ∧ queue s = [] ∧ s.pool.qhead = none ∧ s.deq = s.enq) ∧
    (∀ l s1, step s l = Res.next s1 → s1.pool.shutdown ≠ s.pool.shutdown →
      s.pool.qsize = 0 ∧ queue s = [] ∧ s.deq = s.enq) ∧
    (∀ ls s1, run s ls = Res.next s1 → s1.pool.shutdown ≠ 0 →
      ∃ more, s1.deq = s.deq ++ jobs s ++ more) ∧
    (destroy_returned s → ∀ t, s.worker t = wpc.done) := by
  obtain ⟨q, h2⟩ := h.inv.two
  have hempty : s.pool.qsize = 0 → queue s = [] ∧ s.pool.qhead = none ∧ s.deq = s.enq := by
    intro hz
    have hq : q = [] := by
      have := h2.size
      rw [hz] at this
      exact List.length_eq_zero.mp (by exact_mod_cast this.symm)
    subst hq
    refine ⟨h2.queue_eq, h2.chain, ?_⟩
    have := h2.enq_eq
    simpa using this.symm
  refine ⟨fun hsh => ?_, fun l s1 hs hne => ?_, fun ls s1 hr hsh => ?_, fun hf => ?_⟩
  · have hz := (h.inv.one.sh_imp hsh).2
    exact ⟨hz, hempty hz⟩
  · rcases step_flags hs with ⟨-, e⟩ | ⟨-, -, e⟩ | ⟨⟨c, caller, hc⟩, -, -⟩
    · exact absurd e hne
    · exact absurd e hne
    · have hz : s.pool.qsize = 0 := (h.inv.one.dstage c _ caller hc).2
      obtain ⟨a, -, b⟩ := hempty hz
      exact ⟨hz, a, b⟩
  · have hr1 := reachable_run h ls hr
    obtain ⟨q1, k2⟩ := hr1.inv.two
    have hz := (hr1.inv.one.sh_imp hsh).2
    have hq : q1 = [] := by
      have := k2.size
      rw [hz] at this
      exact List.length_eq_zero.mp (by exact_mod_cast this.symm)
    subst hq
    have e1 : s1.enq = s1.deq := by simpa using k2.enq_eq
    obtain ⟨x, hx⟩ := run_enq ls hr
    exact ⟨x, by rw [← e1, hx, ← h2.jobs_eq]⟩
  · exact (h.inv.one.freed_imp hf).2

/-- C12: in every reachable state (after `create_threadpool`, and after every
move of `dispatch`, `do_work` and `destroy_threadpool`), following `next` from
`qhead` visits a list of distinct allocated nodes and ends at NULL; `qsize` is the
length of that list, and of any list so linked; `qtail` is its last node; `qhead`
is NULL exactly when `qsize` is 0, and so is `qtail`. -/
theorem queue_well_formed (MAXT_IN_POOL n : Int) (s : Sys) (h : Reachable MAXT_IN_POOL n s) :
    chain s.heap s.pool.qhead (queue s) ∧
    (∀ q, chain s.heap s.pool.qhead q → s.pool.qsize = q.length) ∧
    s.pool.qtail = (queue s).getLast? ∧ (queue s).Nodup ∧
    (jobs s).length = (queue s).length ∧
    (s.pool.qhead = none ↔ s.pool.qsize = 0) ∧ (s.pool.qtail = none ↔ s.pool.qsize = 0) := by
  obtain ⟨q, h2⟩ := h.inv.two
  rw [show jobs s = (queue s).filterMap (fun a => job_at s.heap (some a)) from rfl, h2.queue_eq]
  refine ⟨h2.chain, fun q1 h1 => ?_, h2.tail, h2.nodup, ?_, ?_, ?_⟩
  · rw [chain_unique h2.chain h1]
    exact h2.size
  · have hall := chain_alloc h2.chain
    clear h2
    induction q with
    | nil => rfl
    | cons a q ih =>
      obtain ⟨w, hw⟩ := hall a (List.mem_cons_self _ _)
      have ih1 := ih (fun b hb => hall b (List.mem_cons_of_mem _ hb))
      have e : (fun a => job_at s.heap (some a)) a = some (w.routine, w.arg) := by
        simp [job_at, hw]
      rw [List.filterMap_cons_some (f := fun a => job_at s.heap (some a)) e, List.length_cons, List.length_cons, ih1]
  · rw [h2.size]
    cases q with
    | nil =>
      have e : s.pool.qhead = none := h2.chain
      simp [e]
    | cons a q =>
      obtain ⟨e, -⟩ := h2.chain
      simp only [e, List.length_cons]
      constructor
      · intro h0
        cases h0
      · intro h0
        exfalso
        push_cast at h0
        omega
  · rw [h2.size, h2.tail]
    cases q with
    | nil => simp
    | cons a q =>
      simp only [List.length_cons]
      constructor
      · intro h0
        exact absurd h0 (by simp [List.getLast?_eq_getLast])
      · intro h0
        exfalso
        push_cast at h0
        omega

/-- C13: the pool that `create_threadpool` returns has both flags 0; in every
reachable state the pair `(dont_accept, shutdown)` is (0,0), (1,0) or (1,1); a move
of any thread leaves the pair, or takes it from (0,0) to (1,0), or from (1,0) to
(1,1); and over every run neither flag decreases. -/
theorem lifecycle_flags_only_rise (MAXT_IN_POOL n : Int) (s : Sys)
    (h : Reachable MAXT_IN_POOL n s) :
    (∀ env tp, (create_threadpool MAXT_IN_POOL env n).ret = some tp →
      tp.dont_accept = 0 ∧ tp.shutdown = 0) ∧
    ((s.pool.dont_accept = 0 ∧ s.pool.shutdown = 0) ∨
      (s.pool.dont_accept = 1 ∧ s.pool.shutdown = 0) ∨
      (s.pool.dont_accept = 1 ∧ s.pool.shutdown = 1)) ∧
    (∀ l s1, step s l = Res.next s1 →
      (s1.pool.dont_accept = s.pool.dont_accept ∧ s1.pool.shutdown = s.pool.shutdown) ∨
      (s.pool.dont_accept = 0 ∧ s.pool.shutdown = 0 ∧
        s1.pool.dont_accept = 1 ∧ s1.pool.shutdown = 0) ∨
      (s.pool.dont_accept = 1 ∧ s.pool.shutdown = 0 ∧
        s1.pool.dont_accept = 1 ∧ s1.pool.shutdown = 1)) ∧
    (∀ ls s1, run s ls = Res.next s1 →
      s.pool.dont_accept ≤ s1.pool.dont_accept ∧ s.pool.shutdown ≤ s1.pool.shutdown) := by
  have h1 := h.inv.one
  have h3 := reachable_inv3 h
  refine ⟨fun env tp hc => ?_, ?_, fun l s1 hs => ?_, fun ls s1 hr => ?_⟩
  · obtain ⟨-, -, rfl, -, -⟩ := create_threadpool_ok hc
    exact ⟨rfl, rfl⟩
  · rcases h3.sh01 with e | e
    · rcases h3.da01 with d | d
      · exact Or.inl ⟨d, e⟩
      · exact Or.inr (Or.inl ⟨d, e⟩)
    · exact Or.inr (Or.inr ⟨(h1.sh_imp (by rw [e]; decide)).1, e⟩)
  · rcases step_flags hs with e | ⟨-, e1, e2⟩ | ⟨⟨c, caller, hc⟩, e1, e2⟩
    · exact Or.inl e
    · rcases h3.da01 with d | d
      · have hsh : s.pool.shutdown = 0 := by
          by_contra hne
          have := (h1.sh_imp hne).1
          rw [d] at this
          cases this
        exact Or.inr (Or.inl ⟨d, hsh, e1, e2.trans hsh⟩)
      · exact Or.inl ⟨e1.trans d.symm, e2⟩
    · have d : s.pool.dont_accept = 1 := (h1.dstage c _ caller hc).1
      rcases h3.sh01 with e | e
      · exact Or.inr (Or.inr ⟨d, e, e1.trans d, e2⟩)
      · exact Or.inl ⟨e1, e2.trans e.symm⟩
  · obtain ⟨f1, f2⟩ := run_flags ls hr
    constructor
    · rcases f1 with e | e
      · exact le_of_eq e
      · rw [e]
        rcases h3.da01 with d | d <;> omega
    · rcases f2 with e | e
      · exact le_of_eq e
      · rw [e]
        rcases h3.sh01 with d | d <;> omega

theorem taking_reachable : Reachable 200 2 taking :=
  after_reachable (booted_reachable 200 2 (by decide)) _ rfl

theorem running_reachable : Reachable 200 2 running :=
  after_reachable (booted_reachable 200 2 (by decide)) _ rfl

theorem queue_cons_of_ne {s : Sys} {q : List Addr} (h : Inv2 s q) (hne : s.pool.qsize ≠ 0) :
    ∃ a rest, q = a :: rest := by
  cases q with
  | nil => exact absurd (by simpa using h.size) hne
  | cons a rest => exact ⟨a, rest, rfl⟩

/-- C14: in every reachable state, a worker that stands at the call of the routine
(line 218) does not own the mutex, its `temp` is an allocated node that is not
linked in the queue and that no other thread holds; the node was unlinked by the
move of lines 202-213, made with the mutex owned, and the mutex was released by the
move of line 215, after it. -/
theorem worker_runs_job_unlocked (MAXT_IN_POOL n : Int) (s : Sys)
    (h : Reachable MAXT_IN_POOL n s) (t : Tid) (temp : Option Addr) :
    (s.worker t = wpc.run temp →
      s.pool.qlock ≠ some (Thread.worker t) ∧
      ∃ p w, temp = some p ∧ s.heap p = some w ∧ p ∉ queue s ∧
        ∀ x, owned s x = some p → x = Thread.worker t) ∧
    (s.worker t = wpc.unlock temp →
      s.pool.qlock = some (Thread.worker t) ∧
      (∃ p w, temp = some p ∧ s.heap p = some w ∧ p ∉ queue s) ∧
      ∃ s1, step s (Label.worker t) = Res.next s1 ∧ s1.worker t = wpc.run temp ∧
        s1.pool.qlock = none) ∧
    (s.worker t = wpc.dequeue →
      ∃ p s1, step s (Label.worker t) = Res.next s1 ∧ s1.worker t = wpc.unlock (some p) ∧
        p ∈ queue s ∧ p ∉ queue s1 ∧ s1.pool.qlock = some (Thread.worker t)) := by
  have h1 := h.inv.one
  obtain ⟨q, h2⟩ := h.inv.two
  have h3 := reachable_inv3 h
  have hheld : ∀ pc, s.worker t = pc → wholds pc temp →
      ∃ p w, temp = some p ∧ s.heap p = some w ∧ p ∉ queue s ∧
        ∀ x, owned s x = some p → x = Thread.worker t := by
    intro pc hpc hw
    have hne := h3.temp_some t temp (hpc ▸ hw)
    obtain ⟨p, rfl⟩ := Option.ne_none_iff_exists'.mp hne
    have hown : owned s (Thread.worker t) = some p := by
      rcases hw with e | e | e <;> simp [owned, hpc, e, wtemp]
    obtain ⟨w, hw1⟩ := h2.own_alloc _ p hown
    refine ⟨p, w, rfl, hw1, ?_, fun x hx => h2.own_inj x _ p hx hown⟩
    rw [h2.queue_eq]
    exact h2.own_notq _ p hown
  refine ⟨fun hpc => ⟨fun e => ?_, hheld _ hpc (Or.inr (Or.inl rfl))⟩, fun hpc => ?_,
    fun hpc => ?_⟩
  · have := h3.wown t e
    rw [hpc] at this
    cases this
  · have hlock := h1.wlock t (by rw [hpc]; rfl)
    have hfreed := h1.live t (by rw [hpc]; exact fun e => by cases e)
    obtain ⟨p, w, e, hw, hn, -⟩ := hheld _ hpc (Or.inl rfl)
    have hstep : step s (Label.worker t) =
        Res.next ({ s with pool := { s.pool with qlock := none } }.setWorker t (wpc.run temp)) := by
      simp [step, do_work_step, hpc, hfreed, mutex_unlock, hlock]
    exact ⟨hlock, ⟨p, w, e, hw, hn⟩, _, hstep, by simp [Sys.setWorker], rfl⟩
  · have hlock := h1.wlock t (by rw [hpc]; rfl)
    have hfreed := h1.live t (by rw [hpc]; exact fun e => by cases e)
    obtain ⟨a, rest, rfl⟩ := queue_cons_of_ne h2 (h1.wdeq t hpc)
    obtain ⟨tp, hd, hinv⟩ := h2.take t
    have hstep : step s (Label.worker t) = Res.next
        ({ s with pool := tp, deq := s.deq ++ (job_at s.heap (some a)).toList }.setWorker t
          (wpc.unlock (some a))) := by
      simp [step, do_work_step, hpc, hfreed, hd]
    refine ⟨a, _, hstep, ?_, ?_, ?_, ?_⟩
    · simp [Sys.setWorker]
    · rw [h2.queue_eq]
      exact List.mem_cons_self _ _
    · rw [hinv.queue_eq]
      exact (List.nodup_cons.mp h2.nodup).1
    · exact (do_work_dequeue_frame hd).2.2.2.2.1.trans hlock

/-- Witness of C14: worker 0 at the call of the routine of the first job. -/
theorem worker_runs_job_unlocked_witness :
    Reachable 200 2 running ∧ running.worker 0 = wpc.run (some 100) ∧
      queue running = [101] ∧ running.pool.qlock = none ∧
      (running.worker 0 = wpc.run (some 100) →
        running.pool.qlock ≠ some (Thread.worker 0) ∧
        ∃ p w, some 100 = some p ∧ running.heap p = some w ∧ p ∉ queue running ∧
          ∀ x, owned running x = some p → x = Thread.worker 0) :=
  ⟨running_reachable, rfl, rfl, rfl,
    (worker_runs_job_unlocked 200 2 running running_reachable 0 (some 100)).1⟩

/-- C15: in every reachable state whose queue is `a :: rest`, the block of lines
202-213 takes `a` into `temp`, leaves `rest` linked from `qhead` in the same
order, makes `qsize` one less, and signals `q_empty` exactly when the new `qsize`
is 0 and `dont_accept` is raised (never when the pool is Accepting); a worker that
stands at this block makes the move, after which the queue is `rest` and the job
of `a` is the last one dequeued. -/
theorem dequeue_takes_head (MAXT_IN_POOL n : Int) (s : Sys) (h : Reachable MAXT_IN_POOL n s)
    (a : Addr) (rest : List Addr) (hq : queue s = a :: rest) :
    ∃ tp, do_work_dequeue s.pool s.heap = some (tp, some a) ∧
      chain s.heap tp.qhead rest ∧ tp.qsize = rest.length ∧
      tp.qsize = s.pool.qsize - 1 ∧
      (tp.q_empty.signals = s.pool.q_empty.signals + 1 ↔
        tp.qsize = 0 ∧ s.pool.dont_accept ≠ 0) ∧
      (¬ (tp.qsize = 0 ∧ s.pool.dont_accept ≠ 0) → tp.q_empty = s.pool.q_empty) ∧
      (s.pool.dont_accept = ACCEPT → tp.q_empty = s.pool.q_empty) ∧
      tp.q_empty.broadcasts = s.pool.q_empty.broadcasts ∧
      tp.q_not_empty = s.pool.q_not_empty ∧
      ∀ t, s.worker t = wpc.dequeue →
        ∃ s1, step s (Label.worker t) = Res.next s1 ∧ s1.pool = tp ∧
          s1.worker t = wpc.unlock (some a) ∧ queue s1 = rest ∧
          jobs s = (job_at s.heap (some a)).toList ++ jobs s1 ∧
          s1.deq = s.deq ++ (job_at s.heap (some a)).toList := by
  have h1 := h.inv.one
  obtain ⟨q, h2⟩ := h.inv.two
  have hq1 : q = a :: rest := h2.queue_eq.symm.trans hq
  subst hq1
  obtain ⟨tp, hd, hinv⟩ := h2.take 0
  obtain ⟨-, -, -, -, -, f6, f7, -⟩ := do_work_dequeue_frame hd
  have hqe := do_work_dequeue_q_empty hd
  rw [← f7] at hqe
  refine ⟨tp, hd, hinv.chain, hinv.size, f7, ?_, ?_, ?_, ?_, f6, fun t hpc => ?_⟩
  · rw [hqe]
    split
    · rename_i hc
      simp [cond_signal, hc]
    · rename_i hc
      simp [hc]
  · intro hc
    rw [hqe, if_neg hc]
  · intro hacc
    rw [hqe, if_neg (fun hc => hc.2 hacc)]
  · rw [hqe]
    split <;> rfl
  · have hfreed := h1.live t (by rw [hpc]; exact fun e => by cases e)
    obtain ⟨tp1, hd1, hinv1⟩ := h2.take t
    rw [hd] at hd1
    cases hd1
    have hstep : step s (Label.worker t) = Res.next
        ({ s with pool := tp, deq := s.deq ++ (job_at s.heap (some a)).toList }.setWorker t
          (wpc.unlock (some a))) := by
      simp [step, do_work_step, hpc, hfreed, hd]
    refine ⟨_, hstep, rfl, ?_, hinv1.queue_eq, ?_, rfl⟩
    · simp [Sys.setWorker]
    · have e1 := hinv1.jobs_eq
      have e0 := h2.jobs_eq
      have e2 : s.enq = (s.deq ++ (job_at s.heap (some a)).toList) ++
          jobs ({ s with pool := tp, deq := s.deq ++ (job_at s.heap (some a)).toList }.setWorker t
            (wpc.unlock (some a))) := e1
      rw [e0, List.append_assoc] at e2
      exact List.append_cancel_left e2

/-- Witness of C15: worker 0 at the dequeue with the jobs at 100 and 101 queued. -/
theorem dequeue_takes_head_witness :
    Reachable 200 2 taking ∧ queue taking = [100, 101] ∧ taking.worker 0 = wpc.dequeue ∧
      ∃ tp, do_work_dequeue taking.pool taking.heap = some (tp, some 100) ∧
        chain taking.heap tp.qhead [101] ∧ tp.qsize = ([101] : List Addr).length ∧
        tp.qsize = taking.pool.qsize - 1 ∧
        (tp.q_empty.signals = taking.pool.q_empty.signals + 1 ↔
          tp.qsize = 0 ∧ taking.pool.dont_accept ≠ 0) ∧
        (¬ (tp.qsize = 0 ∧ taking.pool.dont_accept ≠ 0) → tp.q_empty = taking.pool.q_empty) ∧
        (taking.pool.dont_accept = ACCEPT → tp.q_empty = taking.pool.q_empty) ∧
        tp.q_empty.broadcasts = taking.pool.q_empty.broadcasts ∧
        tp.q_not_empty = taking.pool.q_not_empty ∧
        ∀ t, taking.worker t = wpc.dequeue →
          ∃ s1, step taking (Label.worker t) = Res.next s1 ∧ s1.pool = tp ∧
            s1.worker t = wpc.unlock (some 100) ∧ queue s1 = [101] ∧
            jobs taking = (job_at taking.heap (some 100)).toList ++ jobs s1 ∧
            s1.deq = taking.deq ++ (job_at taking.heap (some 100)).toList :=
  ⟨taking_reachable, rfl, rfl, dequeue_takes_head 200 2 taking taking_reachable 100 [101] rfl⟩

/-- C16: in every reachable state `qsize` is not negative; a worker that stands at
the dequeue (line 202) finds `qsize >= 1` and an allocated node at `qhead`, and its
move succeeds and leaves `qsize >= 0`; every job ever linked, and every node linked
in the queue, has a routine and an argument that are not NULL; and a worker that
stands at the call (line 218) holds a node whose routine and argument are not
NULL, so the call is made. -/
theorem worker_dequeue_and_call_safe (MAXT_IN_POOL n : Int) (s : Sys)
    (h : Reachable MAXT_IN_POOL n s) :
    0 ≤ s.pool.qsize ∧
    (∀ t, s.worker t = wpc.dequeue →
      1 ≤ s.pool.qsize ∧ (∃ a w, s.pool.qhead = some a ∧ s.heap a = some w) ∧
      ∃ s1, step s (Label.worker t) = Res.next s1 ∧ 0 ≤ s1.pool.qsize) ∧
    (∀ j ∈ s.enq, j.1 ≠ none ∧ j.2 ≠ none) ∧
    (∀ a ∈ queue s, ∃ w, s.heap a = some w ∧ w.routine ≠ none ∧ w.arg ≠ none) ∧
    (∀ t temp, s.worker t = wpc.run temp →
      (∃ r x, job_at s.heap temp = some (some r, some x)) ∧
      ∃ s1, step s (Label.worker t) = Res.next s1) := by
  have h1 := h.inv.one
  obtain ⟨q, h2⟩ := h.inv.two
  have h3 := reachable_inv3 h
  have hacct := h.inv.acct
  refine ⟨?_, fun t hpc => ?_, h3.enq_ok, fun a ha => ?_, fun t temp hpc => ?_⟩
  · rw [h2.size]
    exact Int.natCast_nonneg _
  · have hfreed := h1.live t (by rw [hpc]; exact fun e => by cases e)
    obtain ⟨a, rest, rfl⟩ := queue_cons_of_ne h2 (h1.wdeq t hpc)
    obtain ⟨tp, hd, hinv⟩ := h2.take t
    obtain ⟨e, w, hw, -⟩ := h2.chain
    have hstep : step s (Label.worker t) = Res.next
        ({ s with pool := tp, deq := s.deq ++ (job_at s.heap (some a)).toList }.setWorker t
          (wpc.unlock (some a))) := by
      simp [step, do_work_step, hpc, hfreed, hd]
    refine ⟨?_, ⟨a, w, e, hw⟩, _, hstep, ?_⟩
    · rw [h2.size]
      simp only [List.length_cons]
      omega
    · show tp.qsize ≥ 0
      rw [show tp.qsize = (rest.length : Int) from hinv.size]
      exact Int.natCast_nonneg _
  · rw [h2.queue_eq] at ha
    obtain ⟨w, hw⟩ := chain_alloc h2.chain a ha
    have hj : (w.routine, w.arg) ∈ s.enq := by
      rw [h2.enq_eq]
      refine List.mem_append_right _ (List.mem_filterMap.mpr ⟨a, ha, ?_⟩)
      simp [job_at, hw]
    exact ⟨w, hw, h3.enq_ok _ hj⟩
  · have hne := h3.temp_some t temp (Or.inr (Or.inl hpc))
    obtain ⟨p, rfl⟩ := Option.ne_none_iff_exists'.mp hne
    obtain ⟨w, hw⟩ := h2.own_alloc (Thread.worker t) p (by simp [owned, hpc, wtemp])
    have hjob : job_at s.heap (some p) = some (w.routine, w.arg) := by simp [job_at, hw]
    have ht := h1.worker_lt t (by rw [hpc]; exact fun e => by cases e)
    have hle := wjob_le_inflight s t ht
    have hmem : (w.routine, w.arg) ∈ (s.deq : Multiset Job) := by
      rw [hacct]
      refine Multiset.mem_add.mpr (Or.inr (Multiset.mem_of_le hle ?_))
      simp [hpc, wjob, hjob]
    have hj : (w.routine, w.arg) ∈ s.enq := by
      rw [h2.enq_eq]
      exact List.mem_append_left _ (by simpa using hmem)
    obtain ⟨hr, ha⟩ := h3.enq_ok _ hj
    obtain ⟨r, hr1⟩ := Option.ne_none_iff_exists'.mp hr
    obtain ⟨x, hx1⟩ := Option.ne_none_iff_exists'.mp ha
    simp only at hr1 hx1
    rw [hr1, hx1] at hjob
    have hstep : step s (Label.worker t) = Res.next
        ({ s with ran := s.ran ++ [(some r, some x)] }.setWorker t (wpc.free (some p))) := by
      simp [step, do_work_step, hpc, hjob]
    exact ⟨⟨r, x, hjob⟩, _, hstep⟩

/-- Witness of C16: worker 0 at the call of the first job, the second one queued. -/
theorem worker_dequeue_and_call_safe_witness :
    Reachable 200 2 running ∧ running.pool.qsize = 1 ∧
      (0 ≤ running.pool.qsize ∧
      (∀ t, running.worker t = wpc.dequeue →
        1 ≤ running.pool.qsize ∧
        (∃ a w, running.pool.qhead = some a ∧ running.heap a = some w) ∧
        ∃ s1, step running (Label.worker t) = Res.next s1 ∧ 0 ≤ s1.pool.qsize) ∧
      (∀ j ∈ running.enq, j.1 ≠ none ∧ j.2 ≠ none) ∧
      (∀ a ∈ queue running,
        ∃ w, running.heap a = some w ∧ w.routine ≠ none ∧ w.arg ≠ none) ∧
      (∀ t temp, running.worker t = wpc.run temp →
        (∃ r x, job_at running.heap temp = some (some r, some x)) ∧
        ∃ s1, step running (Label.worker t) = Res.next s1)) :=
  ⟨running_reachable, rfl, worker_dequeue_and_call_safe 200 2 running running_reachable⟩

theorem strcmp_eq_zero (a b : List Char) : strcmp a b = 0 ↔ a = b := by
  induction a generalizing b with
  | nil =>
    cases b with
    | nil => simp [strcmp]
    | cons y ys => simp [strcmp]
  | cons x xs ih =>
    cases b with
    | nil => simp [strcmp]
    | cons y ys =>
      simp only [strcmp]
      by_cases e : x = y
      · simp [e, ih]
      · simp only [e, if_false, List.cons.injEq, false_and, iff_false]
        split <;> decide

theorem lnot_strcmp (a b : List Char) : lnot (strcmp a b) ≠ 0 ↔ a = b := by
  unfold lnot
  rw [← strcmp_eq_zero a b]
  split
  · rename_i e
    simp [e]
  · rename_i e
    simp [e]

set_option maxRecDepth 100000 in
/-- Witness of C11: the run of `tester.c` up to the return of `destroy_threadpool`. -/
theorem shutdown_only_when_queue_empty_witness :
    Reachable 200 10 tester_done ∧ tester_done.pool.shutdown = 1 ∧
      destroy_returned tester_done ∧
      (tester_done.pool.qsize = 0 ∧ queue tester_done = [] ∧ tester_done.pool.qhead = none ∧
        tester_done.deq = tester_done.enq) ∧
      ∀ t, tester_done.worker t = wpc.done :=
  ⟨tester_done_reachable, rfl, rfl,
    (shutdown_only_when_queue_empty 200 10 tester_done tester_done_reachable).1
      (by rw [show tester_done.pool.shutdown = 1 from rfl]; decide),
    (shutdown_only_when_queue_empty 200 10 tester_done tester_done_reachable).2.2.2 rfl⟩

set_option maxRecDepth 100000 in
/-- Witness of C12: midway through the run of `tester.c`, 15 jobs are linked. -/
theorem queue_well_formed_witness :
    Reachable 200 10 tester_midway ∧ tester_midway.pool.qsize = 15 ∧
      (chain tester_midway.heap tester_midway.pool.qhead (queue tester_midway) ∧
      (∀ q, chain tester_midway.heap tester_midway.pool.qhead q →
        tester_midway.pool.qsize = q.length) ∧
      tester_midway.pool.qtail = (queue tester_midway).getLast? ∧
      (queue tester_midway).Nodup ∧
      (jobs tester_midway).length = (queue tester_midway).length ∧
      (tester_midway.pool.qhead = none ↔ tester_midway.pool.qsize = 0) ∧
      (tester_midway.pool.qtail = none ↔ tester_midway.pool.qsize = 0)) :=
  ⟨tester_midway_reachable, rfl, queue_well_formed 200 10 tester_midway tester_midway_reachable⟩

/-- Witness of C13: the pool that `destroy_threadpool` is draining has the pair
of flags (1,0), and no run from it lowers a flag. -/
theorem lifecycle_flags_only_rise_witness :
    Reachable 200 1 draining ∧ draining.pool.dont_accept = 1 ∧ draining.pool.shutdown = 0 ∧
      ∀ ls s1, run draining ls = Res.next s1 →
        draining.pool.dont_accept ≤ s1.pool.dont_accept ∧
          draining.pool.shutdown ≤ s1.pool.shutdown :=
  ⟨draining_reachable, rfl, rfl,
    (lifecycle_flags_only_rise 200 1 draining draining_reachable).2.2.2⟩

/-- C17 fails on the code: line 824 tests `!strcmp(ext, ".mpg") == 0`, which is
true when `ext` is NOT ".mpg".  A name that ends in ".mpg" gets NULL (and 403 from
`send_file_response`); a name that ends in ".mp3", or in any extension that the
table does not list before that line, gets "video/mpeg", so no unlisted extension
gets NULL and line 826 is never reached with a match.  The rows tested before
line 824, ".mpeg", and a name with no '.' are as the table says. -/
theorem get_mime_type_mpg_test_inverted :
    get_mime_type "clip.mpg" = none ∧ send_file_response_code "clip.mpg" = some FORBIDDEN ∧
    get_mime_type "song.mp3" = some "video/mpeg" ∧
    get_mime_type "archive.zip" = some "video/mpeg" ∧
    send_file_response_code "archive.zip" = none ∧
    (∀ name ext, strrchr name.toList '.' = some ext → ext ∉ early_extensions →
      get_mime_type name = if ext = ".mpg".toList then none else some "video/mpeg") ∧
    (get_mime_type "index.html" = some "text/html" ∧ get_mime_type "a.htm" = some "text/html" ∧
      get_mime_type "a.txt" = some "text/html" ∧ get_mime_type "a.jpg" = some "image/jpeg" ∧
      get_mime_type "a.jpeg" = some "image/jpeg" ∧ get_mime_type "a.gif" = some "image/gif" ∧
      get_mime_type "a.png" = some "image/png" ∧ get_mime_type "a.css" = some "text/css" ∧
      get_mime_type "a.au" = some "audio/basic" ∧ get_mime_type "a.wav" = some "audio/wav" ∧
      get_mime_type "a.avi" = some "video/x-msvideo" ∧
      get_mime_type "a.mpeg" = some "video/mpeg" ∧ get_mime_type "README" = none) := by
  refine ⟨by decide, by decide, by decide, by decide, by decide, ?_, by decide⟩
  intro name ext he hn
  simp only [early_extensions, List.mem_cons, List.mem_singleton, List.not_mem_nil, or_false,
    not_or] at hn
  obtain ⟨n1, n2, n3, n4, n5, n6, n7, n8, n9, n10, n11⟩ := hn
  unfold get_mime_type
  simp only [he, lnot_strcmp, n1, n2, n3, n4, n5, n6, n7, n8, n9, n10, n11, or_self, if_false]
  by_cases e : ext = ".mpg".toList
  · subst e
    simp only [if_true]
    decide
  · have e1 : lnot (strcmp ext ".mpg".toList) = 0 := by
      by_contra hne
      exact e ((lnot_strcmp _ _).mp hne)
    simp only [e, e1, if_true, if_false, ne_eq, one_ne_zero, not_false_eq_true, or_true]

end ThreadPool
